import Mathlib

/-!
# crypto-asset-tracker-microservice: stream multiplexing and fan-out

A shallow embedding of

* `Aggregator/gateway/strman/stream_manager.go` (`StreamManager`),
* `Aggregator/gateway/converting/convertingAggTrade.go` (`receiveSecondStat`),
* `Profile/internal/websocket/manager.go` (`Manager`),

with the properties of the specification stated over it.

Go maps are association lists (`GoMap`); a buffered Go channel is a bounded
queue (`Chan`); goroutines become explicit steps of a transition system.
-/

set_option autoImplicit false

namespace CryptoTracker

/-! ## Go maps -/

/-- A Go `map[K]V`: an association list, read through `GoMap.lookup`. -/
abbrev GoMap (K V : Type) := List (K × V)

namespace GoMap

variable {K V : Type} [DecidableEq K]

/-- The read `v, ok := m[k]`. -/
def lookup (k : K) : GoMap K V → Option V
  | [] => none
  | (k', v) :: rest => if k' = k then some v else lookup k rest

/-- The test `_, ok := m[k]`. -/
def contains (m : GoMap K V) (k : K) : Bool := (lookup k m).isSome

/-- The builtin `delete(m, k)`. -/
def erase (k : K) (m : GoMap K V) : GoMap K V :=
  m.filter (fun e => decide (e.1 ≠ k))

/-- The assignment `m[k] = v`: overwrite the entry of `k` where it stands, or add one. -/
def insert (k : K) (v : V) : GoMap K V → GoMap K V
  | [] => [(k, v)]
  | (k', v') :: rest => if k' = k then (k, v) :: rest else (k', v') :: insert k v rest

/-- The keys, in the order a `range` visits them in this model. -/
def keys (m : GoMap K V) : List K := m.map Prod.fst

/-- A map holds each key once. -/
def WF (m : GoMap K V) : Prop := (keys m).Nodup

instance (m : GoMap K V) : Decidable (WF m) := by
  unfold WF; infer_instance

end GoMap

/-- The function `strings.ToLower` as it is on a string of ASCII characters: it lowers the
letters `A` to `Z` and leaves every other character. On other strings `strings.ToLower`
lowers every Unicode letter; the properties that speak of every string take it as a
parameter (`strman.IsToLower`). -/
def toLower (s : String) : String := String.mk (s.data.map Char.toLower)

/-- The string `s` holds ASCII characters only. -/
def isASCII (s : String) : Prop := ∀ c ∈ s.data, c.toNat < 128

instance (s : String) : Decidable (isASCII s) := by
  unfold isASCII; infer_instance

/-! ## Aggregator: StreamManager -/

/-- The cancel function `context.CancelFunc` of a stream task, named by the task's number. -/
abbrev CancelFunc := Nat

/-- The struct `StreamManager`. `streams` and `Followers` are its two maps (a follower set
is a `map[string]struct{}`). The other fields record what the code does outside the struct:
`started` counts the goroutines that `start` has spawned (the next task's number),
`cancelled` lists the cancel functions in the order they were invoked. -/
structure StreamManager where
  streams : GoMap String CancelFunc
  Followers : GoMap String (GoMap String Unit)
  started : Nat
  cancelled : List CancelFunc
  deriving DecidableEq, Repr

/-- The constructor `NewStreamManager`. -/
def NewStreamManager : StreamManager :=
  { streams := [], Followers := [], started := 0, cancelled := [] }

namespace StreamManager

/-- The method `start`: records a fresh cancel function under `symbol` and spawns the task. -/
def start (sm : StreamManager) (symbol : String) : StreamManager :=
  { sm with streams := GoMap.insert symbol sm.started sm.streams, started := sm.started + 1 }

end StreamManager

namespace strman

/-- The method `StreamManager.AddCoin` of the package `strman`, with `strings.ToLower` as
the parameter `lower`; the result is the returned flag and the state left behind. -/
def AddCoin (lower : String → String) (sm : StreamManager) (symbol userID : String) :
    Bool × StreamManager :=
  let symbol := lower symbol
  let sm1 : StreamManager :=
    if GoMap.contains sm.Followers symbol then sm
    else { sm with Followers := GoMap.insert symbol [] sm.Followers }
  let users := (GoMap.lookup symbol sm1.Followers).getD []
  if GoMap.contains users userID then (false, sm1)
  else
    let sm2 : StreamManager :=
      { sm1 with Followers := GoMap.insert symbol (GoMap.insert userID () users) sm1.Followers }
    if GoMap.contains sm2.streams symbol then (true, sm2)
    else (true, sm2.start symbol)

/-- The method `StreamManager.DeleteCoin` of the package `strman`, with `strings.ToLower`
as the parameter `lower`. -/
def DeleteCoin (lower : String → String) (sm : StreamManager) (symbol userID : String) :
    StreamManager :=
  let symbol := lower symbol
  match GoMap.lookup symbol sm.Followers with
  | none => sm
  | some users =>
    let sm1 : StreamManager :=
      if GoMap.contains users userID then
        { sm with Followers := GoMap.insert symbol (GoMap.erase userID users) sm.Followers }
      else sm
    if ((GoMap.lookup symbol sm1.Followers).getD []).length = 0 then
      match GoMap.lookup symbol sm1.streams with
      | some cancel => { sm1 with cancelled := sm1.cancelled ++ [cancel] }
      | none => sm1
    else sm1

/-- Every key of the map is a lower-case string: `strings.ToLower` leaves it as it is. -/
def LowerKeys (lower : String → String) {V : Type} (m : GoMap String V) : Prop :=
  ∀ k ∈ GoMap.keys m, lower k = k

/-- What the properties take from `strings.ToLower`, a function of the Go library:
lowering a lowered string changes nothing, and on a string of ASCII characters it lowers
the letters `A` to `Z` only, as `toLower` does. -/
structure IsToLower (lower : String → String) : Prop where
  idem : ∀ s, lower (lower s) = lower s
  ascii : ∀ s, isASCII s → lower s = toLower s

end strman

namespace StreamManager

/-- The method `AddCoin` on symbols of ASCII characters. -/
def AddCoin (sm : StreamManager) (symbol userID : String) : Bool × StreamManager :=
  strman.AddCoin toLower sm symbol userID

/-- The method `DeleteCoin` on symbols of ASCII characters. -/
def DeleteCoin (sm : StreamManager) (symbol userID : String) : StreamManager :=
  strman.DeleteCoin toLower sm symbol userID

/-- The deferred function of the goroutine spawned by `start`, run when the task of
`symbol` returns: `delete(sm.streams, symbol)` under the lock. -/
def taskExit (sm : StreamManager) (symbol : String) : StreamManager :=
  { sm with streams := GoMap.erase symbol sm.streams }

/-- A symbol has a live stream: `streams` holds a cancel function for it that has not
been invoked. -/
def live (sm : StreamManager) (symbol : String) : Bool :=
  match GoMap.lookup symbol sm.streams with
  | some cancel => !(sm.cancelled.contains cancel)
  | none => false

/-- The follower set of the symbol in `Followers` is non-empty. -/
def followed (sm : StreamManager) (symbol : String) : Bool :=
  match GoMap.lookup symbol sm.Followers with
  | some users => users.length != 0
  | none => false

/-- One step of the manager: a call of `AddCoin`, a call of `DeleteCoin`, or the deferred
cleanup of the stream task of a symbol. -/
inductive Step where
  | addCoin (symbol userID : String)
  | deleteCoin (symbol userID : String)
  | exit (symbol : String)
  deriving DecidableEq, Repr

end StreamManager

namespace strman

/-- The state after one step, with `strings.ToLower` as the parameter `lower`. -/
def step (lower : String → String) (sm : StreamManager) : StreamManager.Step → StreamManager
  | .addCoin symbol userID => (AddCoin lower sm symbol userID).2
  | .deleteCoin symbol userID => DeleteCoin lower sm symbol userID
  | .exit symbol => sm.taskExit symbol

/-- The state after a sequence of steps, with `strings.ToLower` as the parameter `lower`. -/
def run (lower : String → String) (sm : StreamManager) (steps : List StreamManager.Step) :
    StreamManager :=
  steps.foldl (step lower) sm

end strman

namespace StreamManager

/-- The state after one step, on symbols of ASCII characters. -/
def step (sm : StreamManager) (st : Step) : StreamManager := strman.step toLower sm st

/-- The state after a sequence of steps, on symbols of ASCII characters. -/
def run (sm : StreamManager) (steps : List Step) : StreamManager := strman.run toLower sm steps

/-- The calls `AddCoin(symbol, u)` for each `u` of the list, in order. -/
def addAll (sm : StreamManager) (symbol : String) (users : List String) : StreamManager :=
  users.foldl (fun sm u => (sm.AddCoin symbol u).2) sm

/-- The calls `DeleteCoin(symbol, u)` for each `u` of the list, in order. -/
def deleteAll (sm : StreamManager) (symbol : String) (users : List String) : StreamManager :=
  users.foldl (fun sm u => sm.DeleteCoin symbol u) sm

/-- Every key of the map is a lower-case string, for keys of ASCII characters. -/
def LowerKeys {V : Type} (m : GoMap String V) : Prop := strman.LowerKeys toLower m

instance {V : Type} (m : GoMap String V) : Decidable (LowerKeys m) := by
  unfold LowerKeys strman.LowerKeys; infer_instance

/-- The JSON reply of a handler of `/coin` in `main`: status 400 with an `error`, or status
200 with a `status`, the `symbol` and the `userID`. -/
inductive Reply where
  | badRequest (error : String)
  | ok (status symbol userID : String)
  deriving DecidableEq, Repr

/-- The handler of `GET /coin` in `main`, on the query parameters `symbol` and `id`. -/
def handleGetCoin (sm : StreamManager) (symbol id : String) : Reply × StreamManager :=
  if symbol = "" ∨ id = "" then
    (.badRequest "symbol and id query parameters are required", sm)
  else
    let started := sm.AddCoin symbol id
    if started.1 then (.ok "subscription_added" symbol id, started.2)
    else (.ok "already_subscribed" symbol id, started.2)

/-- The handler of `DELETE /coin` in `main`, on the query parameters `symbol` and `id`. -/
def handleDeleteCoin (sm : StreamManager) (symbol id : String) : Reply × StreamManager :=
  if symbol = "" ∨ id = "" then
    (.badRequest "symbol and id query parameters are required", sm)
  else (.ok "subscription_removed" symbol id, sm.DeleteCoin symbol id)

end StreamManager

/-! ## Go channels -/

/-- A buffered Go channel `make(chan T, cap)`: the items queued, oldest first, the capacity
and whether `close` was called. No receiver takes items during the operations modelled
here. Sending on or closing a closed channel panics in Go: the operations below are used on
open channels. -/
structure Chan (α : Type) where
  buf : List α
  cap : Nat
  closed : Bool
  deriving DecidableEq, Repr

namespace Chan

variable {α : Type}

/-- The number of free slots of the buffer. -/
def free (c : Chan α) : Nat := c.cap - c.buf.length

/-- The non-blocking send `select { case c <- x: default: }`: the channel afterwards, and
whether the item was queued (false: the `default` branch ran, the channel was full). -/
def trySend (c : Chan α) (x : α) : Chan α × Bool :=
  if c.buf.length < c.cap then ({ c with buf := c.buf ++ [x] }, true) else (c, false)

/-- The builtin `close(c)`. -/
def close (c : Chan α) : Chan α := { c with closed := true }

end Chan

/-! ## Aggregator: the windowed aggregation worker -/

/-- The struct `models.AggTrade`, with the two fields that the worker reads. -/
structure AggTrade where
  Symbol : String
  Price : String
  deriving DecidableEq, Repr

/-- The method `AggTrade.PriceFloat`: the parsed price, or `-1` when `strconv.ParseFloat`
(the parameter `parseFloat`, over the carrier `F` of the `float64` values) fails. -/
def AggTrade.PriceFloat {F : Type} [Neg F] [One F] (parseFloat : String → Option F)
    (t : AggTrade) : F :=
  match parseFloat t.Price with
  | some pf => pf
  | none => -1

/-- The struct `models.SecondStat`, as `receiveSecondStat` builds it. -/
structure SecondStat (F : Type) where
  Symbol : String
  Price : F
  deriving DecidableEq, Repr

/-- The state of a running `receiveSecondStat`: its table `latestPrices`, its output
channel, the number of "SecondStat channel is full, dropping message" warnings raised, and
whether the function has returned. -/
structure SecondStatWorker (F : Type) where
  latestPrices : GoMap String F
  outChan : Chan (SecondStat F)
  warnings : Nat
  returned : Bool
  deriving DecidableEq, Repr

/-- What one round of the `select` of `receiveSecondStat` receives: the cancellation, an
item of `inChan` (`none`: the channel is closed), or a tick of the ticker together with the
order in which the `range` over `latestPrices` yields the entries in that round. -/
inductive WorkerEvent (F : Type) where
  | done
  | recv (msg : Option AggTrade)
  | tick (order : List (String × F))

namespace SecondStatWorker

variable {F : Type} [Neg F] [One F]

/-- The body of the `range` loop of the tick: one non-blocking send (the context is not
cancelled), with a warning when the channel is full. -/
def emit (w : SecondStatWorker F) (entry : String × F) : SecondStatWorker F :=
  let sent := w.outChan.trySend { Symbol := entry.1, Price := entry.2 }
  if sent.2 then { w with outChan := sent.1 } else { w with warnings := w.warnings + 1 }

/-- One round of the `for { select { ... } }` loop of `receiveSecondStat`. -/
def selectCase (parseFloat : String → Option F) (w : SecondStatWorker F) :
    WorkerEvent F → SecondStatWorker F
  | .done => { w with returned := true }
  | .recv none => { w with returned := true }
  | .recv (some msg) =>
    { w with latestPrices :=
        GoMap.insert (toLower msg.Symbol) (msg.PriceFloat parseFloat) w.latestPrices }
  | .tick order => order.foldl emit w

/-- The function `receiveSecondStat` over the events it receives, until it returns. -/
def receiveSecondStat (parseFloat : String → Option F) (w : SecondStatWorker F) :
    List (WorkerEvent F) → SecondStatWorker F
  | [] => w
  | ev :: rest =>
    if w.returned then w else receiveSecondStat parseFloat (selectCase parseFloat w ev) rest

/-- The worker after it has received the trades of the list, one round each. -/
def afterTrades (parseFloat : String → Option F) (w : SecondStatWorker F)
    (trades : List AggTrade) : SecondStatWorker F :=
  trades.foldl (fun w t => selectCase parseFloat w (.recv (some t))) w

/-- A stand-in for `strconv.ParseFloat` in the examples: it reads the price strings "100",
"101" and "102" and fails on every other string. -/
def sampleParseFloat (p : String) : Option Int :=
  if p = "100" then some 100
  else if p = "101" then some 101
  else if p = "102" then some 102
  else none

/-- A running worker of the examples: "ethusdt" is in the table and the output channel of
capacity 3 holds one snapshot. -/
def sampleWorker : SecondStatWorker Int :=
  { latestPrices := [("ethusdt", 7)],
    outChan := { buf := [{ Symbol := "ethusdt", Price := 7 }], cap := 3, closed := false },
    warnings := 0, returned := false }

/-- The snapshots that a round added to the output channel. -/
def emitted (before after : SecondStatWorker F) : List (SecondStat F) :=
  after.outChan.buf.drop before.outChan.buf.length

end SecondStatWorker

/-! ## Aggregator: the frame converter -/

/-- The state of a running `ConvertRawToSS`: the trades it has sent on `aggTrChan` to the
worker `receiveSecondStat`, oldest first, the number of "Could not parse bytes into aggTrade
struct" errors logged, and whether the function has returned. -/
structure RawConverter where
  aggTrChan : List AggTrade
  errors : Nat
  returned : Bool
  deriving DecidableEq, Repr

/-- What one round of the outer `select` of `ConvertRawToSS` receives: the cancellation, or
an item of `inChan` (`none`: the channel is closed). -/
inductive ConverterEvent where
  | done
  | recv (msg : Option String)
  deriving DecidableEq, Repr

namespace RawConverter

/-- One round of the loop of `ConvertRawToSS`; `unmarshal` is `json.Unmarshal` into an
`AggTrade`. The context is not cancelled while a decoded trade waits to be sent, so the
send to the worker completes. -/
def selectCase (unmarshal : String → Option AggTrade) (cv : RawConverter) :
    ConverterEvent → RawConverter
  | .done => { cv with returned := true }
  | .recv none => { cv with returned := true }
  | .recv (some msg) =>
    match unmarshal msg with
    | none => { cv with errors := cv.errors + 1 }
    | some aggTrade => { cv with aggTrChan := cv.aggTrChan ++ [aggTrade] }

/-- The function `ConvertRawToSS` over the events it receives, until it returns. -/
def ConvertRawToSS (unmarshal : String → Option AggTrade) (cv : RawConverter) :
    List ConverterEvent → RawConverter
  | [] => cv
  | ev :: rest =>
    if cv.returned then cv else ConvertRawToSS unmarshal (selectCase unmarshal cv ev) rest

/-- A stand-in for `json.Unmarshal` in the examples: the frame "bad" does not decode, every
other frame decodes to a trade of "BTCUSDT" whose price string is the frame. -/
def sampleDecode (frame : String) : Option AggTrade :=
  if frame = "bad" then none else some { Symbol := "BTCUSDT", Price := frame }

end RawConverter

/-! ## Aggregator: the exit sequence of main -/

/-- A call of the exit sequence of `main`: `cancel()`, `server.Shutdown` with its grace
period in seconds, `wg.Wait()`. -/
inductive ExitAction where
  | cancel
  | shutdown (graceSeconds : Nat)
  | wait
  deriving DecidableEq, Repr

/-- What the exit sequence of `main` acts on: whether the root context is cancelled, whether
the HTTP server listens, the number of tasks that the WaitGroup still counts, and the calls
made so far. -/
structure MainState where
  ctxCancelled : Bool
  listening : Bool
  running : Nat
  trace : List ExitAction
  deriving DecidableEq, Repr

namespace MainState

/-- The call `cancel()` of the root context. -/
def cancel (s : MainState) : MainState :=
  { s with ctxCancelled := true, trace := s.trace ++ [.cancel] }

/-- The call `server.Shutdown(shutdownCtx)`, the context having the given timeout. -/
def Shutdown (s : MainState) (graceSeconds : Nat) : MainState :=
  { s with listening := false, trace := s.trace ++ [.shutdown graceSeconds] }

/-- The call `wg.Wait()`: it returns when no task is counted any more. -/
def Wait (s : MainState) : MainState :=
  { s with running := 0, trace := s.trace ++ [.wait] }

/-- The statements of `main` after `<-c`, in the order of the source. -/
def exitSequence (s : MainState) : MainState :=
  ((s.cancel).Shutdown 3).Wait

end MainState

/-! ## Profile: the websocket Manager -/

/-- The type `uuid.UUID`, by its canonical text form (`UUID.String` is the identity). -/
abbrev UUID := String

/-- The type `decimal.Decimal`: exact decimal numbers, with exact `Mul` and `Add`. -/
abbrev Decimal := Rat

/-- The struct `models.Coin`, with the fields that the manager reads. -/
structure Coin where
  Symbol : String
  Quantity : Decimal
  deriving DecidableEq, Repr

/-- The struct `models.User`. -/
structure User where
  ID : UUID
  Name : String
  Coins : List Coin
  deriving DecidableEq, Repr

/-- The struct `models.PriceUpdate`; `Price` holds `decimal.NewFromFloat` of the number on
the wire. -/
structure PriceUpdate where
  Symbol : String
  Price : Decimal
  deriving DecidableEq, Repr

/-- The struct `models.CoinView`. -/
structure CoinView where
  Symbol : String
  Quantity : Decimal
  Price : Decimal
  Total : Decimal
  deriving DecidableEq, Repr

/-- The struct `models.PortfolioView`. -/
structure PortfolioView where
  UserID : String
  UserName : String
  TotalValue : Decimal
  Coins : List CoinView
  deriving DecidableEq, Repr

/-- The struct `redis.Message`. -/
structure Message where
  Channel : String
  Payload : String
  deriving DecidableEq, Repr

/-- The connection `*websocket.Conn` of a client: whether `Close` was called on it. -/
structure Conn where
  closed : Bool
  deriving DecidableEq, Repr

/-- The struct `Client`. `Send` carries the views that `json.Marshal` turns into the bytes
on the channel. -/
structure Client where
  Conn : Conn
  UserID : UUID
  Profile : User
  Send : Chan PortfolioView
  Prices : GoMap String Decimal
  deriving DecidableEq, Repr

/-- A pointer `*Client`. -/
abbrev ClientPtr := Nat

/-- The struct `redis.Subscriber`: the channels subscribed to (the keys of `subscriptions`),
and `receiveErrs`, the outcomes of the coming `pubsub.Receive` calls (true: an error; an
exhausted list: no error). -/
structure Subscriber where
  subscriptions : GoMap String Unit
  receiveErrs : List Bool
  deriving DecidableEq, Repr

namespace Subscriber

/-- The method `Subscriber.Subscribe`; the flag is `err != nil`. -/
def Subscribe (s : Subscriber) (symbol : String) : Bool × Subscriber :=
  if GoMap.contains s.subscriptions symbol then (false, s)
  else
    match s.receiveErrs with
    | true :: rest => (true, { s with receiveErrs := rest })
    | false :: rest =>
      (false, { subscriptions := GoMap.insert symbol () s.subscriptions, receiveErrs := rest })
    | [] => (false, { s with subscriptions := GoMap.insert symbol () s.subscriptions })

/-- The method `Subscriber.Unsubscribe`; it returns nil on every path. -/
def Unsubscribe (s : Subscriber) (symbol : String) : Bool × Subscriber :=
  if GoMap.contains s.subscriptions symbol then
    (false, { s with subscriptions := GoMap.erase symbol s.subscriptions })
  else (false, s)

end Subscriber

/-- An HTTP method of `notifyAggregator`. -/
inductive Method where
  | GET
  | DELETE
  deriving DecidableEq, Repr

/-- A call `go m.notifyAggregator(userID, symbol, method)`. -/
structure Notification where
  userID : String
  symbol : String
  method : Method
  deriving DecidableEq, Repr

/-- The struct `Manager`, with the memory its pointers refer to: `clients`,
`activeRedisSub` and `coinSubscribers` are its maps, `subscriber` its redis subscriber;
`heap` gives the `Client` record behind each pointer, `notified` lists the
`notifyAggregator` goroutines in the order they were spawned, and `warnings` counts the
"client send channel is full, dropping message" warnings. -/
structure Manager where
  clients : GoMap UUID ClientPtr
  activeRedisSub : GoMap String Unit
  coinSubscribers : GoMap String (GoMap UUID Bool)
  subscriber : Subscriber
  heap : ClientPtr → Client
  notified : List Notification
  warnings : Nat

namespace Manager

/-- The method `followCoin`. -/
def followCoin (m : Manager) (userID : UUID) (symbol : String) : Manager :=
  let m1 : Manager :=
    if GoMap.contains m.coinSubscribers symbol then m
    else { m with coinSubscribers := GoMap.insert symbol [] m.coinSubscribers }
  let users := (GoMap.lookup symbol m1.coinSubscribers).getD []
  let m2 : Manager :=
    { m1 with coinSubscribers :=
        GoMap.insert symbol (GoMap.insert userID true users) m1.coinSubscribers }
  if GoMap.contains m2.activeRedisSub symbol then m2
  else
    let m3 : Manager :=
      { m2 with notified := m2.notified ++ [{ userID := userID, symbol := symbol, method := .GET }] }
    let sub := m3.subscriber.Subscribe symbol
    if sub.1 then { m3 with subscriber := sub.2 }
    else { m3 with subscriber := sub.2,
                   activeRedisSub := GoMap.insert symbol () m3.activeRedisSub }

/-- The method `registerClient`. -/
def registerClient (m : Manager) (client : ClientPtr) : Manager :=
  let userID := (m.heap client).UserID
  let m1 : Manager :=
    match GoMap.lookup userID m.clients with
    | some oldClient =>
      let old := m.heap oldClient
      let closedOld : Client := { old with Send := old.Send.close, Conn := { closed := true } }
      { m with heap := Function.update m.heap oldClient closedOld }
    | none => m
  let fresh : Client := { m1.heap client with Prices := [] }
  let m2 : Manager :=
    { m1 with
        heap := Function.update m1.heap client fresh,
        clients := GoMap.insert userID client m1.clients }
  (m2.heap client).Profile.Coins.foldl (fun m coin => m.followCoin userID coin.Symbol) m2

/-- The body of the `range` loop of `unfollowAllCoins`, for the symbol that the loop is at;
a symbol whose entry is gone is not visited. -/
def unfollowCoin (userID : UUID) (m : Manager) (symbol : String) : Manager :=
  match GoMap.lookup symbol m.coinSubscribers with
  | none => m
  | some users =>
    let users1 := if GoMap.contains users userID then GoMap.erase userID users else users
    let m1 : Manager :=
      { m with coinSubscribers := GoMap.insert symbol users1 m.coinSubscribers }
    if users1.length = 0 then
      { m1 with
          notified := m1.notified ++ [{ userID := userID, symbol := symbol, method := .DELETE }],
          coinSubscribers := GoMap.erase symbol m1.coinSubscribers,
          activeRedisSub := GoMap.erase symbol m1.activeRedisSub,
          subscriber := (m1.subscriber.Unsubscribe symbol).2 }
    else m1

/-- The method `unfollowAllCoins`; `order` lists the symbols in the order in which the
`range` over `coinSubscribers` yields them. -/
def unfollowAllCoins (m : Manager) (userID : UUID) (order : List String) : Manager :=
  order.foldl (unfollowCoin userID) m

/-- The method `unregisterClient`, with the order of the `range` of `unfollowAllCoins`. -/
def unregisterClient (m : Manager) (client : ClientPtr) (order : List String) : Manager :=
  let userID := (m.heap client).UserID
  if GoMap.contains m.clients userID then
    unfollowAllCoins { m with clients := GoMap.erase userID m.clients } userID order
  else m

/-- The loop of `processRedisMessage` over `client.Profile.Coins`, from the view with
`TotalValue` zero and no coins. -/
def buildPortfolio (client : Client) : PortfolioView :=
  client.Profile.Coins.foldl
    (fun portfolio coin =>
      let currentPrice := (GoMap.lookup coin.Symbol client.Prices).getD 0
      let total := coin.Quantity * currentPrice
      { portfolio with
          Coins := portfolio.Coins ++
            [{ Symbol := coin.Symbol, Quantity := coin.Quantity,
               Price := currentPrice, Total := total }],
          TotalValue := portfolio.TotalValue + total })
    { UserID := client.UserID, UserName := client.Profile.Name, TotalValue := 0, Coins := [] }

/-- What `processRedisMessage` does to one client, under the client's lock: it records the
price, builds the view and sends it without blocking; the flag tells whether the view was
dropped. -/
def pushUpdate (priceUpdate : PriceUpdate) (client : Client) : Client × Bool :=
  let client1 : Client :=
    { client with Prices := GoMap.insert priceUpdate.Symbol priceUpdate.Price client.Prices }
  let sent := client1.Send.trySend (buildPortfolio client1)
  ({ client1 with Send := sent.1 }, !sent.2)

/-- The body of the `range` loop of `processRedisMessage` over the subscribers. -/
def notifySubscriber (priceUpdate : PriceUpdate) (m : Manager) (userID : UUID) : Manager :=
  match GoMap.lookup userID m.clients with
  | none => m
  | some client =>
    let pushed := pushUpdate priceUpdate (m.heap client)
    { m with heap := Function.update m.heap client pushed.1,
             warnings := if pushed.2 then m.warnings + 1 else m.warnings }

/-- The method `processRedisMessage`; `unmarshal` is `json.Unmarshal` into a
`models.PriceUpdate` followed by `decimal.NewFromFloat` on the price, and `order` lists the
subscribers in the order in which the `range` over the follower set yields them. -/
def processRedisMessage (unmarshal : String → Option PriceUpdate) (m : Manager)
    (msg : Message) (order : List UUID) : Manager :=
  match unmarshal msg.Payload with
  | none => m
  | some priceUpdate =>
    match GoMap.lookup priceUpdate.Symbol m.coinSubscribers with
    | none => m
    | some _ => order.foldl (notifySubscriber priceUpdate) m

/-- The registry is keyed by identity: the record behind `clients[u]` has `UserID` `u`. -/
def Keyed (m : Manager) : Prop := ∀ e ∈ m.clients, (m.heap e.2).UserID = e.1

instance (m : Manager) : Decidable (Keyed m) := by
  unfold Keyed; infer_instance

/-- The identity `userID` is in the follower set of `symbol`. -/
def follows (m : Manager) (symbol : String) (userID : UUID) : Bool :=
  match GoMap.lookup symbol m.coinSubscribers with
  | some users => GoMap.contains users userID
  | none => false

/-- The follower set of a symbol once the body of the loop of `unfollowAllCoins` has run
for it: `none` when there was no entry or when the entry was deleted. -/
def unfollowed (userID : UUID) : Option (GoMap UUID Bool) → Option (GoMap UUID Bool)
  | none => none
  | some users =>
    if (if GoMap.contains users userID then GoMap.erase userID users else users).length = 0
    then none
    else some (if GoMap.contains users userID then GoMap.erase userID users else users)

/-- The body of the loop of `unfollowAllCoins` deletes the entry of a symbol with this
follower set. -/
def emptied (userID : UUID) (entry : Option (GoMap UUID Bool)) : Bool :=
  entry.isSome && (unfollowed userID entry).isNone

/-- The entry of the view for one coin of the portfolio, under the price cache `prices`:
the cached price, or zero when the symbol has none, and the total at that price. -/
def coinView (prices : GoMap String Decimal) (coin : Coin) : CoinView :=
  { Symbol := coin.Symbol, Quantity := coin.Quantity,
    Price := (GoMap.lookup coin.Symbol prices).getD 0,
    Total := coin.Quantity * (GoMap.lookup coin.Symbol prices).getD 0 }

/-- A stand-in for `json.Unmarshal` in the examples: it decodes the payload of a price
update of 100 for "BTC" and fails on every other payload. -/
def sampleUnmarshal (payload : String) : Option PriceUpdate :=
  if payload = "\x7b\"s\":\"BTC\",\"p\":100\x7d" then some { Symbol := "BTC", Price := 100 }
  else none

/-- The client records of the examples: two connections of "alice" (pointers 0 and 2,
holding 2 BTC and 5 ETH) and one of "bob" (pointer 1, whose `Send` queue is full). -/
def sampleHeap : ClientPtr → Client
  | 1 =>
    { Conn := { closed := false }, UserID := "bob",
      Profile := { ID := "bob", Name := "Bob", Coins := [{ Symbol := "BTC", Quantity := 1 }] },
      Send := { buf := [{ UserID := "bob", UserName := "Bob", TotalValue := 0, Coins := [] }],
                cap := 1, closed := false },
      Prices := [] }
  | _ =>
    { Conn := { closed := false }, UserID := "alice",
      Profile := { ID := "alice", Name := "Alice",
                   Coins := [{ Symbol := "BTC", Quantity := 2 }, { Symbol := "ETH", Quantity := 5 }] },
      Send := { buf := [], cap := 4, closed := false },
      Prices := [] }

/-- The manager of the examples: "alice" (pointer 0) and "bob" (pointer 1) are registered
and follow the symbols of their portfolios. -/
def sampleManager : Manager :=
  { clients := [("alice", 0), ("bob", 1)],
    activeRedisSub := [("BTC", ()), ("ETH", ())],
    coinSubscribers := [("BTC", [("alice", true), ("bob", true)]), ("ETH", [("alice", true)])],
    subscriber := { subscriptions := [("BTC", ()), ("ETH", ())], receiveErrs := [] },
    heap := sampleHeap,
    notified := [],
    warnings := 0 }

/-- The constructor `NewManager`, with the memory that holds the client records. -/
def NewManager (subscriber : Subscriber) (heap : ClientPtr → Client) : Manager :=
  { clients := [], activeRedisSub := [], coinSubscribers := [], subscriber := subscriber,
    heap := heap, notified := [], warnings := 0 }

/-- A call that the loop of `Manager.Run` makes: `registerClient` or `unregisterClient` (with
the order of the `range` of its `unfollowAllCoins`). -/
inductive Call where
  | register (client : ClientPtr)
  | unregister (client : ClientPtr) (order : List String)
  deriving DecidableEq, Repr

/-- The state after one call. -/
def call (m : Manager) : Call → Manager
  | .register client => m.registerClient client
  | .unregister client order => m.unregisterClient client order

/-- The state after a sequence of calls. -/
def calls (m : Manager) (cs : List Call) : Manager := cs.foldl call m

/-- The follower set of the symbol in `coinSubscribers` is non-empty. -/
def hasFollowers (m : Manager) (symbol : String) : Bool :=
  match GoMap.lookup symbol m.coinSubscribers with
  | some users => users.length != 0
  | none => false

/-- The symbol is in `activeRedisSub`. -/
def active (m : Manager) (symbol : String) : Bool := GoMap.contains m.activeRedisSub symbol

/-- No coming `pubsub.Receive` fails, so no `Subscribe` call returns an error. -/
def NoSubscribeError (m : Manager) : Prop := ∀ b ∈ m.subscriber.receiveErrs, b = false

instance (m : Manager) : Decidable (NoSubscribeError m) := by
  unfold NoSubscribeError; infer_instance

/-- The client records of the examples over lower-case symbols: "bob" (pointer 1) and
"alice" (every other pointer) each hold "btcusdt". -/
def lowerHeap : ClientPtr → Client
  | 1 =>
    { Conn := { closed := false }, UserID := "bob",
      Profile := { ID := "bob", Name := "Bob", Coins := [{ Symbol := "btcusdt", Quantity := 1 }] },
      Send := { buf := [], cap := 4, closed := false },
      Prices := [] }
  | _ =>
    { Conn := { closed := false }, UserID := "alice",
      Profile := { ID := "alice", Name := "Alice",
                   Coins := [{ Symbol := "btcusdt", Quantity := 2 }] },
      Send := { buf := [], cap := 4, closed := false },
      Prices := [] }

/-- The Aggregator receives a notification of `notifyAggregator`: the request reaches the
handler of its method with the notified symbol and user id as query parameters. -/
def deliver (sm : StreamManager) (n : Notification) : StreamManager :=
  match n.method with
  | .GET => (sm.handleGetCoin n.symbol n.userID).2
  | .DELETE => (sm.handleDeleteCoin n.symbol n.userID).2

/-- The Aggregator receives the notifications of the list, in order. -/
def deliverAll (sm : StreamManager) (ns : List Notification) : StreamManager :=
  ns.foldl deliver sm

/-- The client records of the example with an upper-case symbol: "alice" holds
"BTCUSDT". -/
def upperHeap : ClientPtr → Client :=
  fun _ =>
    { Conn := { closed := false }, UserID := "alice",
      Profile := { ID := "alice", Name := "Alice",
                   Coins := [{ Symbol := "BTCUSDT", Quantity := 2 }] },
      Send := { buf := [], cap := 4, closed := false },
      Prices := [] }

/-- A stand-in for `json.Unmarshal` in the examples: it decodes the payloads of a price
update of 100 for "btcusdt", of 100 for "BTC" and of 5 for "ETH", and fails on every other
payload. -/
def sampleUnmarshalMore (payload : String) : Option PriceUpdate :=
  if payload = "\x7b\"s\":\"btcusdt\",\"p\":100\x7d" then some { Symbol := "btcusdt", Price := 100 }
  else if payload = "\x7b\"s\":\"BTC\",\"p\":100\x7d" then some { Symbol := "BTC", Price := 100 }
  else if payload = "\x7b\"s\":\"ETH\",\"p\":5\x7d" then some { Symbol := "ETH", Price := 5 }
  else none

/-- The round `message, ok := <-c.Send` of the `Writer` of a client: it takes the oldest
view from the queue. -/
def writerReceives (m : Manager) (client : ClientPtr) : Manager :=
  let c := m.heap client
  let taken : Client := { c with Send := { c.Send with buf := c.Send.buf.tail } }
  { m with heap := Function.update m.heap client taken }

/-- A price update, then one round of the `Writer` of a client, then a second price
update. -/
def updateWriteUpdate (unmarshal : String → Option PriceUpdate) (m : Manager)
    (msg1 : Message) (order1 : List UUID) (client : ClientPtr)
    (msg2 : Message) (order2 : List UUID) : Manager :=
  processRedisMessage unmarshal
    (writerReceives (processRedisMessage unmarshal m msg1 order1) client) msg2 order2

/-- The manager of the examples with a full queue: "alice" (pointer 0) holds 2 BTC and
5 ETH, follows both, and her `Send` queue of capacity 1 holds one view. -/
def fullManager : Manager :=
  { clients := [("alice", 0)],
    activeRedisSub := [("BTC", ()), ("ETH", ())],
    coinSubscribers := [("BTC", [("alice", true)]), ("ETH", [("alice", true)])],
    subscriber := { subscriptions := [("BTC", ()), ("ETH", ())], receiveErrs := [] },
    heap := fun _ =>
      { Conn := { closed := false }, UserID := "alice",
        Profile := { ID := "alice", Name := "Alice",
                     Coins := [{ Symbol := "BTC", Quantity := 2 }, { Symbol := "ETH", Quantity := 5 }] },
        Send := { buf := [{ UserID := "alice", UserName := "Alice", TotalValue := 0, Coins := [] }],
                  cap := 1, closed := false },
        Prices := [] },
    notified := [],
    warnings := 0 }

end Manager

/-! ## Profile: stopping the service -/

/-- The builtin `close(c)` with its panic: `none` when the channel is already closed. -/
def Chan.closeOrPanic {α : Type} (c : Chan α) : Option (Chan α) :=
  if c.closed then none else some c.close

/-- The struct `redis.Subscriber` as `Close` sees it: the redis client (`none`: nil, else
whether it is closed), the channel `Messages` (`none`: nil) and, for each key of
`subscriptions`, whether its pubsub is closed. -/
structure RedisSubscriber where
  client : Option Bool
  Messages : Option (Chan Message)
  subscriptions : GoMap String Bool
  deriving DecidableEq, Repr

namespace RedisSubscriber

/-- The constructor `NewSubscriber`. -/
def NewSubscriber : RedisSubscriber :=
  { client := some false, Messages := some { buf := [], cap := 1000, closed := false },
    subscriptions := [] }

/-- The method `Subscriber.Close`: `none` when it panics. It closes every pubsub and the
client, and closes `Messages` when the field is not nil; the field is not set to nil. -/
def Close (s : RedisSubscriber) : Option RedisSubscriber :=
  let s1 : RedisSubscriber :=
    { s with subscriptions := s.subscriptions.map (fun e => (e.1, true)),
             client := s.client.map (fun _ => true) }
  match s1.Messages with
  | none => some s1
  | some messages =>
    match messages.closeOrPanic with
    | none => none
    | some closed => some { s1 with Messages := some closed }

end RedisSubscriber

/-- The struct `App` as `Stop` sees it: whether its context is cancelled, whether the HTTP
and gRPC servers are stopped, its redis subscriber, and whether the storage is closed. -/
structure App where
  ctxCancelled : Bool
  httpServerStopped : Bool
  grpcServerStopped : Bool
  redisSubscriber : RedisSubscriber
  storageClosed : Bool
  deriving DecidableEq, Repr

namespace App

/-- The constructor `New`. -/
def New : App :=
  { ctxCancelled := false, httpServerStopped := false, grpcServerStopped := false,
    redisSubscriber := RedisSubscriber.NewSubscriber, storageClosed := false }

/-- The method `App.Stop`: `none` when it panics. -/
def Stop (a : App) : Option App :=
  let a1 : App :=
    { a with ctxCancelled := true, httpServerStopped := true, grpcServerStopped := true }
  match a1.redisSubscriber.Close with
  | none => none
  | some subscriber => some { a1 with redisSubscriber := subscriber, storageClosed := true }

end App

/-! ## Profile: the users repository -/

/-- The function `strings.Contains` on the characters of the two strings. -/
def containsChars (substr : List Char) : List Char → Bool
  | [] => substr.isEmpty
  | c :: cs => substr.isPrefixOf (c :: cs) || containsChars substr cs

/-- The function `strings.Contains`. -/
def Contains (s substr : String) : Bool := containsChars substr.data s.data

/-- The errors of the package `errs`, and `other` for an error of the store that a function
returns as it is. -/
inductive Err where
  | ErrNotFound
  | ErrAlreadyExists
  | ErrInternal
  | ErrInsufficientFunds
  | other (msg : String)
  deriving DecidableEq, Repr

/-- The database driver behind `*gorm.DB`: SQLite in the tests, PostgreSQL in the service. -/
inductive Driver where
  | sqlite
  | postgres
  deriving DecidableEq, Repr

/-- A row of the table `coins`. -/
structure CoinRow where
  UserID : UUID
  Symbol : String
  Quantity : Decimal
  deriving DecidableEq, Repr

/-- A row of the table `users`: `ID` is the primary key and `Name` is unique. -/
structure UserRow where
  ID : UUID
  Name : String
  deriving DecidableEq, Repr

/-- The database behind `*gorm.DB`, by the contract of the schema in `models`: the rows of
the tables `users` and `coins`, and the driver, which decides the text of the errors. -/
structure Store where
  driver : Driver
  users : List UserRow
  coins : List CoinRow
  deriving DecidableEq, Repr

/-- An error of `gorm`: `gorm.ErrRecordNotFound`, or an error of the driver with its text. -/
inductive GormErr where
  | ErrRecordNotFound
  | driver (msg : String)
  deriving DecidableEq, Repr

namespace Store

/-- The text of the error of the driver when an insert violates the unique constraint
`name` on the column `column` of `users`. -/
def uniqueViolation : Driver → String → String → String
  | .sqlite, _, column => "UNIQUE constraint failed: users." ++ column
  | .postgres, name, _ =>
    "ERROR: duplicate key value violates unique constraint \"" ++ name ++ "\" (SQLSTATE 23505)"

/-- The call `db.Create(user).Error`: `none` is a nil error. `fault` is a failure of the
connection, if one occurs (its text). A user whose `ID` or `Name` is taken violates a unique
constraint; otherwise the user and their coins are inserted. -/
def Create (st : Store) (fault : Option String) (user : User) : Option String × Store :=
  match fault with
  | some msg => (some msg, st)
  | none =>
    if st.users.any (fun row => decide (row.ID = user.ID)) then
      (some (uniqueViolation st.driver "users_pkey" "id"), st)
    else if st.users.any (fun row => decide (row.Name = user.Name)) then
      (some (uniqueViolation st.driver "uni_users_name" "name"), st)
    else
      (none, { st with
        users := st.users ++ [{ ID := user.ID, Name := user.Name }],
        coins := st.coins ++ user.Coins.map
          (fun coin => { UserID := user.ID, Symbol := coin.Symbol, Quantity := coin.Quantity }) })

/-- The call `db.Preload("Coins").First(&user, userID)`: the row with that primary key,
with the coins of the user. -/
def First (st : Store) (fault : Option String) (userID : UUID) : Except GormErr User :=
  match fault with
  | some msg => .error (.driver msg)
  | none =>
    match st.users.find? (fun row => decide (row.ID = userID)) with
    | none => .error .ErrRecordNotFound
    | some row =>
      .ok { ID := row.ID, Name := row.Name,
            Coins := (st.coins.filter (fun c => decide (c.UserID = row.ID))).map
              (fun c => { Symbol := c.Symbol, Quantity := c.Quantity }) }

end Store

namespace usersRepository

/-- The method `usersRepository.CreateUserProfile`: the returned error (`none` is nil) and
the store afterwards. The second pattern is the string literal of the source, whose letter
after "valu" is not the Latin "e". -/
def CreateUserProfile (st : Store) (fault : Option String) (user : User) :
    Option Err × Store :=
  let created := st.Create fault user
  match created.1 with
  | some errorString =>
    if Contains errorString "UNIQUE constraint failed"
        || Contains errorString "duplicate key valu\u2013\u00b5 violates unique constraint" then
      (some .ErrAlreadyExists, created.2)
    else (some .ErrInternal, created.2)
  | none => (none, created.2)

/-- The method `usersRepository.GetUserByID`. -/
def GetUserByID (st : Store) (fault : Option String) (userID : UUID) : Except Err User :=
  match st.First fault userID with
  | .error .ErrRecordNotFound => .error .ErrNotFound
  | .error (.driver msg) => .error (.other msg)
  | .ok user => .ok user

end usersRepository

/-! ## Profile: the coins service -/

/-- What the column `quantity` of the database makes of a value that `Create` or `Save`
hands over: the value it keeps, or the text of the error it raises. -/
abbrev QuantityColumn := Decimal → Except String Decimal

/-- The rounding of a PostgreSQL `numeric` to 8 decimal places, ties away from zero. -/
def round8 (q : Decimal) : Decimal :=
  if 0 ≤ q then ((⌊q * 100000000 + 1 / 2⌋ : Int) : Rat) / 100000000
  else -(((⌊-q * 100000000 + 1 / 2⌋ : Int) : Rat) / 100000000)

/-- The rounded value has at most 12 digits before the decimal point. -/
def fits20_8 (q : Decimal) : Prop := -1000000000000 < round8 q ∧ round8 q < 1000000000000

instance (q : Decimal) : Decidable (fits20_8 q) := by
  unfold fits20_8; infer_instance

/-- The column `decimal(20,8)` of `models.Coin` on PostgreSQL, the database of the service:
it keeps the value rounded to 8 decimal places and refuses a value that does not fit. -/
def decimal20_8 : QuantityColumn := fun q =>
  if fits20_8 q then .ok (round8 q)
  else .error "ERROR: numeric field overflow (SQLSTATE 22003)"

namespace coinsRepository

/-- The query `Where("user_id = ? AND symbol = ?", userID, symbol).First(&coin)` on the
rows of `coins`, which stand in the order of their primary keys: the first row of the user
and symbol, with its position in the table, which stands for its primary key. -/
def findCoin (userID : UUID) (symbol : String) : List CoinRow → Option (Nat × CoinRow)
  | [] => none
  | row :: rest =>
    if row.UserID = userID ∧ row.Symbol = symbol then some (0, row)
    else (findCoin userID symbol rest).map (fun found => (found.1 + 1, found.2))

/-- The method `coinsRepository.GetCoin`; `fault` is a failure of the store, if one occurs.
The coin comes with its primary key. -/
def GetCoin (st : Store) (fault : Option String) (userID : UUID) (symbol : String) :
    Except Err (Nat × CoinRow) :=
  match fault with
  | some msg => .error (.other msg)
  | none =>
    match findCoin userID symbol st.coins with
    | none => .error .ErrNotFound
    | some found => .ok found

/-- The error that `AddCoin` makes of an error of `Create` with the text `msg`. -/
def addError (msg : String) : Err :=
  if Contains msg "UNIQUE" || Contains msg "duplicate" then .ErrAlreadyExists else .other msg

/-- The method `coinsRepository.AddCoin`: the table `coins` has no unique constraint, so
`Create` fails only with the store or with the column. The new row holds what the column
keeps of the quantity. -/
def AddCoin (column : QuantityColumn) (st : Store) (fault : Option String) (coin : CoinRow) :
    Option Err × Store :=
  match fault with
  | some msg => (some (addError msg), st)
  | none =>
    match column coin.Quantity with
    | .error msg => (some (addError msg), st)
    | .ok kept => (none, { st with coins := st.coins ++ [{ coin with Quantity := kept }] })

/-- The method `coinsRepository.UpdateCoin`: `Save` writes the coin over the row with its
primary key, the quantity as the column keeps it. -/
def UpdateCoin (column : QuantityColumn) (st : Store) (fault : Option String) (key : Nat)
    (coin : CoinRow) : Option Err × Store :=
  match fault with
  | some msg => (some (.other msg), st)
  | none =>
    match column coin.Quantity with
    | .error msg => (some (.other msg), st)
    | .ok kept => (none, { st with coins := st.coins.set key { coin with Quantity := kept } })

end coinsRepository

/-- The failures of the store during one `UpdateCoinQuantity`, if any: of the lookup, of
the insert and of the update. -/
structure CoinFaults where
  get : Option String
  add : Option String
  save : Option String
  deriving DecidableEq, Repr

namespace coinsService

/-- The method `coinsService.UpdateCoinQuantity`: the coin or the error that the returned
error wraps ("failed to upsert coin: %w"), and the store afterwards. The body runs in a
transaction, so the store is as before when an error is returned. The returned coin is the
Go value that was handed to the store, not a row read back. -/
def UpdateCoinQuantity (column : QuantityColumn) (st : Store) (faults : CoinFaults)
    (userID : UUID) (symbol : String) (quantityChange : Decimal) : Except Err CoinRow × Store :=
  match coinsRepository.GetCoin st faults.get userID symbol with
  | .error err =>
    if quantityChange < 0 then (.error .ErrInsufficientFunds, st)
    else if err = .ErrNotFound then
      let newCoin : CoinRow := { UserID := userID, Symbol := symbol, Quantity := quantityChange }
      match coinsRepository.AddCoin column st faults.add newCoin with
      | (some addErr, _) => (.error addErr, st)
      | (none, st1) => (.ok newCoin, st1)
    else (.error err, st)
  | .ok (key, existingCoin) =>
    let newQuantity := existingCoin.Quantity + quantityChange
    if newQuantity < 0 then (.error .ErrInsufficientFunds, st)
    else
      let updated : CoinRow := { existingCoin with Quantity := newQuantity }
      match coinsRepository.UpdateCoin column st faults.save key updated with
      | (some saveErr, _) => (.error saveErr, st)
      | (none, st1) => (.ok updated, st1)

/-- A call of `UpdateCoinQuantity` with the failures of the store during it. -/
structure Update where
  faults : CoinFaults
  userID : UUID
  symbol : String
  quantityChange : Decimal
  deriving DecidableEq, Repr

/-- The store after a sequence of `UpdateCoinQuantity` calls. -/
def updateAll (column : QuantityColumn) (st : Store) (updates : List Update) : Store :=
  updates.foldl
    (fun acc up =>
      (UpdateCoinQuantity column acc up.faults up.userID up.symbol up.quantityChange).2) st

/-- No row of `coins` holds a negative quantity. -/
def NoNegative (st : Store) : Prop := ∀ row ∈ st.coins, 0 ≤ row.Quantity

/-- The store does not fail. -/
def noFaults : CoinFaults := { get := none, add := none, save := none }

end coinsService

/-! ## Authorization: the token service -/

namespace Authorization

/-- The errors of `Authorization/lib/errs` that the token service and its repository name,
an error of another package with its text, and `fmt.Errorf("text: %w", inner)`. -/
inductive Err where
  | ErrInvalidToken
  | ErrRecordingWNF
  | ErrRecordingWND
  | ErrDB (msg : String)
  | other (msg : String)
  | wrapped (text : String) (inner : Err)
  deriving DecidableEq, Repr

/-- The columns of `models.User`. -/
structure User where
  ID : UUID
  Name : String
  Password : String
  deriving DecidableEq, Repr

/-- The columns of `models.Session`; `time.Time` is a number of clock ticks. `ID` is the
primary key, given by the database, and `RefreshToken` is unique. -/
structure Session where
  ID : Nat
  UserID : UUID
  RefreshToken : String
  ExpiresAt : Nat
  deriving DecidableEq, Repr

/-- The table `sessions` and the next value of its primary key. -/
structure Store where
  sessions : List Session
  nextID : Nat
  deriving DecidableEq, Repr

/-- What one call of the token service reads from outside the table `sessions`:
`hashcrypto.HashToken`, `time.Now()` at the expiry test, `time.Now().Add(cfg.RefreshToken)`
at the creation of the session, `GetUserByID` of the users repository, the signature of the
access token for a user ID and a name, `hashcrypto.GenerateRandomString(32)`, and the error
the database answers, if any, to the lookup, the deletion and the insertion. -/
structure Env where
  HashToken : String → String
  now : Nat
  expiresAt : Nat
  GetUserByID : UUID → Except Err User
  SignedString : UUID → String → Except String String
  GenerateRandomString : Except String String
  getFault : Option String
  deleteFault : Option String
  createFault : Option String

/-- The text of the error of the database for a second row with the same `refresh_token`. -/
def duplicateKey : String := "duplicate key value violates unique constraint"

namespace tokenRepository

/-- The Go function `tokenRepository.StoreRefreshToken`: `Create`, whose error is wrapped
in `ErrDB`. The row gets the next primary key; a row with a stored `refresh_token` is
refused. -/
def StoreRefreshToken (st : Store) (fault : Option String) (session : Session) :
    Option Err × Store :=
  match fault with
  | some msg => (some (.ErrDB msg), st)
  | none =>
    if st.sessions.any (fun row => row.RefreshToken = session.RefreshToken) then
      (some (.ErrDB duplicateKey), st)
    else
      (none, { sessions := st.sessions ++ [{ session with ID := st.nextID }],
               nextID := st.nextID + 1 })

/-- The Go function `tokenRepository.GetByRefreshTokenHash`: the first row with this
`refresh_token`, `ErrRecordingWNF` when there is none, `ErrDB` for another error. -/
def GetByRefreshTokenHash (st : Store) (fault : Option String) (tokenHash : String) :
    Except Err Session :=
  match fault with
  | some msg => .error (.ErrDB msg)
  | none =>
    match st.sessions.find? (fun row => row.RefreshToken = tokenHash) with
    | none => .error .ErrRecordingWNF
    | some session => .ok session

/-- The Go function `tokenRepository.DeleteByRefreshTokenHash`: deletes every row with this
`refresh_token`; `ErrRecordingWND` when `RowsAffected` is zero. -/
def DeleteByRefreshTokenHash (st : Store) (fault : Option String) (tokenHash : String) :
    Option Err × Store :=
  match fault with
  | some msg => (some (.ErrDB msg), st)
  | none =>
    let kept := st.sessions.filter (fun row => ¬ row.RefreshToken = tokenHash)
    let rowsAffected := st.sessions.length - kept.length
    if rowsAffected = 0 then (some .ErrRecordingWND, st)
    else (none, { st with sessions := kept })

end tokenRepository

namespace tokenService

/-- The Go function `tokenService.generateTokenInTx`: signs the access token, draws the
refresh token and stores a session with the hash of the refresh token. Returns the access
token and the refresh token. -/
def generateTokenInTx (env : Env) (st : Store) (userID : UUID) (userName : String) :
    Except Err (String × String) × Store :=
  match env.SignedString userID userName with
  | .error msg => (.error (.wrapped "failed to sign access token" (.other msg)), st)
  | .ok signedAccessToken =>
    match env.GenerateRandomString with
    | .error msg => (.error (.wrapped "failed to generate refresh token" (.other msg)), st)
    | .ok refreshToken =>
      let session : Session :=
        { ID := 0, UserID := userID, RefreshToken := env.HashToken refreshToken,
          ExpiresAt := env.expiresAt }
      match tokenRepository.StoreRefreshToken st env.createFault session with
      | (some err, _) => (.error (.wrapped "failed to store refresh token session" err), st)
      | (none, st1) => (.ok (signedAccessToken, refreshToken), st1)

/-- The Go function `tokenService.RefreshToken`, run in one transaction: when the function
of the transaction returns an error, the table is as it was before the call. -/
def RefreshToken (env : Env) (st : Store) (currentRefreshToken : String) :
    Except Err (String × String) × Store :=
  let hashedToken := env.HashToken currentRefreshToken
  match tokenRepository.GetByRefreshTokenHash st env.getFault hashedToken with
  | .error _ => (.error .ErrInvalidToken, st)
  | .ok session =>
    if env.now > session.ExpiresAt then (.error .ErrInvalidToken, st)
    else
      match env.GetUserByID session.UserID with
      | .error err =>
        (.error (.wrapped "inconsistent state: session not found but user not" err), st)
      | .ok user =>
        match tokenRepository.DeleteByRefreshTokenHash st env.deleteFault hashedToken with
        | (some err, _) => (.error (.wrapped "failed to delete old session" err), st)
        | (none, st1) =>
          match generateTokenInTx env st1 user.ID user.Name with
          | (.error err, _) => (.error (.wrapped "failed to generate new tokens" err), st)
          | (.ok tokens, st2) => (.ok tokens, st2)

/-- The `refresh_token` column holds no value twice, as its unique index demands. -/
def UniqueTokens (st : Store) : Prop := (st.sessions.map (fun row => row.RefreshToken)).Nodup

instance (st : Store) : Decidable (UniqueTokens st) := by
  unfold UniqueTokens; infer_instance

/-- An environment in which nothing fails: the hash puts `sha256:` before the token, the
users repository knows every user as `alice`, and the new refresh token is `t2`. -/
def sampleEnv : Env :=
  { HashToken := fun token => "sha256:" ++ token,
    now := 100, expiresAt := 700,
    GetUserByID := fun id => .ok { ID := id, Name := "alice", Password := "x" },
    SignedString := fun userID userName => .ok ("jwt:" ++ userID ++ ":" ++ userName),
    GenerateRandomString := .ok "t2",
    getFault := none, deleteFault := none, createFault := none }

/-- A table with the session of the refresh token `t1` and a session of another user. -/
def sampleStore : Store :=
  { sessions := [{ ID := 1, UserID := "u1", RefreshToken := "sha256:t1", ExpiresAt := 500 },
                 { ID := 2, UserID := "u2", RefreshToken := "sha256:t9", ExpiresAt := 50 }],
    nextID := 3 }

end tokenService

end Authorization

/-! ## Properties -/

namespace GoMap

variable {K V : Type} [DecidableEq K]

theorem lookup_insert_self (k : K) (v : V) (m : GoMap K V) :
    lookup k (insert k v m) = some v := by
  induction m with
  | nil => simp [insert, lookup]
  | cons e rest ih =>
    obtain ⟨k', v'⟩ := e
    by_cases h : k' = k
    · simp [insert, lookup, h]
    · simp [insert, lookup, h, ih]

theorem lookup_insert_of_ne {k k' : K} (v : V) (m : GoMap K V) (h : k' ≠ k) :
    lookup k' (insert k v m) = lookup k' m := by
  induction m with
  | nil => simp [insert, lookup, h.symm]
  | cons e rest ih =>
    obtain ⟨k1, v1⟩ := e
    by_cases h1 : k1 = k
    · subst h1
      simp [insert, lookup, h.symm]
    · by_cases h2 : k1 = k'
      · subst h2
        simp [insert, lookup, h]
      · simp [insert, lookup, h1, h2, ih]

theorem lookup_erase_self (k : K) (m : GoMap K V) : lookup k (erase k m) = none := by
  induction m with
  | nil => simp [erase, lookup]
  | cons e rest ih =>
    obtain ⟨k', v'⟩ := e
    by_cases h : k' = k
    · simpa [erase, lookup, h] using ih
    · simpa [erase, lookup, h, List.filter_cons] using ih

theorem lookup_erase_of_ne {k k' : K} (m : GoMap K V) (h : k' ≠ k) :
    lookup k' (erase k m) = lookup k' m := by
  induction m with
  | nil => simp [erase, lookup]
  | cons e rest ih =>
    obtain ⟨k1, v1⟩ := e
    by_cases h1 : k1 = k
    · subst h1
      simpa [erase, lookup, h.symm] using ih
    · by_cases h2 : k1 = k'
      · subst h2
        simp [erase, lookup, h, List.filter_cons]
      · simpa [erase, lookup, h1, h2, List.filter_cons] using ih

theorem contains_insert (m : GoMap K V) (k k' : K) (v : V) :
    contains (insert k v m) k' = true ↔ k' = k ∨ contains m k' = true := by
  unfold contains
  by_cases h : k' = k
  · subst h
    simp [lookup_insert_self]
  · simp [lookup_insert_of_ne v m h, h]

theorem contains_erase (m : GoMap K V) (k k' : K) :
    contains (erase k m) k' = true ↔ k' ≠ k ∧ contains m k' = true := by
  unfold contains
  by_cases h : k' = k
  · subst h
    simp [lookup_erase_self]
  · simp [lookup_erase_of_ne m h, h]

theorem contains_iff_mem_keys (m : GoMap K V) (k : K) :
    contains m k = true ↔ k ∈ keys m := by
  induction m with
  | nil => simp [contains, lookup, keys]
  | cons e rest ih =>
    obtain ⟨k', v'⟩ := e
    by_cases h : k' = k
    · simp [contains, lookup, keys, h]
    · have h' : ¬ k = k' := fun h2 => h h2.symm
      simpa [contains, lookup, keys, h, h'] using ih

theorem length_eq_zero_iff (m : GoMap K V) : m.length = 0 ↔ ∀ k, contains m k = false := by
  cases m with
  | nil => simp [contains, lookup]
  | cons e rest =>
    obtain ⟨k', v'⟩ := e
    simp only [List.length_cons, Nat.succ_ne_zero, false_iff, not_forall]
    exact ⟨k', by simp [contains, lookup]⟩

theorem keys_insert (k : K) (v : V) (m : GoMap K V) :
    keys (insert k v m) = if k ∈ keys m then keys m else keys m ++ [k] := by
  induction m with
  | nil => simp [insert, keys]
  | cons e rest ih =>
    obtain ⟨k', v'⟩ := e
    by_cases h : k' = k
    · subst h
      simp [insert, keys]
    · have h' : ¬ k = k' := fun h2 => h h2.symm
      simp only [keys] at ih
      by_cases hm : k ∈ List.map Prod.fst rest
      · simp [insert, keys, h, h', hm, ih]
      · simp [insert, keys, h, h', hm, ih]

theorem WF_insert (k : K) (v : V) (m : GoMap K V) (h : WF m) : WF (insert k v m) := by
  unfold WF at *
  rw [keys_insert]
  by_cases hm : k ∈ keys m
  · simpa [hm] using h
  · simp only [hm, if_false]
    exact List.Nodup.append h (List.nodup_singleton k) (by simpa using hm)

theorem length_insert_le (k : K) (v : V) (m : GoMap K V) :
    (insert k v m).length ≤ m.length + 1 := by
  have h : (keys (insert k v m)).length ≤ (keys m).length + 1 := by
    rw [keys_insert]
    by_cases hm : k ∈ keys m <;> simp [hm]
  simpa [keys] using h

/-- In a map that holds each key once, the entries under a key are the looked-up one. -/
theorem filter_key_of_lookup (m : GoMap K V) (k : K) (v : V) (hwf : WF m)
    (h : lookup k m = some v) : m.filter (fun e => decide (e.1 = k)) = [(k, v)] := by
  induction m with
  | nil => simp [lookup] at h
  | cons e rest ih =>
    obtain ⟨k', v'⟩ := e
    have hnd : k' ∉ keys rest ∧ (keys rest).Nodup := by
      simpa [WF, keys] using hwf
    by_cases hk : k' = k
    · subst hk
      have hv : v' = v := by simpa [lookup] using h
      subst hv
      have hnone : rest.filter (fun e => decide (e.1 = k')) = [] := by
        rw [List.filter_eq_nil_iff]
        intro e he hek
        have : e.1 = k' := by simpa using hek
        exact hnd.1 (by rw [← this]; exact List.mem_map_of_mem Prod.fst he)
      simp [List.filter_cons, hnone]
    · have h' : lookup k rest = some v := by simpa [lookup, hk] using h
      simpa [List.filter_cons, hk] using ih hnd.2 h'

theorem mem_of_lookup (m : GoMap K V) (k : K) (v : V) (h : lookup k m = some v) :
    (k, v) ∈ m := by
  induction m with
  | nil => simp [lookup] at h
  | cons e rest ih =>
    obtain ⟨k', v'⟩ := e
    by_cases hk : k' = k
    · subst hk
      have hv : v' = v := by simpa [lookup] using h
      subst hv
      exact List.mem_cons_self _ _
    · exact List.mem_cons_of_mem _ (ih (by simpa [lookup, hk] using h))

theorem mem_insert (m : GoMap K V) (k : K) (v : V) (e : K × V) (h : e ∈ insert k v m) :
    e = (k, v) ∨ e ∈ m := by
  induction m with
  | nil => left; simpa [insert] using h
  | cons e' rest ih =>
    obtain ⟨k', v'⟩ := e'
    by_cases hk : k' = k
    · simp only [insert, hk, if_true, List.mem_cons] at h
      rcases h with h | h
      · exact Or.inl h
      · exact Or.inr (List.mem_cons_of_mem _ h)
    · simp only [insert, hk, if_false, List.mem_cons] at h
      rcases h with h | h
      · exact Or.inr (h ▸ List.mem_cons_self _ _)
      · rcases ih h with h1 | h1
        · exact Or.inl h1
        · exact Or.inr (List.mem_cons_of_mem _ h1)

theorem mem_of_mem_erase (m : GoMap K V) (k : K) (e : K × V) (h : e ∈ erase k m) : e ∈ m :=
  (List.mem_filter.1 h).1

end GoMap

namespace StreamManager

/-! ### C1 -/

/-- C1 (fails on the code): after `AddCoin("btcusdt", "u1")`, `DeleteCoin("btcusdt", "u1")`
and `AddCoin("btcusdt", "u2")`, with the cleanup of the cancelled task still pending, the
symbol has the follower `u2` and no live stream: `streams` still holds the cancel function
that `DeleteCoin` invoked, so `AddCoin` starts nothing. Once the cleanup has run the symbol
has no handle at all and still has its follower. -/
theorem C1_follower_without_live_stream :
    (run NewStreamManager
        [.addCoin "btcusdt" "u1", .deleteCoin "btcusdt" "u1", .addCoin "btcusdt" "u2"]
      = { streams := [("btcusdt", 0)], Followers := [("btcusdt", [("u2", ())])],
          started := 1, cancelled := [0] })
    ∧ followed (run NewStreamManager
        [.addCoin "btcusdt" "u1", .deleteCoin "btcusdt" "u1", .addCoin "btcusdt" "u2"])
        "btcusdt" = true
    ∧ live (run NewStreamManager
        [.addCoin "btcusdt" "u1", .deleteCoin "btcusdt" "u1", .addCoin "btcusdt" "u2"])
        "btcusdt" = false
    ∧ followed (run NewStreamManager
        [.addCoin "btcusdt" "u1", .deleteCoin "btcusdt" "u1", .addCoin "btcusdt" "u2",
         .exit "btcusdt"]) "btcusdt" = true
    ∧ live (run NewStreamManager
        [.addCoin "btcusdt" "u1", .deleteCoin "btcusdt" "u1", .addCoin "btcusdt" "u2",
         .exit "btcusdt"]) "btcusdt" = false := by
  decide

/-! ### C2 -/

/-- The first `AddCoin` for a symbol without handle, by a subscriber not yet following. -/
theorem AddCoin_first (sm : StreamManager) (S U : String)
    (hS : GoMap.lookup (toLower S) sm.streams = none)
    (hU : GoMap.contains ((GoMap.lookup (toLower S) sm.Followers).getD []) U = false) :
    sm.AddCoin S U = (true,
      start { sm with
        Followers :=
          GoMap.insert (toLower S)
            (GoMap.insert U () ((GoMap.lookup (toLower S) sm.Followers).getD []))
            (if GoMap.contains sm.Followers (toLower S) then sm.Followers
             else GoMap.insert (toLower S) [] sm.Followers) }
        (toLower S)) := by
  cases hF : GoMap.lookup (toLower S) sm.Followers with
  | none =>
    simp [AddCoin, strman.AddCoin, GoMap.contains, hF, hS, GoMap.lookup_insert_self,
      GoMap.lookup, start]
  | some users =>
    simp only [hF, Option.getD_some] at hU
    simp [AddCoin, strman.AddCoin, GoMap.contains, hF, hS] at hU ⊢
    simp [hU]

/-- C2: when the (lower-cased) symbol has no handle and the subscriber does not follow it,
`AddCoin` returns true, starts exactly one task and records its cancel function; the same
call repeated at once returns false and leaves the whole state (followers, handles, number
of started tasks, invoked cancel functions) as it was. -/
theorem C2_AddCoin_started_then_already_subscribed (sm : StreamManager) (S U : String)
    (hS : GoMap.lookup (toLower S) sm.streams = none)
    (hU : GoMap.contains ((GoMap.lookup (toLower S) sm.Followers).getD []) U = false) :
    (sm.AddCoin S U).1 = true
    ∧ (sm.AddCoin S U).2.started = sm.started + 1
    ∧ GoMap.lookup (toLower S) (sm.AddCoin S U).2.streams = some sm.started
    ∧ ((sm.AddCoin S U).2.AddCoin S U).1 = false
    ∧ ((sm.AddCoin S U).2.AddCoin S U).2 = (sm.AddCoin S U).2 := by
  rw [AddCoin_first sm S U hS hU]
  refine ⟨rfl, rfl, ?_, ?_, ?_⟩
  · simp [start, GoMap.lookup_insert_self]
  · simp [AddCoin, strman.AddCoin, start, GoMap.contains, GoMap.lookup_insert_self]
  · simp [AddCoin, strman.AddCoin, start, GoMap.contains, GoMap.lookup_insert_self]

/-- C2 at a manager that streams "ethusdt" for `u1`: `u1` subscribes to "BTCUSDT" twice. -/
theorem C2_AddCoin_started_then_already_subscribed_witness :
    (AddCoin { streams := [("ethusdt", 0)], Followers := [("ethusdt", [("u1", ())])],
               started := 1, cancelled := [] } "BTCUSDT" "u1").1 = true
    ∧ (AddCoin { streams := [("ethusdt", 0)], Followers := [("ethusdt", [("u1", ())])],
                 started := 1, cancelled := [] } "BTCUSDT" "u1").2.started = 1 + 1
    ∧ GoMap.lookup (toLower "BTCUSDT")
        (AddCoin { streams := [("ethusdt", 0)], Followers := [("ethusdt", [("u1", ())])],
                   started := 1, cancelled := [] } "BTCUSDT" "u1").2.streams = some 1
    ∧ ((AddCoin { streams := [("ethusdt", 0)], Followers := [("ethusdt", [("u1", ())])],
                  started := 1, cancelled := [] } "BTCUSDT" "u1").2.AddCoin "BTCUSDT" "u1").1
        = false
    ∧ ((AddCoin { streams := [("ethusdt", 0)], Followers := [("ethusdt", [("u1", ())])],
                  started := 1, cancelled := [] } "BTCUSDT" "u1").2.AddCoin "BTCUSDT" "u1").2
        = (AddCoin { streams := [("ethusdt", 0)], Followers := [("ethusdt", [("u1", ())])],
                     started := 1, cancelled := [] } "BTCUSDT" "u1").2 :=
  C2_AddCoin_started_then_already_subscribed
    { streams := [("ethusdt", 0)], Followers := [("ethusdt", [("u1", ())])],
      started := 1, cancelled := [] } "BTCUSDT" "u1" (by decide) (by decide)

/-! ### C3 -/

/-- An `AddCoin` for a symbol whose handle exists keeps the handles, the task counter and
the invoked cancel functions, and adds the subscriber to the follower set. -/
theorem AddCoin_of_handle (sm : StreamManager) (S U : String) (c : CancelFunc)
    (users : GoMap String Unit)
    (hS : GoMap.lookup (toLower S) sm.streams = some c)
    (hF : GoMap.lookup (toLower S) sm.Followers = some users) :
    (sm.AddCoin S U).2.streams = sm.streams
    ∧ (sm.AddCoin S U).2.started = sm.started
    ∧ (sm.AddCoin S U).2.cancelled = sm.cancelled
    ∧ ∃ users', GoMap.lookup (toLower S) (sm.AddCoin S U).2.Followers = some users'
        ∧ ∀ v, GoMap.contains users' v = true ↔ (GoMap.contains users v = true ∨ v = U) := by
  by_cases hc : GoMap.contains users U = true
  · have : sm.AddCoin S U = (false, sm) := by
      simp only [AddCoin, strman.AddCoin, GoMap.contains, hF, Option.isSome_some, if_true, Option.getD_some]
      exact if_pos hc
    rw [this]
    refine ⟨rfl, rfl, rfl, users, hF, ?_⟩
    intro v
    constructor
    · intro h; exact Or.inl h
    · rintro (h | h)
      · exact h
      · rw [h]; exact hc
  · have hc' : GoMap.contains users U = false := by simpa using hc
    have : sm.AddCoin S U = (true,
        { sm with Followers := GoMap.insert (toLower S) (GoMap.insert U () users)
                                sm.Followers }) := by
      simp [AddCoin, strman.AddCoin, GoMap.contains, hF, hS] at hc' ⊢
      simp [hc']
    rw [this]
    refine ⟨rfl, rfl, rfl, GoMap.insert U () users, ?_, ?_⟩
    · simp [GoMap.lookup_insert_self]
    · intro v
      rw [GoMap.contains_insert]
      tauto

/-- The calls `AddCoin(S, u)` for a list of subscribers, once the handle of `S` exists. -/
theorem addAll_of_handle (us : List String) (sm : StreamManager) (S : String) (c : CancelFunc)
    (users : GoMap String Unit)
    (hS : GoMap.lookup (toLower S) sm.streams = some c)
    (hF : GoMap.lookup (toLower S) sm.Followers = some users) :
    (addAll sm S us).streams = sm.streams
    ∧ (addAll sm S us).started = sm.started
    ∧ (addAll sm S us).cancelled = sm.cancelled
    ∧ ∃ users', GoMap.lookup (toLower S) (addAll sm S us).Followers = some users'
        ∧ ∀ v, GoMap.contains users' v = true ↔ (GoMap.contains users v = true ∨ v ∈ us) := by
  induction us generalizing sm users with
  | nil => exact ⟨rfl, rfl, rfl, users, hF, by simp [addAll]⟩
  | cons u rest ih =>
    obtain ⟨h1, h2, h3, users1, h4, h5⟩ := AddCoin_of_handle sm S u c users hS hF
    obtain ⟨i1, i2, i3, users2, i4, i5⟩ := ih (sm.AddCoin S u).2 users1 (by rw [h1]; exact hS) h4
    have e : addAll sm S (u :: rest) = addAll (sm.AddCoin S u).2 S rest := rfl
    rw [e]
    refine ⟨i1.trans h1, i2.trans h2, i3.trans h3, users2, i4, ?_⟩
    intro v
    rw [i5, h5, List.mem_cons]
    tauto

/-- A `DeleteCoin` by a follower that is not the last one removes it and invokes nothing. -/
theorem DeleteCoin_not_last (sm : StreamManager) (S d v : String) (users : GoMap String Unit)
    (hF : GoMap.lookup (toLower S) sm.Followers = some users)
    (hd : GoMap.contains users d = true) (hv : GoMap.contains users v = true) (hvd : v ≠ d) :
    sm.DeleteCoin S d =
      { sm with Followers := GoMap.insert (toLower S) (GoMap.erase d users) sm.Followers } := by
  have hlen : (GoMap.erase d users).length ≠ 0 := by
    intro h0
    have := (GoMap.length_eq_zero_iff _).1 h0 v
    have h2 := (GoMap.contains_erase users d v).2 ⟨hvd, hv⟩
    rw [this] at h2
    exact Bool.noConfusion h2
  simp only [DeleteCoin, strman.DeleteCoin, hF, hd, if_true, GoMap.lookup_insert_self, Option.getD_some]
  rw [if_neg hlen]

/-- A `DeleteCoin` by the only follower empties the set and invokes the cancel function. -/
theorem DeleteCoin_last (sm : StreamManager) (S d : String) (users : GoMap String Unit)
    (c : CancelFunc)
    (hF : GoMap.lookup (toLower S) sm.Followers = some users)
    (hS : GoMap.lookup (toLower S) sm.streams = some c)
    (hd : GoMap.contains users d = true)
    (hall : ∀ v, GoMap.contains users v = true → v = d) :
    sm.DeleteCoin S d =
      { sm with Followers := GoMap.insert (toLower S) (GoMap.erase d users) sm.Followers,
                cancelled := sm.cancelled ++ [c] } := by
  have hlen : (GoMap.erase d users).length = 0 := by
    rw [GoMap.length_eq_zero_iff]
    intro v
    cases h : GoMap.contains (GoMap.erase d users) v with
    | false => rfl
    | true =>
      obtain ⟨h1, h2⟩ := (GoMap.contains_erase users d v).1 h
      exact absurd (hall v h2) h1
  simp only [DeleteCoin, strman.DeleteCoin, hF, hd, if_true, GoMap.lookup_insert_self, Option.getD_some]
  rw [if_pos hlen, hS]

/-- Removing the followers of a symbol one by one, each once: no cancel function is invoked
before the last removal, and the last removal invokes the symbol's cancel function. -/
theorem deleteAll_cancelled (ds : List String) (hnd : ds.Nodup) (sm : StreamManager)
    (S : String) (users : GoMap String Unit) (c : CancelFunc)
    (hF : GoMap.lookup (toLower S) sm.Followers = some users)
    (hS : GoMap.lookup (toLower S) sm.streams = some c)
    (hsub : ∀ v, GoMap.contains users v = true ↔ v ∈ ds) :
    (deleteAll sm S ds.dropLast).cancelled = sm.cancelled
    ∧ (ds ≠ [] → (deleteAll sm S ds).cancelled = sm.cancelled ++ [c]) := by
  induction ds generalizing sm users with
  | nil => exact ⟨rfl, fun h => absurd rfl h⟩
  | cons d rest ih =>
    have hd : GoMap.contains users d = true := (hsub d).2 (List.mem_cons_self _ _)
    cases rest with
    | nil =>
      refine ⟨rfl, fun _ => ?_⟩
      have hall : ∀ v, GoMap.contains users v = true → v = d := by
        intro v hv
        simpa using (hsub v).1 hv
      show (sm.DeleteCoin S d).cancelled = _
      rw [DeleteCoin_last sm S d users c hF hS hd hall]
    | cons d' rest' =>
      have hnd' : (d' :: rest').Nodup := (List.nodup_cons.1 hnd).2
      have hdn : d ∉ d' :: rest' := (List.nodup_cons.1 hnd).1
      have hd' : GoMap.contains users d' = true := (hsub d').2 (by simp)
      have hne : d' ≠ d := fun h => hdn (by simp [h])
      have hstep := DeleteCoin_not_last sm S d d' users hF hd hd' hne
      have hsub' : ∀ v, GoMap.contains (GoMap.erase d users) v = true ↔ v ∈ d' :: rest' := by
        intro v
        rw [GoMap.contains_erase, hsub v, List.mem_cons]
        constructor
        · rintro ⟨h1, h2 | h2⟩
          · exact absurd h2 h1
          · exact h2
        · intro h
          exact ⟨fun hv => hdn (hv ▸ h), Or.inr h⟩
      obtain ⟨i1, i2⟩ := ih hnd' (sm.DeleteCoin S d) (GoMap.erase d users)
        (by rw [hstep]; simp [GoMap.lookup_insert_self])
        (by rw [hstep]; exact hS) hsub'
      have e1 : deleteAll sm S (d :: d' :: rest').dropLast
          = deleteAll (sm.DeleteCoin S d) S (d' :: rest').dropLast := rfl
      have e2 : deleteAll sm S (d :: d' :: rest')
          = deleteAll (sm.DeleteCoin S d) S (d' :: rest') := rfl
      have e3 : (sm.DeleteCoin S d).cancelled = sm.cancelled := by rw [hstep]
      refine ⟨by rw [e1, i1, e3], fun _ => ?_⟩
      rw [e2, i2 (by simp), e3]

/-- C3: from a manager where the (lower-cased) symbol has no follower and no handle, after
`AddCoin` for `n >= 1` distinct subscribers and `DeleteCoin` for each of them in any order,
the cancel function of the symbol's stream (the task started by the first `AddCoin`) has
been invoked exactly once: no `AddCoin` and no `DeleteCoin` before the last one invokes a
cancel function, and the last `DeleteCoin` invokes that one. -/
theorem C3_cancel_once_by_last_DeleteCoin (sm : StreamManager) (S : String)
    (us ds : List String) (hne : us ≠ []) (hnd : us.Nodup) (hperm : ds.Perm us)
    (hF : followed sm (toLower S) = false)
    (hS : GoMap.lookup (toLower S) sm.streams = none) :
    GoMap.lookup (toLower S) (addAll sm S us).streams = some sm.started
    ∧ (addAll sm S us).cancelled = sm.cancelled
    ∧ (deleteAll (addAll sm S us) S ds.dropLast).cancelled = sm.cancelled
    ∧ (deleteAll (addAll sm S us) S ds).cancelled = sm.cancelled ++ [sm.started] := by
  cases us with
  | nil => exact absurd rfl hne
  | cons u rest =>
    have hget : (GoMap.lookup (toLower S) sm.Followers).getD [] = [] := by
      cases h : GoMap.lookup (toLower S) sm.Followers with
      | none => rfl
      | some users =>
        simp only [followed, h] at hF
        cases users with
        | nil => rfl
        | cons e r => simp at hF
    have hU : GoMap.contains ((GoMap.lookup (toLower S) sm.Followers).getD []) u = false := by
      rw [hget]; rfl
    have hfirst := AddCoin_first sm S u hS hU
    rw [hget] at hfirst
    have e : addAll sm S (u :: rest) = addAll (sm.AddCoin S u).2 S rest := rfl
    have hS1 : GoMap.lookup (toLower S) (sm.AddCoin S u).2.streams = some sm.started := by
      rw [hfirst]; simp [start, GoMap.lookup_insert_self]
    have hF1 : GoMap.lookup (toLower S) (sm.AddCoin S u).2.Followers
        = some (GoMap.insert u () []) := by
      rw [hfirst]; simp [start, GoMap.lookup_insert_self]
    have hc1 : (sm.AddCoin S u).2.cancelled = sm.cancelled := by rw [hfirst]; rfl
    obtain ⟨a1, _, a3, users', a4, a5⟩ :=
      addAll_of_handle rest (sm.AddCoin S u).2 S sm.started _ hS1 hF1
    rw [e]
    have hS2 : GoMap.lookup (toLower S) (addAll (sm.AddCoin S u).2 S rest).streams
        = some sm.started := by rw [a1]; exact hS1
    have hsub : ∀ v, GoMap.contains users' v = true ↔ v ∈ ds := by
      intro v
      rw [a5, hperm.mem_iff, List.mem_cons, GoMap.contains_insert]
      simp [GoMap.contains, GoMap.lookup]
    obtain ⟨d1, d2⟩ := deleteAll_cancelled ds (hperm.nodup_iff.2 hnd) _ S users' sm.started
      a4 hS2 hsub
    have hds : ds ≠ [] := by
      intro h
      rw [h] at hperm
      exact hne hperm.nil_eq.symm
    refine ⟨hS2, a3.trans hc1, ?_, ?_⟩
    · rw [d1, a3, hc1]
    · rw [d2 hds, a3, hc1]

/-- C3 for the subscribers `u1`, `u2`, `u3` of "BTCUSDT", removed in the order `u2`, `u3`,
`u1`. -/
theorem C3_cancel_once_by_last_DeleteCoin_witness :
    GoMap.lookup (toLower "BTCUSDT")
        (addAll NewStreamManager "BTCUSDT" ["u1", "u2", "u3"]).streams
      = some NewStreamManager.started
    ∧ (addAll NewStreamManager "BTCUSDT" ["u1", "u2", "u3"]).cancelled
      = NewStreamManager.cancelled
    ∧ (deleteAll (addAll NewStreamManager "BTCUSDT" ["u1", "u2", "u3"]) "BTCUSDT"
        ["u2", "u3", "u1"].dropLast).cancelled = NewStreamManager.cancelled
    ∧ (deleteAll (addAll NewStreamManager "BTCUSDT" ["u1", "u2", "u3"]) "BTCUSDT"
        ["u2", "u3", "u1"]).cancelled
      = NewStreamManager.cancelled ++ [NewStreamManager.started] :=
  C3_cancel_once_by_last_DeleteCoin NewStreamManager "BTCUSDT" ["u1", "u2", "u3"]
    ["u2", "u3", "u1"] (by decide) (by decide) (by decide) (by decide) (by decide)

/-! ### C13 -/

/-- C13 (as stated, fails): on a new manager `u1` does not follow "btcusdt", and
`DELETE /coin` for them replies with the status "subscription_removed", not with a
not-found status. -/
theorem C13_delete_reports_removed_when_not_following :
    GoMap.lookup (toLower "btcusdt") NewStreamManager.Followers = none
    ∧ (handleDeleteCoin NewStreamManager "btcusdt" "u1").1
        = Reply.ok "subscription_removed" "btcusdt" "u1"
    ∧ (handleDeleteCoin NewStreamManager "btcusdt" "u1").1
        ≠ Reply.ok "not_found" "btcusdt" "u1" := by
  decide

/-- C13 (amended): `DELETE /coin` with a non-empty symbol and a non-empty id calls
`DeleteCoin` and replies with the status "subscription_removed", whether the subscriber was
following the symbol or not. -/
theorem C13_delete_always_reports_removed (sm : StreamManager) (symbol id : String)
    (hs : symbol ≠ "") (hi : id ≠ "") :
    handleDeleteCoin sm symbol id
      = (Reply.ok "subscription_removed" symbol id, sm.DeleteCoin symbol id) := by
  unfold handleDeleteCoin
  rw [if_neg]
  rintro (h | h)
  · exact hs h
  · exact hi h

/-- C13 (amended) for a subscriber that follows and for one that does not. -/
theorem C13_delete_always_reports_removed_witness :
    handleDeleteCoin (NewStreamManager.AddCoin "btcusdt" "u1").2 "btcusdt" "u1"
      = (Reply.ok "subscription_removed" "btcusdt" "u1",
          (NewStreamManager.AddCoin "btcusdt" "u1").2.DeleteCoin "btcusdt" "u1")
    ∧ handleDeleteCoin (NewStreamManager.AddCoin "btcusdt" "u1").2 "btcusdt" "u2"
      = (Reply.ok "subscription_removed" "btcusdt" "u2",
          (NewStreamManager.AddCoin "btcusdt" "u1").2.DeleteCoin "btcusdt" "u2") :=
  ⟨C13_delete_always_reports_removed _ "btcusdt" "u1" (by decide) (by decide),
   C13_delete_always_reports_removed _ "btcusdt" "u2" (by decide) (by decide)⟩

/-! ### C14 -/

/-- C14 (as stated, fails): `u1` is the only follower of "btcusdt" and its handle exists;
after `DeleteCoin` the cancel function has been invoked, and both maps still have an entry
for the symbol: `streams` the cancelled handle, `Followers` an empty follower set. -/
theorem C14_entries_remain_after_last_DeleteCoin :
    ((NewStreamManager.AddCoin "btcusdt" "u1").2.DeleteCoin "btcusdt" "u1").cancelled = [0]
    ∧ GoMap.lookup "btcusdt"
        ((NewStreamManager.AddCoin "btcusdt" "u1").2.DeleteCoin "btcusdt" "u1").streams
      = some 0
    ∧ GoMap.lookup "btcusdt"
        ((NewStreamManager.AddCoin "btcusdt" "u1").2.DeleteCoin "btcusdt" "u1").Followers
      = some [] := by
  decide

/-- C14 (amended): when `U` is the only follower of `S` and `S` has the handle `c`, after
`DeleteCoin(S, U)` the cancel function `c` has been invoked, the follower set of `S` is
empty (its entry stays in `Followers`), and the entry of `S` stays in `streams` until the
deferred cleanup of the stream task deletes it. -/
theorem C14_last_DeleteCoin_cancels (sm : StreamManager) (S U : String)
    (users : GoMap String Unit) (c : CancelFunc)
    (hF : GoMap.lookup (toLower S) sm.Followers = some users)
    (hU : GoMap.contains users U = true)
    (honly : ∀ v ∈ GoMap.keys users, v = U)
    (hS : GoMap.lookup (toLower S) sm.streams = some c) :
    (sm.DeleteCoin S U).cancelled = sm.cancelled ++ [c]
    ∧ (∃ rest, GoMap.lookup (toLower S) (sm.DeleteCoin S U).Followers = some rest
        ∧ rest.length = 0)
    ∧ GoMap.lookup (toLower S) (sm.DeleteCoin S U).streams = some c
    ∧ GoMap.lookup (toLower S) ((sm.DeleteCoin S U).taskExit (toLower S)).streams = none := by
  have hall : ∀ v, GoMap.contains users v = true → v = U :=
    fun v hv => honly v ((GoMap.contains_iff_mem_keys users v).1 hv)
  have hlen : (GoMap.erase U users).length = 0 := by
    rw [GoMap.length_eq_zero_iff]
    intro v
    cases h : GoMap.contains (GoMap.erase U users) v with
    | false => rfl
    | true =>
      obtain ⟨h1, h2⟩ := (GoMap.contains_erase users U v).1 h
      exact absurd (hall v h2) h1
  rw [DeleteCoin_last sm S U users c hF hS hU hall]
  refine ⟨rfl, ⟨GoMap.erase U users, GoMap.lookup_insert_self _ _ _, hlen⟩, hS, ?_⟩
  exact GoMap.lookup_erase_self _ _

/-- C14 (amended) for the only follower `u1` of "btcusdt". -/
theorem C14_last_DeleteCoin_cancels_witness :
    ((NewStreamManager.AddCoin "btcusdt" "u1").2.DeleteCoin "BTCUSDT" "u1").cancelled
      = (NewStreamManager.AddCoin "btcusdt" "u1").2.cancelled ++ [0]
    ∧ GoMap.lookup (toLower "BTCUSDT")
        (((NewStreamManager.AddCoin "btcusdt" "u1").2.DeleteCoin "BTCUSDT" "u1").taskExit
          (toLower "BTCUSDT")).streams = none :=
  have h := C14_last_DeleteCoin_cancels (NewStreamManager.AddCoin "btcusdt" "u1").2
    "BTCUSDT" "u1" [("u1", ())] 0 (by decide) (by decide) (by decide) (by decide)
  ⟨h.1, h.2.2.2⟩

/-! ### C15 -/

/-- C15 (as stated, fails): after the last follower of "btcusdt" has left and before the
cleanup of the cancelled task, `u2` is not in the (empty) follower set, and
`DeleteCoin("btcusdt", "u2")` invokes the cancel function of the handle again. -/
theorem C15_DeleteCoin_of_absent_invokes_cancel :
    GoMap.contains ((GoMap.lookup (toLower "btcusdt")
        ((NewStreamManager.AddCoin "btcusdt" "u1").2.DeleteCoin "btcusdt" "u1").Followers).getD
        []) "u2" = false
    ∧ ((NewStreamManager.AddCoin "btcusdt" "u1").2.DeleteCoin "btcusdt" "u1").cancelled = [0]
    ∧ (((NewStreamManager.AddCoin "btcusdt" "u1").2.DeleteCoin "btcusdt" "u1").DeleteCoin
        "btcusdt" "u2").cancelled = [0, 0] := by
  decide

/-- C15 (amended): when `S` has no follower set or `U` is not in it, `DeleteCoin(S, U)`
leaves `Followers` and `streams` (and the task counter) unchanged; it invokes no cancel
function when `S` has no follower set, a non-empty one or no handle, and when the follower
set of `S` is empty and `S` has a handle it invokes the cancel function of that handle. -/
theorem C15_DeleteCoin_of_absent (sm : StreamManager) (S U : String)
    (hU : GoMap.contains ((GoMap.lookup (toLower S) sm.Followers).getD []) U = false) :
    (sm.DeleteCoin S U).Followers = sm.Followers
    ∧ (sm.DeleteCoin S U).streams = sm.streams
    ∧ (sm.DeleteCoin S U).started = sm.started
    ∧ (GoMap.lookup (toLower S) sm.Followers = none → (sm.DeleteCoin S U).cancelled = sm.cancelled)
    ∧ (followed sm (toLower S) = true → (sm.DeleteCoin S U).cancelled = sm.cancelled)
    ∧ (GoMap.lookup (toLower S) sm.streams = none → (sm.DeleteCoin S U).cancelled = sm.cancelled)
    ∧ (∀ c, GoMap.lookup (toLower S) sm.Followers = some [] →
        GoMap.lookup (toLower S) sm.streams = some c →
        (sm.DeleteCoin S U).cancelled = sm.cancelled ++ [c]) := by
  cases hF : GoMap.lookup (toLower S) sm.Followers with
  | none =>
    have e : sm.DeleteCoin S U = sm := by simp [DeleteCoin, strman.DeleteCoin, hF]
    rw [e]
    refine ⟨rfl, rfl, rfl, fun _ => rfl, fun _ => rfl, fun _ => rfl, ?_⟩
    intro c h
    cases h
  | some users =>
    have hc : GoMap.contains users U = false := by simpa [hF] using hU
    have hne : ¬ (GoMap.contains users U = true) := by simp [hc]
    by_cases hlen : users.length = 0
    · cases hS : GoMap.lookup (toLower S) sm.streams with
      | none =>
        have e : sm.DeleteCoin S U = sm := by
          simp only [DeleteCoin, strman.DeleteCoin, hF, if_neg hne, Option.getD_some]
          rw [if_pos hlen, hS]
        rw [e]
        refine ⟨rfl, rfl, rfl, fun _ => rfl, fun _ => rfl, fun _ => rfl, ?_⟩
        intro c _ h
        cases h
      | some c =>
        have e : sm.DeleteCoin S U = { sm with cancelled := sm.cancelled ++ [c] } := by
          simp only [DeleteCoin, strman.DeleteCoin, hF, if_neg hne, Option.getD_some]
          rw [if_pos hlen, hS]
        rw [e]
        refine ⟨rfl, rfl, rfl, fun h => (by cases h), ?_, fun h => (by cases h), ?_⟩
        · intro hfol
          simp [followed, hF, hlen] at hfol
        · intro c' _ hc'
          cases hc'
          rfl
    · have e : sm.DeleteCoin S U = sm := by
        simp only [DeleteCoin, strman.DeleteCoin, hF, if_neg hne, Option.getD_some]
        rw [if_neg hlen]
      rw [e]
      refine ⟨rfl, rfl, rfl, fun _ => rfl, fun _ => rfl, fun _ => rfl, ?_⟩
      intro c h
      cases h
      exact absurd rfl hlen

/-- C15 (amended) on a manager where `u1` follows "btcusdt": `DeleteCoin` for `u2`, and
for a symbol without follower set. -/
theorem C15_DeleteCoin_of_absent_witness :
    ((NewStreamManager.AddCoin "btcusdt" "u1").2.DeleteCoin "btcusdt" "u2").Followers
      = (NewStreamManager.AddCoin "btcusdt" "u1").2.Followers
    ∧ ((NewStreamManager.AddCoin "btcusdt" "u1").2.DeleteCoin "btcusdt" "u2").streams
      = (NewStreamManager.AddCoin "btcusdt" "u1").2.streams
    ∧ ((NewStreamManager.AddCoin "btcusdt" "u1").2.DeleteCoin "btcusdt" "u2").cancelled
      = (NewStreamManager.AddCoin "btcusdt" "u1").2.cancelled
    ∧ ((NewStreamManager.AddCoin "btcusdt" "u1").2.DeleteCoin "ethusdt" "u1").cancelled
      = (NewStreamManager.AddCoin "btcusdt" "u1").2.cancelled :=
  have h := C15_DeleteCoin_of_absent (NewStreamManager.AddCoin "btcusdt" "u1").2
    "btcusdt" "u2" (by decide)
  have h' := C15_DeleteCoin_of_absent (NewStreamManager.AddCoin "btcusdt" "u1").2
    "ethusdt" "u1" (by decide)
  ⟨h.1, h.2.1, h.2.2.2.2.1 (by decide), h'.2.2.2.1 (by decide)⟩

/-! ### C16 -/

theorem Char_toLower_idem (c : Char) : c.toLower.toLower = c.toLower := by
  by_cases h : 65 ≤ c.toNat ∧ c.toNat ≤ 90
  · have e : c.toLower = Char.ofNat (c.toNat + 32) := by
      simp [Char.toLower, h]
    have key : ∀ n : Nat, 65 ≤ n → n ≤ 90 →
        (Char.ofNat (n + 32)).toLower = Char.ofNat (n + 32) := by
      intro n h1 h2
      interval_cases n <;> decide
    rw [e]
    exact key _ h.1 h.2
  · have e : c.toLower = c := by
      simp [Char.toLower, h]
    rw [e, e]

theorem toLower_idem (s : String) : toLower (toLower s) = toLower s := by
  unfold toLower
  simp only [List.map_map]
  congr 1
  apply List.map_congr_left
  intro c _
  exact Char_toLower_idem c

theorem AddCoin_lower (lower : String → String) (hlower : strman.IsToLower lower)
    (sm : StreamManager) (s U : String) :
    strman.AddCoin lower sm (lower s) U = strman.AddCoin lower sm s U := by
  unfold strman.AddCoin
  rw [hlower.idem]

theorem DeleteCoin_lower (lower : String → String) (hlower : strman.IsToLower lower)
    (sm : StreamManager) (s U : String) :
    strman.DeleteCoin lower sm (lower s) U = strman.DeleteCoin lower sm s U := by
  unfold strman.DeleteCoin
  rw [hlower.idem]

theorem LowerKeys_insert (lower : String → String) (hlower : strman.IsToLower lower)
    {V : Type} (m : GoMap String V) (s : String) (v : V)
    (h : strman.LowerKeys lower m) : strman.LowerKeys lower (GoMap.insert (lower s) v m) := by
  intro k hk
  rw [GoMap.keys_insert] at hk
  by_cases hm : lower s ∈ GoMap.keys m
  · rw [if_pos hm] at hk
    exact h k hk
  · rw [if_neg hm] at hk
    rcases List.mem_append.1 hk with h1 | h1
    · exact h k h1
    · have : k = lower s := by simpa using h1
      rw [this]
      exact hlower.idem s

theorem LowerKeys_erase (lower : String → String) {V : Type} (m : GoMap String V)
    (s : String) (h : strman.LowerKeys lower m) : strman.LowerKeys lower (GoMap.erase s m) := by
  intro k hk
  obtain ⟨e, he, hek⟩ := List.mem_map.1 hk
  exact h k (List.mem_map.2 ⟨e, GoMap.mem_of_mem_erase _ _ _ he, hek⟩)

theorem AddCoin_LowerKeys (lower : String → String) (hlower : strman.IsToLower lower)
    (sm : StreamManager) (s U : String)
    (hF : strman.LowerKeys lower sm.Followers) (hS : strman.LowerKeys lower sm.streams) :
    strman.LowerKeys lower (strman.AddCoin lower sm s U).2.Followers
    ∧ strman.LowerKeys lower (strman.AddCoin lower sm s U).2.streams := by
  unfold strman.AddCoin start
  simp only []
  split_ifs <;>
    (constructor <;>
      first
        | exact hF
        | exact hS
        | exact LowerKeys_insert lower hlower _ _ _ hF
        | exact LowerKeys_insert lower hlower _ _ _ hS
        | exact LowerKeys_insert lower hlower _ _ _ (LowerKeys_insert lower hlower _ _ _ hF))

theorem DeleteCoin_LowerKeys (lower : String → String) (hlower : strman.IsToLower lower)
    (sm : StreamManager) (s U : String)
    (hF : strman.LowerKeys lower sm.Followers) (hS : strman.LowerKeys lower sm.streams) :
    strman.LowerKeys lower (strman.DeleteCoin lower sm s U).Followers
    ∧ strman.LowerKeys lower (strman.DeleteCoin lower sm s U).streams := by
  unfold strman.DeleteCoin
  simp only []
  cases GoMap.lookup (lower s) sm.Followers with
  | none => exact ⟨hF, hS⟩
  | some users =>
    simp only []
    split_ifs <;> (try split) <;>
      (constructor <;>
        first
          | exact hF
          | exact hS
          | exact LowerKeys_insert lower hlower _ _ _ hF)

theorem run_LowerKeys (lower : String → String) (hlower : strman.IsToLower lower)
    (steps : List Step) (sm : StreamManager)
    (hF : strman.LowerKeys lower sm.Followers) (hS : strman.LowerKeys lower sm.streams) :
    strman.LowerKeys lower (strman.run lower sm steps).Followers
    ∧ strman.LowerKeys lower (strman.run lower sm steps).streams := by
  induction steps generalizing sm with
  | nil => exact ⟨hF, hS⟩
  | cons st rest ih =>
    have e : strman.run lower sm (st :: rest) = strman.run lower (strman.step lower sm st) rest :=
      rfl
    rw [e]
    cases st with
    | addCoin symbol userID =>
      obtain ⟨h1, h2⟩ := AddCoin_LowerKeys lower hlower sm symbol userID hF hS
      exact ih _ h1 h2
    | deleteCoin symbol userID =>
      obtain ⟨h1, h2⟩ := DeleteCoin_LowerKeys lower hlower sm symbol userID hF hS
      exact ih _ h1 h2
    | exit symbol => exact ih _ hF (LowerKeys_erase lower _ _ hS)

/-- On a new manager the first `AddCoin` returns true, and an `AddCoin` after it by the
same subscriber, for a symbol with the same lower-cased form, returns false. -/
theorem AddCoin_twice (lower : String → String) (s t U : String) (h : lower t = lower s) :
    (strman.AddCoin lower NewStreamManager s U).1 = true
    ∧ (strman.AddCoin lower (strman.AddCoin lower NewStreamManager s U).2 t U).1 = false := by
  constructor
  · simp [strman.AddCoin, NewStreamManager, GoMap.contains, GoMap.lookup, GoMap.insert]
  · simp [strman.AddCoin, start, h, NewStreamManager, GoMap.contains, GoMap.lookup,
      GoMap.insert]

/-- C16: `lower` stands for `strings.ToLower`, of which it is taken that lowering a lowered
string changes nothing and that it lowers the letters `A` to `Z` of a string of ASCII
characters. For every symbol string, `AddCoin` and `DeleteCoin` return and do what they
return and do on the lower-cased string; in every state reached from a new manager by
`AddCoin`, `DeleteCoin` and task cleanup steps every key of `Followers` and of `streams` is
lower-case (`lower` leaves it as it is); on a new manager `AddCoin(s, U)` returns true and
an `AddCoin(t, U)` after it, for a `t` with the lower-cased form of `s`, returns false; so
`AddCoin("BTCUSDT", U)` returns true and the `AddCoin("btcusdt", U)` after it false. -/
theorem C16_symbols_lower_cased (lower : String → String) (hlower : strman.IsToLower lower)
    (sm : StreamManager) (s U : String) (steps : List Step) :
    strman.AddCoin lower sm s U = strman.AddCoin lower sm (lower s) U
    ∧ strman.DeleteCoin lower sm s U = strman.DeleteCoin lower sm (lower s) U
    ∧ strman.LowerKeys lower (strman.run lower NewStreamManager steps).Followers
    ∧ strman.LowerKeys lower (strman.run lower NewStreamManager steps).streams
    ∧ (strman.AddCoin lower NewStreamManager s U).1 = true
    ∧ (∀ t, lower t = lower s →
        (strman.AddCoin lower (strman.AddCoin lower NewStreamManager s U).2 t U).1 = false)
    ∧ (strman.AddCoin lower NewStreamManager "BTCUSDT" U).1 = true
    ∧ (strman.AddCoin lower (strman.AddCoin lower NewStreamManager "BTCUSDT" U).2
        "btcusdt" U).1 = false := by
  have hnil : ∀ V : Type, strman.LowerKeys lower ([] : GoMap String V) := by
    intro V k hk
    cases hk
  obtain ⟨r1, r2⟩ := run_LowerKeys lower hlower steps NewStreamManager (hnil _) (hnil _)
  have h1 : lower "BTCUSDT" = "btcusdt" := by
    rw [hlower.ascii "BTCUSDT" (by decide)]
    decide
  have h2 : lower "btcusdt" = "btcusdt" := by
    rw [hlower.ascii "btcusdt" (by decide)]
    decide
  exact ⟨(AddCoin_lower lower hlower sm s U).symm, (DeleteCoin_lower lower hlower sm s U).symm,
    r1, r2, (AddCoin_twice lower s s U rfl).1, fun t ht => (AddCoin_twice lower s t U ht).2,
    (AddCoin_twice lower "BTCUSDT" "btcusdt" U (h2.trans h1.symm)).1,
    (AddCoin_twice lower "BTCUSDT" "btcusdt" U (h2.trans h1.symm)).2⟩

/-- C16 with the lowering of the ASCII letters for `lower`: after `AddCoin("BTCUSDT", u1)`,
`AddCoin("EthUsdt", u2)` and `DeleteCoin("ETHUSDT", u2)` the keys are "btcusdt" and
"ethusdt", and `AddCoin("BtcUsdt", u1)` on a new manager does what `AddCoin("btcusdt", u1)`
does. -/
theorem C16_symbols_lower_cased_witness :
    GoMap.keys (strman.run toLower NewStreamManager
        [.addCoin "BTCUSDT" "u1", .addCoin "EthUsdt" "u2", .deleteCoin "ETHUSDT" "u2"]).Followers
      = ["btcusdt", "ethusdt"]
    ∧ strman.LowerKeys toLower (strman.run toLower NewStreamManager
        [.addCoin "BTCUSDT" "u1", .addCoin "EthUsdt" "u2", .deleteCoin "ETHUSDT" "u2"]).Followers
    ∧ strman.AddCoin toLower NewStreamManager "BtcUsdt" "u1"
      = strman.AddCoin toLower NewStreamManager (toLower "BtcUsdt") "u1"
    ∧ (strman.AddCoin toLower (strman.AddCoin toLower NewStreamManager "BTCUSDT" "u1").2
        "btcusdt" "u1").1 = false :=
  have h := C16_symbols_lower_cased toLower ⟨toLower_idem, fun _ _ => rfl⟩ NewStreamManager
    "BtcUsdt" "u1"
    [.addCoin "BTCUSDT" "u1", .addCoin "EthUsdt" "u2", .deleteCoin "ETHUSDT" "u2"]
  ⟨by decide, h.2.2.1, h.1, h.2.2.2.2.2.2.2⟩

end StreamManager

namespace SecondStatWorker

variable {F : Type}

/-! ### The tick -/

/-- A tick over the entries `order`: the first `free` entries are queued behind the items
already there, one warning is raised for each of the others, nothing else changes. -/
theorem tick_fold (order : List (String × F)) (w : SecondStatWorker F) :
    (order.foldl emit w).outChan.buf = w.outChan.buf ++
        (order.take w.outChan.free).map (fun e => ({ Symbol := e.1, Price := e.2 } : SecondStat F))
    ∧ (order.foldl emit w).outChan.cap = w.outChan.cap
    ∧ (order.foldl emit w).warnings = w.warnings + (order.length - w.outChan.free)
    ∧ (order.foldl emit w).latestPrices = w.latestPrices
    ∧ (order.foldl emit w).returned = w.returned := by
  induction order generalizing w with
  | nil => simp
  | cons e rest ih =>
    obtain ⟨i1, i2, i3, i4, i5⟩ := ih (emit w e)
    simp only [List.foldl_cons]
    rw [i1, i2, i3, i4, i5]
    by_cases hroom : w.outChan.buf.length < w.outChan.cap
    · have hfree : w.outChan.free = (emit w e).outChan.free + 1 := by
        simp [emit, Chan.trySend, Chan.free, hroom]
        omega
      have hbuf : (emit w e).outChan.buf = w.outChan.buf ++ [{ Symbol := e.1, Price := e.2 }] := by
        simp [emit, Chan.trySend, hroom]
      rw [hfree, hbuf]
      refine ⟨by simp [List.take_succ_cons], ?_, ?_, ?_, ?_⟩
      · simp [emit, Chan.trySend, hroom]
      · simp [emit, Chan.trySend, hroom]
      · simp [emit, Chan.trySend, hroom]
      · simp [emit, Chan.trySend, hroom]
    · have hfree : w.outChan.free = 0 := by
        simp [Chan.free]; omega
      have hfree' : (emit w e).outChan.free = 0 := by
        simp [emit, Chan.trySend, Chan.free, hroom]; omega
      rw [hfree, hfree']
      refine ⟨by simp [emit, Chan.trySend, hroom], ?_, ?_, ?_, ?_⟩
      · simp [emit, Chan.trySend, hroom]
      · simp [emit, Chan.trySend, hroom]; omega
      · simp [emit, Chan.trySend, hroom]
      · simp [emit, Chan.trySend, hroom]

theorem afterTrades_fields [Neg F] [One F] (parseFloat : String → Option F)
    (trades : List AggTrade) (w : SecondStatWorker F) :
    (afterTrades parseFloat w trades).outChan = w.outChan
    ∧ (afterTrades parseFloat w trades).returned = w.returned
    ∧ (afterTrades parseFloat w trades).warnings = w.warnings
    ∧ (afterTrades parseFloat w trades).latestPrices = trades.foldl
        (fun m t => GoMap.insert (toLower t.Symbol) (t.PriceFloat parseFloat) m)
        w.latestPrices := by
  induction trades generalizing w with
  | nil => exact ⟨rfl, rfl, rfl, rfl⟩
  | cons t ts ih =>
    obtain ⟨h1, h2, h3, h4⟩ := ih (selectCase parseFloat w (.recv (some t)))
    exact ⟨h1, h2, h3, h4⟩

/-- A worker that has not returned handles the trades one by one. -/
theorem receiveSecondStat_trades [Neg F] [One F] (parseFloat : String → Option F)
    (trades : List AggTrade) (w : SecondStatWorker F) (rest : List (WorkerEvent F))
    (hrun : w.returned = false) :
    receiveSecondStat parseFloat w (trades.map (fun t => WorkerEvent.recv (some t)) ++ rest)
      = receiveSecondStat parseFloat (afterTrades parseFloat w trades) rest := by
  induction trades generalizing w with
  | nil => rfl
  | cons t ts ih =>
    have e : receiveSecondStat parseFloat w
        ((t :: ts).map (fun t => WorkerEvent.recv (some t)) ++ rest)
        = receiveSecondStat parseFloat (selectCase parseFloat w (.recv (some t)))
            (ts.map (fun t => WorkerEvent.recv (some t)) ++ rest) := by
      simp [receiveSecondStat, hrun]
    rw [e]
    exact ih (selectCase parseFloat w (.recv (some t))) hrun

theorem receiveSecondStat_nil [Neg F] [One F] (parseFloat : String → Option F)
    (w : SecondStatWorker F) : receiveSecondStat parseFloat w [] = w := rfl

theorem receiveSecondStat_cons [Neg F] [One F] (parseFloat : String → Option F)
    (w : SecondStatWorker F) (ev : WorkerEvent F) (rest : List (WorkerEvent F))
    (hrun : w.returned = false) :
    receiveSecondStat parseFloat w (ev :: rest)
      = receiveSecondStat parseFloat (selectCase parseFloat w ev) rest := by
  simp [receiveSecondStat, hrun]

theorem foldl_insert_WF [Neg F] [One F] (parseFloat : String → Option F)
    (trades : List AggTrade) (m : GoMap String F) (h : GoMap.WF m) :
    GoMap.WF (trades.foldl
      (fun m t => GoMap.insert (toLower t.Symbol) (t.PriceFloat parseFloat) m) m) := by
  induction trades generalizing m with
  | nil => exact h
  | cons t ts ih => exact ih _ (GoMap.WF_insert _ _ _ h)

/-! ### C4 -/

/-- Trades for other symbols leave the entry of `s` as it is. -/
theorem foldl_insert_lookup_of_ne [Neg F] [One F] (parseFloat : String → Option F)
    (trades : List AggTrade) (s : String) (m : GoMap String F)
    (h : ∀ t ∈ trades, toLower t.Symbol ≠ s) :
    GoMap.lookup s (trades.foldl
      (fun m t => GoMap.insert (toLower t.Symbol) (t.PriceFloat parseFloat) m) m)
      = GoMap.lookup s m := by
  induction trades generalizing m with
  | nil => rfl
  | cons t ts ih =>
    rw [List.foldl_cons, ih _ (fun x hx => h x (List.mem_cons_of_mem _ hx))]
    exact GoMap.lookup_insert_of_ne _ _ (fun e => h t (List.mem_cons_self _ _) e.symm)

/-- C4: between two ticks a worker receives the trades `before ++ [last] ++ others`, of any
symbols, where `last` is the last trade for the symbol `s` (up to case): no trade of
`others` is for `s`. Then comes a tick whose `range` yields the table in the order `order`;
the output channel has room for the table. The tick emits exactly one snapshot for `s`, and
its price is the price of `last`, whatever the trades of `before`, for `s` or not, and the
trades of `others` were. -/
theorem C4_tick_emits_last_price [Neg F] [One F] (parseFloat : String → Option F)
    (w : SecondStatWorker F) (before : List AggTrade) (last : AggTrade)
    (others : List AggTrade) (s : String) (order : List (String × F))
    (hrun : w.returned = false)
    (hwf : GoMap.WF w.latestPrices)
    (hlast : toLower last.Symbol = s)
    (hothers : ∀ t ∈ others, toLower t.Symbol ≠ s)
    (hperm : order.Perm (receiveSecondStat parseFloat w
      ((before ++ [last] ++ others).map (fun t => WorkerEvent.recv (some t)))).latestPrices)
    (hroom : order.length ≤ w.outChan.free) :
    (emitted w (receiveSecondStat parseFloat w
        ((before ++ [last] ++ others).map (fun t => WorkerEvent.recv (some t))
          ++ [.tick order]))).filter
        (fun st => decide (st.Symbol = s))
      = [{ Symbol := s, Price := last.PriceFloat parseFloat }] := by
  obtain ⟨f1, f2, _, f4⟩ := afterTrades_fields parseFloat (before ++ [last] ++ others) w
  have h0 := receiveSecondStat_trades parseFloat (before ++ [last] ++ others) w [] hrun
  rw [List.append_nil, receiveSecondStat_nil] at h0
  rw [h0, f4] at hperm
  rw [receiveSecondStat_trades parseFloat (before ++ [last] ++ others) w [.tick order] hrun,
    receiveSecondStat_cons parseFloat _ _ _ (f2.trans hrun), receiveSecondStat_nil]
  obtain ⟨t1, _, _, _, _⟩ :=
    tick_fold order (afterTrades parseFloat w (before ++ [last] ++ others))
  have hlook : GoMap.lookup s ((before ++ [last] ++ others).foldl
      (fun m t => GoMap.insert (toLower t.Symbol) (t.PriceFloat parseFloat) m)
      w.latestPrices) = some (last.PriceFloat parseFloat) := by
    rw [List.foldl_append, foldl_insert_lookup_of_ne parseFloat others s _ hothers,
      List.foldl_append]
    simp only [List.foldl_cons, List.foldl_nil, hlast]
    exact GoMap.lookup_insert_self _ _ _
  have hfilter := GoMap.filter_key_of_lookup _ s _
    (foldl_insert_WF parseFloat (before ++ [last] ++ others) w.latestPrices hwf) hlook
  have hord : order.filter (fun e => decide (e.1 = s)) = [(s, last.PriceFloat parseFloat)] := by
    have hp := List.Perm.filter (fun e => decide (e.1 = s)) hperm
    rw [hfilter] at hp
    exact List.perm_singleton.1 hp
  have hbuf : (selectCase parseFloat (afterTrades parseFloat w (before ++ [last] ++ others))
      (.tick order)).outChan.buf = w.outChan.buf ++
        order.map (fun e => ({ Symbol := e.1, Price := e.2 } : SecondStat F)) := by
    show (order.foldl emit (afterTrades parseFloat w (before ++ [last] ++ others))).outChan.buf
      = _
    rw [t1, f1, List.take_of_length_le hroom]
  unfold emitted
  rw [hbuf, List.drop_left, List.filter_map]
  have hcomp : ((fun st : SecondStat F => decide (st.Symbol = s)) ∘
      fun e : String × F => ({ Symbol := e.1, Price := e.2 } : SecondStat F))
      = fun e => decide (e.1 = s) := rfl
  rw [hcomp, hord]
  rfl

/-- C4 on the trades at 100, 101 and 102 for "btcusdt", with trades for "ethusdt" between
them and after them: one snapshot for "btcusdt", with price 102. -/
theorem C4_tick_emits_last_price_witness :
    (emitted sampleWorker (receiveSecondStat sampleParseFloat sampleWorker
        (([AggTrade.mk "BTCUSDT" "100", AggTrade.mk "ETHUSDT" "100",
            AggTrade.mk "btcusdt" "101"]
            ++ [AggTrade.mk "btcusdt" "102"] ++ [AggTrade.mk "ethusdt" "101"]).map
          (fun t => WorkerEvent.recv (some t))
          ++ [.tick [("btcusdt", 102), ("ethusdt", 101)]]))).filter
        (fun st => decide (st.Symbol = "btcusdt"))
      = [{ Symbol := "btcusdt",
           Price := AggTrade.PriceFloat sampleParseFloat { Symbol := "btcusdt", Price := "102" } }]
    ∧ AggTrade.PriceFloat sampleParseFloat { Symbol := "btcusdt", Price := "102" } = 102 :=
  ⟨C4_tick_emits_last_price sampleParseFloat sampleWorker
    [AggTrade.mk "BTCUSDT" "100", AggTrade.mk "ETHUSDT" "100", AggTrade.mk "btcusdt" "101"]
    (AggTrade.mk "btcusdt" "102") [AggTrade.mk "ethusdt" "101"] "btcusdt"
    [("btcusdt", 102), ("ethusdt", 101)]
    (by decide) (by decide) (by decide) (by decide) (by decide) (by decide), by decide⟩

/-! ### C6 -/

/-- C6: one tick of a running worker whose table has `n` entries, on an output channel with
`k` free slots, queues the snapshots of the first `min n k` entries that the `range` yields
behind the items already queued, raises a warning for each of the other `n - min n k`
entries, and returns control: the worker has not returned, its table is as before, and a
trade received next is recorded in the table. -/
theorem C6_tick_drops_when_full [Neg F] [One F] (parseFloat : String → Option F)
    (w : SecondStatWorker F) (order : List (String × F)) (t : AggTrade)
    (hrun : w.returned = false) (hperm : order.Perm w.latestPrices) :
    (receiveSecondStat parseFloat w [.tick order]).outChan.buf
      = w.outChan.buf ++
          (order.take (min w.latestPrices.length w.outChan.free)).map
            (fun e => ({ Symbol := e.1, Price := e.2 } : SecondStat F))
    ∧ (emitted w (receiveSecondStat parseFloat w [.tick order])).length
      = min w.latestPrices.length w.outChan.free
    ∧ (receiveSecondStat parseFloat w [.tick order]).warnings
      = w.warnings + (w.latestPrices.length - min w.latestPrices.length w.outChan.free)
    ∧ (receiveSecondStat parseFloat w [.tick order]).returned = false
    ∧ (receiveSecondStat parseFloat w [.tick order]).latestPrices = w.latestPrices
    ∧ GoMap.lookup (toLower t.Symbol)
        (receiveSecondStat parseFloat w [.tick order, .recv (some t)]).latestPrices
      = some (t.PriceFloat parseFloat) := by
  obtain ⟨t1, _, t3, t4, t5⟩ := tick_fold order w
  have hlen : order.length = w.latestPrices.length := hperm.length_eq
  have e1 : receiveSecondStat parseFloat w [.tick order] = order.foldl emit w := by
    rw [receiveSecondStat_cons parseFloat w _ _ hrun, receiveSecondStat_nil]
    rfl
  have e2 : receiveSecondStat parseFloat w [.tick order, .recv (some t)]
      = selectCase parseFloat (order.foldl emit w) (.recv (some t)) := by
    rw [receiveSecondStat_cons parseFloat w _ _ hrun]
    show receiveSecondStat parseFloat (order.foldl emit w) [.recv (some t)] = _
    rw [receiveSecondStat_cons parseFloat _ _ _ (t5.trans hrun), receiveSecondStat_nil]
  have htake : order.take (min w.latestPrices.length w.outChan.free)
      = order.take w.outChan.free := by
    rw [← hlen, List.take_eq_take]
    omega
  rw [e1, e2, htake]
  refine ⟨t1, ?_, ?_, t5.trans hrun, t4, ?_⟩
  · unfold emitted
    rw [t1, List.drop_left, List.length_map, List.length_take, hlen, Nat.min_comm]
  · rw [t3, hlen]
    omega
  · exact GoMap.lookup_insert_self _ _ _

/-- C6 on the sample worker: two entries, three slots of which one is taken, then a third
entry with the queue full. -/
theorem C6_tick_drops_when_full_witness :
    (receiveSecondStat sampleParseFloat
        { sampleWorker with latestPrices := [("a", 1), ("b", 2), ("c", 3)] }
        [.tick [("c", 3), ("a", 1), ("b", 2)]]).outChan.buf
      = sampleWorker.outChan.buf ++
          ([("c", 3), ("a", 1), ("b", 2)].take (min 3 2)).map
            (fun e => ({ Symbol := e.1, Price := e.2 } : SecondStat Int))
    ∧ (receiveSecondStat sampleParseFloat
        { sampleWorker with latestPrices := [("a", 1), ("b", 2), ("c", 3)] }
        [.tick [("c", 3), ("a", 1), ("b", 2)]]).warnings = 0 + (3 - min 3 2) :=
  have h := C6_tick_drops_when_full sampleParseFloat
    { sampleWorker with latestPrices := [("a", 1), ("b", 2), ("c", 3)] }
    [("c", 3), ("a", 1), ("b", 2)] { Symbol := "a", Price := "100" } (by decide) (by decide)
  ⟨h.1, h.2.2.1⟩

/-! ### Ticks with room -/

/-- A tick of a running worker leaves the table and the running flag as they are. -/
theorem tick_table [Neg F] [One F] (parseFloat : String → Option F)
    (w : SecondStatWorker F) (order : List (String × F)) (hrun : w.returned = false) :
    (receiveSecondStat parseFloat w [.tick order]).latestPrices = w.latestPrices
    ∧ (receiveSecondStat parseFloat w [.tick order]).returned = false
    ∧ (receiveSecondStat parseFloat w [.tick order]).outChan.free
        = w.outChan.free - order.length := by
  obtain ⟨t1, t2, _, t4, t5⟩ := tick_fold order w
  have e1 : receiveSecondStat parseFloat w [.tick order] = order.foldl emit w := by
    rw [receiveSecondStat_cons parseFloat w _ _ hrun, receiveSecondStat_nil]
    rfl
  rw [e1]
  refine ⟨t4, t5.trans hrun, ?_⟩
  unfold Chan.free
  rw [t1, t2, List.length_append, List.length_map, List.length_take]
  unfold Chan.free
  omega

/-- A tick of a running worker whose output channel has room for the entries that the
`range` yields emits the snapshots of these entries, in that order. -/
theorem tick_emits_all [Neg F] [One F] (parseFloat : String → Option F)
    (w : SecondStatWorker F) (order : List (String × F)) (hrun : w.returned = false)
    (hroom : order.length ≤ w.outChan.free) :
    emitted w (receiveSecondStat parseFloat w [.tick order])
      = order.map (fun e => ({ Symbol := e.1, Price := e.2 } : SecondStat F)) := by
  obtain ⟨t1, _, _, _, _⟩ := tick_fold order w
  have e1 : receiveSecondStat parseFloat w [.tick order] = order.foldl emit w := by
    rw [receiveSecondStat_cons parseFloat w _ _ hrun, receiveSecondStat_nil]
    rfl
  unfold emitted
  rw [e1, t1, List.drop_left, List.take_of_length_le hroom]

/-- Such a tick emits exactly one snapshot for a symbol of the table, with its price. -/
theorem tick_emits_entry [Neg F] [One F] (parseFloat : String → Option F)
    (w : SecondStatWorker F) (order : List (String × F)) (s : String) (v : F)
    (hrun : w.returned = false) (hwf : GoMap.WF w.latestPrices)
    (hlook : GoMap.lookup s w.latestPrices = some v)
    (hperm : order.Perm w.latestPrices) (hroom : order.length ≤ w.outChan.free) :
    (emitted w (receiveSecondStat parseFloat w [.tick order])).filter
        (fun st => decide (st.Symbol = s))
      = [{ Symbol := s, Price := v }] := by
  rw [tick_emits_all parseFloat w order hrun hroom, List.filter_map]
  have hcomp : ((fun st : SecondStat F => decide (st.Symbol = s)) ∘
      fun e : String × F => ({ Symbol := e.1, Price := e.2 } : SecondStat F))
      = fun e => decide (e.1 = s) := rfl
  have hord : order.filter (fun e => decide (e.1 = s)) = [(s, v)] := by
    have hp := List.Perm.filter (fun e => decide (e.1 = s)) hperm
    rw [GoMap.filter_key_of_lookup _ s v hwf hlook] at hp
    exact List.perm_singleton.1 hp
  rw [hcomp, hord]
  rfl

theorem receiveSecondStat_two [Neg F] [One F] (parseFloat : String → Option F)
    (w : SecondStatWorker F) (ev1 ev2 : WorkerEvent F) (hrun : w.returned = false) :
    receiveSecondStat parseFloat w [ev1, ev2]
      = receiveSecondStat parseFloat (receiveSecondStat parseFloat w [ev1]) [ev2] := by
  rw [receiveSecondStat_cons parseFloat w _ _ hrun,
    receiveSecondStat_cons parseFloat w _ _ hrun, receiveSecondStat_nil]

/-! ### C22 -/

/-- C22 (as stated, fails): after a tick of the sample worker the table still holds
"ethusdt", and the next tick, with no trade in between, emits a snapshot for it again. -/
theorem C22_table_not_cleared_by_tick :
    (receiveSecondStat sampleParseFloat sampleWorker [.tick [("ethusdt", 7)]]).latestPrices
      = [("ethusdt", 7)]
    ∧ emitted (receiveSecondStat sampleParseFloat sampleWorker [.tick [("ethusdt", 7)]])
        (receiveSecondStat sampleParseFloat sampleWorker
          [.tick [("ethusdt", 7)], .tick [("ethusdt", 7)]])
      = [{ Symbol := "ethusdt", Price := 7 }] := by
  decide

/-- C22 (amended): a tick of a running worker leaves the latest-value table as it was, so
a symbol of the table that receives no trade in the following window yields exactly one
snapshot, with its last price, at the next tick too, when the output channel has room. -/
theorem C22_tick_keeps_table [Neg F] [One F] (parseFloat : String → Option F)
    (w : SecondStatWorker F) (order order2 : List (String × F)) (s : String) (v : F)
    (hrun : w.returned = false) (hwf : GoMap.WF w.latestPrices)
    (hlook : GoMap.lookup s w.latestPrices = some v)
    (hperm2 : order2.Perm w.latestPrices)
    (hroom2 : order.length + order2.length ≤ w.outChan.free) :
    (receiveSecondStat parseFloat w [.tick order]).latestPrices = w.latestPrices
    ∧ (emitted (receiveSecondStat parseFloat w [.tick order])
        (receiveSecondStat parseFloat w [.tick order, .tick order2])).filter
          (fun st => decide (st.Symbol = s))
      = [{ Symbol := s, Price := v }] := by
  obtain ⟨k1, k2, k3⟩ := tick_table parseFloat w order hrun
  refine ⟨k1, ?_⟩
  rw [receiveSecondStat_two parseFloat w _ _ hrun]
  exact tick_emits_entry parseFloat _ order2 s v k2 (by rw [k1]; exact hwf)
    (by rw [k1]; exact hlook) (by rw [k1]; exact hperm2) (by rw [k3]; omega)

/-- C22 (amended) on the sample worker: two ticks in a row. -/
theorem C22_tick_keeps_table_witness :
    (receiveSecondStat sampleParseFloat sampleWorker [.tick [("ethusdt", 7)]]).latestPrices
      = sampleWorker.latestPrices
    ∧ (emitted (receiveSecondStat sampleParseFloat sampleWorker [.tick [("ethusdt", 7)]])
        (receiveSecondStat sampleParseFloat sampleWorker
          [.tick [("ethusdt", 7)], .tick [("ethusdt", 7)]])).filter
          (fun st => decide (st.Symbol = "ethusdt"))
      = [{ Symbol := "ethusdt", Price := 7 }] :=
  C22_tick_keeps_table sampleParseFloat sampleWorker [("ethusdt", 7)] [("ethusdt", 7)]
    "ethusdt" 7 (by decide) (by decide) (by decide) (by decide) (by decide)

/-! ### C23 -/

/-- C23: one tick of a running worker, on an output channel with at least as many free
slots as the table has entries, appends exactly one snapshot per entry of the table, with
the symbol and the price of the entry, in the order in which the `range` yields the
entries; and, the table being as before, the next tick does so again for every entry, with
no trade in between, when the channel has room for it. -/
theorem C23_tick_one_snapshot_per_entry [Neg F] [One F] (parseFloat : String → Option F)
    (w : SecondStatWorker F) (order order2 : List (String × F))
    (hrun : w.returned = false)
    (hperm : order.Perm w.latestPrices) (hperm2 : order2.Perm w.latestPrices)
    (hroom : w.latestPrices.length ≤ w.outChan.free) :
    (receiveSecondStat parseFloat w [.tick order]).outChan.buf
      = w.outChan.buf ++ order.map (fun e => ({ Symbol := e.1, Price := e.2 } : SecondStat F))
    ∧ (emitted w (receiveSecondStat parseFloat w [.tick order])).Perm
        (w.latestPrices.map (fun e => ({ Symbol := e.1, Price := e.2 } : SecondStat F)))
    ∧ (2 * w.latestPrices.length ≤ w.outChan.free →
        (emitted (receiveSecondStat parseFloat w [.tick order])
          (receiveSecondStat parseFloat w [.tick order, .tick order2])).Perm
          (w.latestPrices.map (fun e => ({ Symbol := e.1, Price := e.2 } : SecondStat F)))) := by
  have hlen : order.length = w.latestPrices.length := hperm.length_eq
  have hlen2 : order2.length = w.latestPrices.length := hperm2.length_eq
  have hall := tick_emits_all parseFloat w order hrun (by omega)
  obtain ⟨k1, k2, k3⟩ := tick_table parseFloat w order hrun
  refine ⟨?_, ?_, ?_⟩
  · obtain ⟨t1, _, _, _, _⟩ := tick_fold order w
    have e1 : receiveSecondStat parseFloat w [.tick order] = order.foldl emit w := by
      rw [receiveSecondStat_cons parseFloat w _ _ hrun, receiveSecondStat_nil]
      rfl
    rw [e1, t1, List.take_of_length_le (by omega)]
  · rw [hall]
    exact hperm.map _
  · intro hroom2
    rw [receiveSecondStat_two parseFloat w _ _ hrun,
      tick_emits_all parseFloat _ order2 k2 (by rw [k3]; omega)]
    exact hperm2.map _

/-- C23 on a worker with three entries and four free slots. -/
theorem C23_tick_one_snapshot_per_entry_witness :
    (receiveSecondStat sampleParseFloat
        { latestPrices := [("a", 1), ("b", 2), ("c", 3)],
          outChan := { buf := [{ Symbol := "z", Price := 0 }], cap := 5, closed := false },
          warnings := 0, returned := false }
        [.tick [("c", 3), ("a", 1), ("b", 2)]]).outChan.buf
      = [{ Symbol := "z", Price := 0 }] ++
          [("c", 3), ("a", 1), ("b", 2)].map
            (fun e => ({ Symbol := e.1, Price := e.2 } : SecondStat Int)) :=
  (C23_tick_one_snapshot_per_entry sampleParseFloat
    { latestPrices := [("a", 1), ("b", 2), ("c", 3)],
      outChan := { buf := [{ Symbol := "z", Price := 0 }], cap := 5, closed := false },
      warnings := 0, returned := false }
    [("c", 3), ("a", 1), ("b", 2)] [("a", 1), ("b", 2), ("c", 3)]
    (by decide) (by decide) (by decide) (by decide)).1

/-! ### C28 -/

/-- C28: a running worker receives a trade and then a tick whose `range` yields the table
in the order `order`, the output channel having room. When the price string of the trade
does not parse, `PriceFloat` returns `-1`, the table holds `-1` for the lower-cased symbol
and the tick emits exactly one snapshot for it, with price `-1`; when it parses to `v`,
`PriceFloat` returns `v` and the table holds `v`. -/
theorem C28_unparsable_price_is_minus_one [Neg F] [One F] (parseFloat : String → Option F)
    (w : SecondStatWorker F) (t : AggTrade) (order : List (String × F))
    (hrun : w.returned = false) (hwf : GoMap.WF w.latestPrices)
    (hperm : order.Perm (receiveSecondStat parseFloat w [.recv (some t)]).latestPrices)
    (hroom : order.length ≤ w.outChan.free) :
    (parseFloat t.Price = none →
      t.PriceFloat parseFloat = -1
      ∧ GoMap.lookup (toLower t.Symbol)
          (receiveSecondStat parseFloat w [.recv (some t)]).latestPrices = some (-1)
      ∧ (emitted (receiveSecondStat parseFloat w [.recv (some t)])
          (receiveSecondStat parseFloat w [.recv (some t), .tick order])).filter
            (fun st => decide (st.Symbol = toLower t.Symbol))
        = [{ Symbol := toLower t.Symbol, Price := -1 }])
    ∧ (∀ v, parseFloat t.Price = some v →
      t.PriceFloat parseFloat = v
      ∧ GoMap.lookup (toLower t.Symbol)
          (receiveSecondStat parseFloat w [.recv (some t)]).latestPrices = some v) := by
  have e1 : receiveSecondStat parseFloat w [.recv (some t)]
      = { w with latestPrices :=
            GoMap.insert (toLower t.Symbol) (t.PriceFloat parseFloat) w.latestPrices } := by
    rw [receiveSecondStat_cons parseFloat w _ _ hrun, receiveSecondStat_nil]
    rfl
  have hlook : GoMap.lookup (toLower t.Symbol)
      (receiveSecondStat parseFloat w [.recv (some t)]).latestPrices
      = some (t.PriceFloat parseFloat) := by
    rw [e1]
    exact GoMap.lookup_insert_self _ _ _
  have hrun1 : (receiveSecondStat parseFloat w [.recv (some t)]).returned = false := by
    rw [e1]; exact hrun
  have hwf1 : GoMap.WF (receiveSecondStat parseFloat w [.recv (some t)]).latestPrices := by
    rw [e1]; exact GoMap.WF_insert _ _ _ hwf
  have hfree : (receiveSecondStat parseFloat w [.recv (some t)]).outChan = w.outChan := by
    rw [e1]
  constructor
  · intro hnone
    have hp : t.PriceFloat parseFloat = -1 := by simp [AggTrade.PriceFloat, hnone]
    refine ⟨hp, by rw [hlook, hp], ?_⟩
    rw [receiveSecondStat_two parseFloat w _ _ hrun]
    exact tick_emits_entry parseFloat _ order _ _ hrun1 hwf1 (by rw [hlook, hp]) hperm
      (by rw [hfree]; exact hroom)
  · intro v hv
    have hp : t.PriceFloat parseFloat = v := by simp [AggTrade.PriceFloat, hv]
    exact ⟨hp, by rw [hlook, hp]⟩

/-- C28 on the sample worker: a trade of "BTCUSDT" with the price string "abc", and one
with the price string "101". -/
theorem C28_unparsable_price_is_minus_one_witness :
    ((emitted (receiveSecondStat sampleParseFloat sampleWorker
          [.recv (some (AggTrade.mk "BTCUSDT" "abc"))])
        (receiveSecondStat sampleParseFloat sampleWorker
          [.recv (some (AggTrade.mk "BTCUSDT" "abc")),
           .tick [("btcusdt", -1), ("ethusdt", 7)]])).filter
          (fun st => decide (st.Symbol = toLower "BTCUSDT"))
      = [{ Symbol := toLower "BTCUSDT", Price := -1 }])
    ∧ GoMap.lookup (toLower "BTCUSDT")
        (receiveSecondStat sampleParseFloat sampleWorker
          [.recv (some (AggTrade.mk "BTCUSDT" "101"))]).latestPrices = some 101 :=
  ⟨((C28_unparsable_price_is_minus_one sampleParseFloat sampleWorker
      (AggTrade.mk "BTCUSDT" "abc") [("btcusdt", -1), ("ethusdt", 7)]
      (by decide) (by decide) (by decide) (by decide)).1 (by decide)).2.2,
   ((C28_unparsable_price_is_minus_one sampleParseFloat sampleWorker
      (AggTrade.mk "BTCUSDT" "101") [("ethusdt", 7), ("btcusdt", 101)]
      (by decide) (by decide) (by decide) (by decide)).2 101 (by decide)).2⟩

end SecondStatWorker

namespace MainState

/-! ### C24 -/

/-- C24 (as stated, fails): from a running process (context live, server listening, seven
tasks) the first call of the exit sequence is `cancel()`, not `Shutdown`: when `Shutdown` is
called the context is already cancelled and the server still listens. -/
theorem C24_cancel_precedes_shutdown :
    (exitSequence { ctxCancelled := false, listening := true, running := 7, trace := [] }).trace
      ≠ [.shutdown 3, .cancel, .wait]
    ∧ (exitSequence { ctxCancelled := false, listening := true, running := 7, trace := [] }).trace
      = [.cancel, .shutdown 3, .wait]
    ∧ (cancel { ctxCancelled := false, listening := true, running := 7, trace := [] }).ctxCancelled
      = true
    ∧ (cancel { ctxCancelled := false, listening := true, running := 7, trace := [] }).listening
      = true := by
  decide

/-- C24 (amended): the exit sequence of `main` first cancels the root context, the HTTP
server being left as it is, then stops the HTTP server with a grace period of 3 seconds,
then waits on the WaitGroup; at the end the context is cancelled, the server does not
listen and no task is counted. -/
theorem C24_exit_sequence_order (s : MainState) :
    (exitSequence s).trace = s.trace ++ [.cancel, .shutdown 3, .wait]
    ∧ (s.cancel).listening = s.listening
    ∧ (s.cancel).ctxCancelled = true
    ∧ ((s.cancel).Shutdown 3).listening = false
    ∧ ((s.cancel).Shutdown 3).running = s.running
    ∧ (exitSequence s).ctxCancelled = true
    ∧ (exitSequence s).listening = false
    ∧ (exitSequence s).running = 0 := by
  refine ⟨?_, rfl, rfl, rfl, rfl, rfl, rfl, rfl⟩
  simp [exitSequence, cancel, Shutdown, Wait]

end MainState

namespace RawConverter

/-! ### C17 -/

/-- C17: a running `ConvertRawToSS` that receives the frames of a list, with no
cancellation, hands to the worker exactly the frames that decode, decoded and in input
order, behind what it had handed over before; a frame that does not decode only adds one
logged error; and the converter has not returned. -/
theorem C17_decode_failures_skipped (unmarshal : String → Option AggTrade)
    (frames : List String) (cv : RawConverter) (hrun : cv.returned = false) :
    (ConvertRawToSS unmarshal cv (frames.map (fun f => ConverterEvent.recv (some f)))).aggTrChan
      = cv.aggTrChan ++ frames.filterMap unmarshal
    ∧ (ConvertRawToSS unmarshal cv (frames.map (fun f => ConverterEvent.recv (some f)))).errors
      = cv.errors + (frames.filter (fun f => (unmarshal f).isNone)).length
    ∧ (ConvertRawToSS unmarshal cv (frames.map (fun f => ConverterEvent.recv (some f)))).returned
      = false := by
  induction frames generalizing cv with
  | nil => simp [ConvertRawToSS, hrun]
  | cons f rest ih =>
    have e : ConvertRawToSS unmarshal cv ((f :: rest).map (fun f => ConverterEvent.recv (some f)))
        = ConvertRawToSS unmarshal (selectCase unmarshal cv (.recv (some f)))
            (rest.map (fun f => ConverterEvent.recv (some f))) := by
      simp [ConvertRawToSS, hrun]
    rw [e]
    cases hf : unmarshal f with
    | none =>
      have hs : selectCase unmarshal cv (.recv (some f)) = { cv with errors := cv.errors + 1 } := by
        simp [selectCase, hf]
      rw [hs]
      obtain ⟨i1, i2, i3⟩ := ih { cv with errors := cv.errors + 1 } hrun
      rw [i1, i2, i3]
      simp [hf]
      omega
    | some t =>
      have hs : selectCase unmarshal cv (.recv (some f))
          = { cv with aggTrChan := cv.aggTrChan ++ [t] } := by
        simp [selectCase, hf]
      rw [hs]
      obtain ⟨i1, i2, i3⟩ := ih { cv with aggTrChan := cv.aggTrChan ++ [t] } hrun
      rw [i1, i2, i3]
      simp [hf]

/-- C17 on the frames "100", "bad", "101": the two trades are handed over in order and
one error is logged. -/
theorem C17_decode_failures_skipped_witness :
    (ConvertRawToSS sampleDecode { aggTrChan := [], errors := 0, returned := false }
        (["100", "bad", "101"].map (fun f => ConverterEvent.recv (some f)))).aggTrChan
      = [] ++ ["100", "bad", "101"].filterMap sampleDecode
    ∧ ["100", "bad", "101"].filterMap sampleDecode
      = [{ Symbol := "BTCUSDT", Price := "100" }, { Symbol := "BTCUSDT", Price := "101" }]
    ∧ (ConvertRawToSS sampleDecode { aggTrChan := [], errors := 0, returned := false }
        (["100", "bad", "101"].map (fun f => ConverterEvent.recv (some f)))).errors = 1 :=
  have h := C17_decode_failures_skipped sampleDecode ["100", "bad", "101"]
    { aggTrChan := [], errors := 0, returned := false } (by decide)
  ⟨h.1, by decide, h.2.1.trans (by decide)⟩

end RawConverter

namespace App

/-! ### C25 -/

/-- C25 (fails on the code): the first `Stop` of a new service succeeds and leaves
`Messages` closed and not nil; a second `Close` of that subscriber, and so a second `Stop`,
closes the closed channel again and panics. -/
theorem C25_second_Stop_panics :
    (New.Stop).map (fun a => a.redisSubscriber.Messages.map (fun c => c.closed))
      = some (some true)
    ∧ (RedisSubscriber.NewSubscriber.Close).bind RedisSubscriber.Close = none
    ∧ (New.Stop).bind Stop = none := by
  decide

end App

namespace usersRepository

/-! ### C18 -/

/-- C18 (fails on the code for PostgreSQL): creating the user "u1" a second time is
rejected by the unique constraint of the store. On SQLite the second `CreateUserProfile`
returns `ErrAlreadyExists`; on PostgreSQL, whose message is "duplicate key value violates
unique constraint", it returns `ErrInternal`, because the pattern in the source does not
occur in that message. -/
theorem C18_duplicate_user_on_postgres_is_internal :
    (CreateUserProfile
        (CreateUserProfile { driver := .sqlite, users := [], coins := [] } none
          { ID := "u1", Name := "duplicate_user", Coins := [] }).2
        none { ID := "u1", Name := "duplicate_user", Coins := [] }).1
      = some Err.ErrAlreadyExists
    ∧ (Store.Create
        (CreateUserProfile { driver := .postgres, users := [], coins := [] } none
          { ID := "u1", Name := "duplicate_user", Coins := [] }).2
        none { ID := "u1", Name := "duplicate_user", Coins := [] }).1
      = some "ERROR: duplicate key value violates unique constraint \"users_pkey\" (SQLSTATE 23505)"
    ∧ Contains
        "ERROR: duplicate key value violates unique constraint \"users_pkey\" (SQLSTATE 23505)"
        "duplicate key value violates unique constraint" = true
    ∧ (CreateUserProfile
        (CreateUserProfile { driver := .postgres, users := [], coins := [] } none
          { ID := "u1", Name := "duplicate_user", Coins := [] }).2
        none { ID := "u1", Name := "duplicate_user", Coins := [] }).1
      = some Err.ErrInternal := by
  decide

/-! ### C19 -/

/-- A `Create` without error has appended the row of the user to a table that had no row
with that `ID`. -/
theorem Create_nil (st : Store) (fault : Option String) (u : User)
    (hnil : (st.Create fault u).1 = none) :
    st.users.any (fun row => decide (row.ID = u.ID)) = false
    ∧ (st.Create fault u).2.users = st.users ++ [{ ID := u.ID, Name := u.Name }] := by
  cases fault with
  | some msg => simp [Store.Create] at hnil
  | none =>
    by_cases h1 : st.users.any (fun row => decide (row.ID = u.ID)) = true
    · simp [Store.Create, h1] at hnil
    · by_cases h2 : st.users.any (fun row => decide (row.Name = u.Name)) = true
      · simp only [Store.Create, h1, h2, if_true] at hnil
        simp at hnil
      · simp only [Store.Create, h1, h2]
        exact ⟨by simp at h1; simp [h1], rfl⟩

/-- The store after `CreateUserProfile` is the store after `Create`, and the method returns
nil only when `Create` did. -/
theorem CreateUserProfile_store (st : Store) (fault : Option String) (u : User) :
    (CreateUserProfile st fault u).2 = (st.Create fault u).2
    ∧ ((CreateUserProfile st fault u).1 = none → (st.Create fault u).1 = none) := by
  unfold CreateUserProfile
  simp only []
  cases (st.Create fault u).1 with
  | none => exact ⟨rfl, fun _ => rfl⟩
  | some msg =>
    simp only []
    split_ifs
    · exact ⟨rfl, fun h => (by cases h)⟩
    · exact ⟨rfl, fun h => (by cases h)⟩

/-- C19: when `CreateUserProfile(u)` returns nil, `GetUserByID(u.ID)` on the store it
leaves (the store itself not failing) succeeds and returns a user with the `ID` and the
`Name` of `u`. -/
theorem C19_created_user_is_found (st : Store) (fault : Option String) (u : User)
    (hnil : (CreateUserProfile st fault u).1 = none) :
    ∃ found, GetUserByID (CreateUserProfile st fault u).2 none u.ID = .ok found
      ∧ found.ID = u.ID ∧ found.Name = u.Name := by
  obtain ⟨hstore, hcreate⟩ := CreateUserProfile_store st fault u
  obtain ⟨habs, husers⟩ := Create_nil st fault u (hcreate hnil)
  rw [hstore]
  have hfind : (st.Create fault u).2.users.find? (fun row => decide (row.ID = u.ID))
      = some { ID := u.ID, Name := u.Name } := by
    rw [husers, List.find?_append]
    have hnone : st.users.find? (fun row => decide (row.ID = u.ID)) = none := by
      rw [List.find?_eq_none]
      intro row hrow
      have := List.any_eq_false.1 habs row hrow
      simpa using this
    rw [hnone]
    simp
  simp only [GetUserByID, Store.First, hfind]
  exact ⟨_, rfl, rfl, rfl⟩

/-- C19 on the SQLite store of the test, which holds another user: "test_user" is created
and found. -/
theorem C19_created_user_is_found_witness :
    ∃ found, GetUserByID
        (CreateUserProfile
          { driver := .sqlite, users := [{ ID := "u0", Name := "other" }], coins := [] } none
          { ID := "u1", Name := "test_user", Coins := [] }).2 none "u1" = .ok found
      ∧ found.ID = "u1" ∧ found.Name = "test_user" :=
  C19_created_user_is_found
    { driver := .sqlite, users := [{ ID := "u0", Name := "other" }], coins := [] } none
    { ID := "u1", Name := "test_user", Coins := [] } (by decide)

end usersRepository

namespace coinsService

open coinsRepository

/-! ### C26 -/

theorem findCoin_set (u : UUID) (sym : String) (coins : List CoinRow) (key : Nat)
    (row : CoinRow) (q : Decimal) (h : findCoin u sym coins = some (key, row)) :
    findCoin u sym (coins.set key { row with Quantity := q })
      = some (key, { row with Quantity := q }) := by
  induction coins generalizing key with
  | nil => simp [findCoin] at h
  | cons r rest ih =>
    by_cases hr : r.UserID = u ∧ r.Symbol = sym
    · simp only [findCoin, hr, and_self, if_true, Option.some.injEq, Prod.mk.injEq] at h
      obtain ⟨h1, h2⟩ := h
      subst h1 h2
      simp [findCoin, hr]
    · simp only [findCoin, hr, if_false] at h
      cases hrest : findCoin u sym rest with
      | none => simp [hrest] at h
      | some found =>
        obtain ⟨k, row'⟩ := found
        simp only [hrest, Option.map_some', Option.some.injEq, Prod.mk.injEq] at h
        obtain ⟨h1, h2⟩ := h
        subst h1 h2
        simp only [List.set_cons_succ, findCoin, hr, if_false, ih k hrest, Option.map_some']

theorem findCoin_append (u : UUID) (sym : String) (coins : List CoinRow) (q : Decimal)
    (h : findCoin u sym coins = none) :
    findCoin u sym (coins ++ [{ UserID := u, Symbol := sym, Quantity := q }])
      = some (coins.length, { UserID := u, Symbol := sym, Quantity := q }) := by
  induction coins with
  | nil => simp [findCoin]
  | cons r rest ih =>
    by_cases hr : r.UserID = u ∧ r.Symbol = sym
    · simp [findCoin, hr] at h
    · simp only [findCoin, hr, if_false] at h
      cases hrest : findCoin u sym rest with
      | none =>
        have e := ih hrest
        simp only [List.cons_append, findCoin, hr, if_false, List.length_cons]
        change Option.map (fun found => (found.1 + 1, found.2))
          (findCoin u sym (rest ++ [{ UserID := u, Symbol := sym, Quantity := q }])) = _
        rw [e]
        rfl
      | some found => simp [hrest] at h

theorem findCoin_mem (u : UUID) (sym : String) (coins : List CoinRow) (key : Nat)
    (row : CoinRow) (h : findCoin u sym coins = some (key, row)) : row ∈ coins := by
  induction coins generalizing key with
  | nil => simp [findCoin] at h
  | cons r rest ih =>
    by_cases hr : r.UserID = u ∧ r.Symbol = sym
    · simp only [findCoin, hr, and_self, if_true, Option.some.injEq, Prod.mk.injEq] at h
      rw [← h.2]
      exact List.mem_cons_self _ _
    · simp only [findCoin, hr, if_false] at h
      cases hrest : findCoin u sym rest with
      | none => simp [hrest] at h
      | some found =>
        obtain ⟨k, row'⟩ := found
        simp only [hrest, Option.map_some', Option.some.injEq, Prod.mk.injEq] at h
        obtain ⟨_, h2⟩ := h
        subst h2
        exact List.mem_cons_of_mem _ (ih k hrest)

theorem round8_nonneg (q : Decimal) (h : 0 ≤ q) : 0 ≤ round8 q := by
  unfold round8
  rw [if_pos h]
  apply div_nonneg _ (by norm_num)
  have : (0 : Int) ≤ ⌊q * 100000000 + 1 / 2⌋ := Int.floor_nonneg.2 (by positivity)
  exact_mod_cast this

/-- A value with at most 8 decimal places is its own rounding. -/
theorem round8_exact (n : Int) : round8 ((n : Rat) / 100000000) = (n : Rat) / 100000000 := by
  have hfl : ∀ m : Int, ⌊(m : Rat) + 1 / 2⌋ = m := by
    intro m
    rw [Int.floor_eq_iff]
    constructor <;> norm_num
  unfold round8
  split_ifs with h
  · have e : (n : Rat) / 100000000 * 100000000 = n := by field_simp
    rw [e, hfl]
  · have e : -((n : Rat) / 100000000) * 100000000 = ((-n : Int) : Rat) := by
      push_cast; field_simp
    rw [e, hfl]
    push_cast
    ring

theorem round8_billionth : round8 (1 / 1000000000) = 0 := by
  unfold round8
  rw [if_pos (by norm_num)]
  have : ⌊(1 / 1000000000 : Rat) * 100000000 + 1 / 2⌋ = 0 := by
    rw [Int.floor_eq_iff]
    constructor <;> norm_num
  rw [this]
  norm_num

theorem decimal20_8_fits (q : Decimal) (h : fits20_8 q) : decimal20_8 q = .ok (round8 q) := by
  simp [decimal20_8, h]

theorem decimal20_8_nonneg (q v : Decimal) (h : decimal20_8 q = .ok v) (hq : 0 ≤ q) :
    0 ≤ v := by
  unfold decimal20_8 at h
  split_ifs at h
  simp only [Except.ok.injEq] at h
  rw [← h]
  exact round8_nonneg q hq

/-- What `UpdateCoinQuantity` does when the lookup finds a coin. -/
theorem UpdateCoinQuantity_found (column : QuantityColumn) (st : Store) (faults : CoinFaults)
    (u : UUID) (sym : String) (d : Decimal) (key : Nat) (row : CoinRow)
    (hget : faults.get = none) (hfind : findCoin u sym st.coins = some (key, row)) :
    (row.Quantity + d < 0 →
      UpdateCoinQuantity column st faults u sym d = (.error .ErrInsufficientFunds, st))
    ∧ (¬ row.Quantity + d < 0 → faults.save = none →
      ∀ kept, column (row.Quantity + d) = .ok kept →
      UpdateCoinQuantity column st faults u sym d
        = (.ok { row with Quantity := row.Quantity + d },
           { st with coins := st.coins.set key { row with Quantity := kept } }))
    ∧ (¬ row.Quantity + d < 0 →
      (faults.save ≠ none ∨ ∃ msg, column (row.Quantity + d) = .error msg) →
      (UpdateCoinQuantity column st faults u sym d).2 = st) := by
  refine ⟨fun hneg => ?_, fun hneg hsave kept hkept => ?_, fun hneg hfail => ?_⟩
  · simp [UpdateCoinQuantity, GetCoin, hget, hfind, hneg]
  · simp [UpdateCoinQuantity, GetCoin, UpdateCoin, hget, hfind, hneg, hsave, hkept]
  · cases hsave : faults.save with
    | some msg => simp [UpdateCoinQuantity, GetCoin, UpdateCoin, hget, hfind, hneg, hsave]
    | none =>
      rcases hfail with h | ⟨msg, h⟩
      · exact absurd hsave h
      · simp [UpdateCoinQuantity, GetCoin, UpdateCoin, hget, hfind, hneg, hsave, h]

/-- What `UpdateCoinQuantity` does when the lookup finds no coin. -/
theorem UpdateCoinQuantity_absent (column : QuantityColumn) (st : Store) (faults : CoinFaults)
    (u : UUID) (sym : String) (d : Decimal)
    (hget : faults.get = none) (hfind : findCoin u sym st.coins = none) :
    (d < 0 → UpdateCoinQuantity column st faults u sym d = (.error .ErrInsufficientFunds, st))
    ∧ (¬ d < 0 → faults.add = none → ∀ kept, column d = .ok kept →
      UpdateCoinQuantity column st faults u sym d
        = (.ok { UserID := u, Symbol := sym, Quantity := d },
           { st with coins := st.coins ++ [{ UserID := u, Symbol := sym, Quantity := kept }] }))
    ∧ (¬ d < 0 → (faults.add ≠ none ∨ ∃ msg, column d = .error msg) →
      (UpdateCoinQuantity column st faults u sym d).2 = st) := by
  refine ⟨fun hneg => ?_, fun hneg hadd kept hkept => ?_, fun hneg hfail => ?_⟩
  · simp [UpdateCoinQuantity, GetCoin, hget, hfind, hneg]
  · simp [UpdateCoinQuantity, GetCoin, AddCoin, hget, hfind, hneg, hadd, hkept]
  · cases hadd : faults.add with
    | some msg => simp [UpdateCoinQuantity, GetCoin, AddCoin, hget, hfind, hneg, hadd]
    | none =>
      rcases hfail with h | ⟨msg, h⟩
      · exact absurd hadd h
      · simp [UpdateCoinQuantity, GetCoin, AddCoin, hget, hfind, hneg, hadd, h]

/-- One `UpdateCoinQuantity`, whatever fails in the store, leaves no negative quantity,
when the column keeps no negative value of a value that is not negative. -/
theorem UpdateCoinQuantity_NoNegative (column : QuantityColumn)
    (hcol : ∀ q kept, column q = .ok kept → 0 ≤ q → 0 ≤ kept)
    (st : Store) (faults : CoinFaults) (u : UUID)
    (sym : String) (d : Decimal) (h : NoNegative st) :
    NoNegative (UpdateCoinQuantity column st faults u sym d).2 := by
  cases hget : faults.get with
  | some msg =>
    have e : (UpdateCoinQuantity column st faults u sym d).2 = st := by
      simp only [UpdateCoinQuantity, GetCoin, hget]
      split_ifs with h1 h2
      · rfl
      · cases h2
      · rfl
    rw [e]; exact h
  | none =>
    cases hfind : findCoin u sym st.coins with
    | none =>
      obtain ⟨a1, a2, a3⟩ := UpdateCoinQuantity_absent column st faults u sym d hget hfind
      by_cases hneg : d < 0
      · rw [a1 hneg]; exact h
      · by_cases hadd : faults.add = none
        · cases hkept : column d with
          | error msg => rw [a3 hneg (Or.inr ⟨msg, hkept⟩)]; exact h
          | ok kept =>
            rw [a2 hneg hadd kept hkept]
            intro row hrow
            rcases List.mem_append.1 hrow with h1 | h1
            · exact h row h1
            · have : row = { UserID := u, Symbol := sym, Quantity := kept } := by
                simpa using h1
              rw [this]
              exact hcol d kept hkept (not_lt.1 hneg)
        · rw [a3 hneg (Or.inl hadd)]; exact h
    | some found =>
      obtain ⟨key, row⟩ := found
      obtain ⟨f1, f2, f3⟩ :=
        UpdateCoinQuantity_found column st faults u sym d key row hget hfind
      by_cases hneg : row.Quantity + d < 0
      · rw [f1 hneg]; exact h
      · by_cases hsave : faults.save = none
        · cases hkept : column (row.Quantity + d) with
          | error msg => rw [f3 hneg (Or.inr ⟨msg, hkept⟩)]; exact h
          | ok kept =>
            rw [f2 hneg hsave kept hkept]
            intro x hx
            rcases List.mem_or_eq_of_mem_set hx with h1 | h1
            · exact h x h1
            · rw [h1]
              exact hcol _ kept hkept (not_lt.1 hneg)
        · rw [f3 hneg (Or.inl hsave)]; exact h

theorem updateAll_NoNegative (column : QuantityColumn)
    (hcol : ∀ q kept, column q = .ok kept → 0 ≤ q → 0 ≤ kept)
    (updates : List Update) (st : Store) (h : NoNegative st) :
    NoNegative (updateAll column st updates) := by
  induction updates generalizing st with
  | nil => exact h
  | cons up rest ih =>
    exact ih _ (UpdateCoinQuantity_NoNegative column hcol st up.faults up.userID up.symbol
      up.quantityChange h)

/-- C26 (as stated, fails): on a PostgreSQL table without coins, `UpdateCoinQuantity` with
the change 0.000000001 returns a coin with that quantity, and the coin that it has created
holds the quantity 0: the column `decimal(20,8)` keeps 8 decimal places. -/
theorem C26_stored_quantity_is_rounded :
    (UpdateCoinQuantity decimal20_8 { driver := .postgres, users := [], coins := [] }
        noFaults "u1" "BTC" (1 / 1000000000)).1
      = .ok { UserID := "u1", Symbol := "BTC", Quantity := 1 / 1000000000 }
    ∧ GetCoin (UpdateCoinQuantity decimal20_8 { driver := .postgres, users := [], coins := [] }
        noFaults "u1" "BTC" (1 / 1000000000)).2 none "u1" "BTC"
      = .ok (0, { UserID := "u1", Symbol := "BTC", Quantity := 0 })
    ∧ (0 : Decimal) ≠ 1 / 1000000000 := by
  have hfit : fits20_8 (1 / 1000000000) := by
    unfold fits20_8
    rw [round8_billionth]
    constructor <;> norm_num
  have hkept := decimal20_8_fits _ hfit
  rw [round8_billionth] at hkept
  obtain ⟨_, a2, _⟩ := UpdateCoinQuantity_absent decimal20_8
    { driver := .postgres, users := [], coins := [] } noFaults "u1" "BTC" (1 / 1000000000)
    rfl rfl
  rw [a2 (by norm_num) rfl 0 hkept]
  refine ⟨rfl, ?_, by norm_num⟩
  simp [GetCoin, findCoin]

/-- C26 (amended): `UpdateCoinQuantity` on the PostgreSQL table, when no operation of the
store fails and the new quantity fits the column `decimal(20,8)`. When the lookup finds a
coin with quantity `q`: if `q + d < 0` it fails with `ErrInsufficientFunds` and leaves the
store as it is, otherwise it returns the coin with quantity `q + d` and the store holds the
coin with `q + d` rounded to 8 decimal places. When the lookup finds no coin: if `d < 0`
it fails with `ErrInsufficientFunds` and leaves the store as it is, otherwise it returns a
coin with quantity `d` and the store holds a new coin with `d` rounded to 8 decimal places.
A quantity with at most 8 decimal places is its own rounding. And after every sequence of
calls, whatever fails in the store, a store without negative quantity has no negative
quantity. -/
theorem C26_UpdateCoinQuantity (st : Store) (u : UUID) (sym : String) (d : Decimal)
    (updates : List Update) :
    (∀ key row, findCoin u sym st.coins = some (key, row) →
      (row.Quantity + d < 0 →
        UpdateCoinQuantity decimal20_8 st noFaults u sym d
          = (.error .ErrInsufficientFunds, st))
      ∧ (¬ row.Quantity + d < 0 → fits20_8 (row.Quantity + d) →
        (UpdateCoinQuantity decimal20_8 st noFaults u sym d).1
          = .ok { row with Quantity := row.Quantity + d }
        ∧ GetCoin (UpdateCoinQuantity decimal20_8 st noFaults u sym d).2 none u sym
          = .ok (key, { row with Quantity := round8 (row.Quantity + d) })))
    ∧ (findCoin u sym st.coins = none →
      (d < 0 →
        UpdateCoinQuantity decimal20_8 st noFaults u sym d
          = (.error .ErrInsufficientFunds, st))
      ∧ (¬ d < 0 → fits20_8 d →
        (UpdateCoinQuantity decimal20_8 st noFaults u sym d).1
          = .ok { UserID := u, Symbol := sym, Quantity := d }
        ∧ GetCoin (UpdateCoinQuantity decimal20_8 st noFaults u sym d).2 none u sym
          = .ok (st.coins.length, { UserID := u, Symbol := sym, Quantity := round8 d })))
    ∧ (∀ n : Int, round8 ((n : Rat) / 100000000) = (n : Rat) / 100000000)
    ∧ (NoNegative st → NoNegative (updateAll decimal20_8 st updates)) := by
  refine ⟨fun key row hfind => ?_, fun hfind => ?_, round8_exact,
    updateAll_NoNegative decimal20_8 decimal20_8_nonneg updates st⟩
  · obtain ⟨f1, f2, _⟩ :=
      UpdateCoinQuantity_found decimal20_8 st noFaults u sym d key row rfl hfind
    refine ⟨f1, fun hneg hfit => ?_⟩
    rw [f2 hneg rfl _ (decimal20_8_fits _ hfit)]
    refine ⟨rfl, ?_⟩
    simp only [GetCoin, findCoin_set u sym st.coins key row _ hfind]
  · obtain ⟨a1, a2, _⟩ := UpdateCoinQuantity_absent decimal20_8 st noFaults u sym d rfl hfind
    refine ⟨a1, fun hneg hfit => ?_⟩
    rw [a2 hneg rfl _ (decimal20_8_fits _ hfit)]
    refine ⟨rfl, ?_⟩
    simp only [GetCoin, findCoin_append u sym st.coins _ hfind]

/-- C26 (amended) on a table that holds five BTC of user `u1`: taking seven fails and
leaves the store as it is; adding 0.123456789 returns 5.123456789 and stores 5.12345679. -/
theorem C26_UpdateCoinQuantity_witness :
    UpdateCoinQuantity decimal20_8
        { driver := .postgres, users := [],
          coins := [{ UserID := "u1", Symbol := "BTC", Quantity := 5 }] }
        noFaults "u1" "BTC" (-7)
      = (.error .ErrInsufficientFunds,
        { driver := .postgres, users := [],
          coins := [{ UserID := "u1", Symbol := "BTC", Quantity := 5 }] })
    ∧ (UpdateCoinQuantity decimal20_8
        { driver := .postgres, users := [],
          coins := [{ UserID := "u1", Symbol := "BTC", Quantity := 5 }] }
        noFaults "u1" "BTC" (123456789 / 1000000000)).1
      = .ok { UserID := "u1", Symbol := "BTC", Quantity := 5 + 123456789 / 1000000000 }
    ∧ GetCoin (UpdateCoinQuantity decimal20_8
        { driver := .postgres, users := [],
          coins := [{ UserID := "u1", Symbol := "BTC", Quantity := 5 }] }
        noFaults "u1" "BTC" (123456789 / 1000000000)).2 none "u1" "BTC"
      = .ok (0, { UserID := "u1", Symbol := "BTC",
                  Quantity := round8 (5 + 123456789 / 1000000000) })
    ∧ round8 (5 + 123456789 / 1000000000) = 512345679 / 100000000 :=
  have hround : round8 (5 + 123456789 / 1000000000) = 512345679 / 100000000 := by
    unfold round8
    rw [if_pos (by norm_num)]
    have : ⌊((5 : Rat) + 123456789 / 1000000000) * 100000000 + 1 / 2⌋ = 512345679 := by
      rw [Int.floor_eq_iff]
      constructor <;> norm_num
    rw [this]
    norm_num
  have hfit : fits20_8 (5 + 123456789 / 1000000000) := by
    unfold fits20_8
    rw [hround]
    constructor <;> norm_num
  have h := (C26_UpdateCoinQuantity
      { driver := .postgres, users := [],
        coins := [{ UserID := "u1", Symbol := "BTC", Quantity := 5 }] }
      "u1" "BTC" (-7) []).1 0 { UserID := "u1", Symbol := "BTC", Quantity := 5 }
    (by simp [findCoin])
  have h2 := (C26_UpdateCoinQuantity
      { driver := .postgres, users := [],
        coins := [{ UserID := "u1", Symbol := "BTC", Quantity := 5 }] }
      "u1" "BTC" (123456789 / 1000000000) []).1 0
    { UserID := "u1", Symbol := "BTC", Quantity := 5 }
    (by simp [findCoin])
  ⟨h.1 (by norm_num), (h2.2 (by norm_num) hfit).1, (h2.2 (by norm_num) hfit).2, hround⟩

/-- C29: the lookup fails with an error `msg` of the store, which is not `ErrNotFound`.
With the quantity change `-1` the call returns `ErrInsufficientFunds` and not the lookup
error; with the quantity change `1` it returns the lookup error. The store is left as it is
in both cases, whatever the column does. -/
theorem C29_negative_change_masks_lookup_error (column : QuantityColumn) (st : Store)
    (msg : String) (u : UUID) (sym : String) :
    UpdateCoinQuantity column st { get := some msg, add := none, save := none } u sym (-1)
      = (.error .ErrInsufficientFunds, st)
    ∧ Err.ErrInsufficientFunds ≠ Err.other msg
    ∧ UpdateCoinQuantity column st { get := some msg, add := none, save := none } u sym 1
      = (.error (.other msg), st) := by
  refine ⟨?_, fun h => (by cases h), ?_⟩
  · simp only [UpdateCoinQuantity, GetCoin]
    rw [if_pos (by norm_num)]
  · simp only [UpdateCoinQuantity, GetCoin]
    rw [if_neg (by norm_num), if_neg (fun h => (by cases h))]

end coinsService

namespace Manager

/-! ### followCoin -/

theorem followCoin_heap (m : Manager) (u : UUID) (s : String) :
    (m.followCoin u s).heap = m.heap ∧ (m.followCoin u s).clients = m.clients := by
  unfold followCoin
  simp only []
  split <;> split <;> (try split) <;> exact ⟨rfl, rfl⟩

/-- The follower sets after `followCoin`. -/
theorem followCoin_coinSubscribers (m : Manager) (u : UUID) (s : String) :
    (m.followCoin u s).coinSubscribers
      = GoMap.insert s (GoMap.insert u true ((GoMap.lookup s m.coinSubscribers).getD []))
          (if GoMap.contains m.coinSubscribers s then m.coinSubscribers
           else GoMap.insert s [] m.coinSubscribers) := by
  have hget : (GoMap.lookup s (if GoMap.contains m.coinSubscribers s then m.coinSubscribers
      else GoMap.insert s [] m.coinSubscribers)).getD []
      = (GoMap.lookup s m.coinSubscribers).getD [] := by
    by_cases h : GoMap.contains m.coinSubscribers s = true
    · simp [h]
    · have h' : GoMap.lookup s m.coinSubscribers = none := by
        simpa [GoMap.contains] using h
      simp [h, h', GoMap.lookup_insert_self]
  unfold followCoin
  simp only []
  split <;> split <;> (try split) <;> simp_all

theorem followCoin_follows_self (m : Manager) (u : UUID) (s : String) :
    follows (m.followCoin u s) s u = true := by
  simp [follows, followCoin_coinSubscribers, GoMap.lookup_insert_self, GoMap.contains]

theorem followCoin_follows_mono (m : Manager) (u v : UUID) (s s' : String)
    (h : follows m s' v = true) : follows (m.followCoin u s) s' v = true := by
  unfold follows at *
  rw [followCoin_coinSubscribers]
  by_cases hs : s' = s
  · subst hs
    rw [GoMap.lookup_insert_self]
    cases hl : GoMap.lookup s' m.coinSubscribers with
    | none => simp [hl] at h
    | some users =>
      simp only [hl] at h
      simp only [Option.getD_some]
      exact (GoMap.contains_insert users u v true).2 (Or.inr h)
  · rw [GoMap.lookup_insert_of_ne _ _ hs]
    by_cases hc : GoMap.contains m.coinSubscribers s = true
    · simpa [hc] using h
    · simp only [hc]
      rw [if_neg (by simp), GoMap.lookup_insert_of_ne _ _ hs]
      exact h

theorem followAll_heap (u : UUID) (coins : List Coin) (m : Manager) :
    (coins.foldl (fun m coin => m.followCoin u coin.Symbol) m).heap = m.heap
    ∧ (coins.foldl (fun m coin => m.followCoin u coin.Symbol) m).clients = m.clients := by
  induction coins generalizing m with
  | nil => exact ⟨rfl, rfl⟩
  | cons c cs ih =>
    obtain ⟨h1, h2⟩ := ih (m.followCoin u c.Symbol)
    obtain ⟨g1, g2⟩ := followCoin_heap m u c.Symbol
    exact ⟨h1.trans g1, h2.trans g2⟩

theorem followAll_follows_mono (u v : UUID) (s : String) (coins : List Coin) (m : Manager)
    (h : follows m s v = true) :
    follows (coins.foldl (fun m coin => m.followCoin u coin.Symbol) m) s v = true := by
  induction coins generalizing m with
  | nil => exact h
  | cons c cs ih => exact ih _ (followCoin_follows_mono m u v c.Symbol s h)

theorem followAll_follows (u : UUID) (coins : List Coin) (m : Manager) :
    ∀ coin ∈ coins,
      follows (coins.foldl (fun m coin => m.followCoin u coin.Symbol) m) coin.Symbol u = true := by
  induction coins generalizing m with
  | nil => intro coin h; cases h
  | cons c cs ih =>
    intro coin hmem
    rcases List.mem_cons.1 hmem with h | h
    · subst h
      exact followAll_follows_mono u u coin.Symbol cs _ (followCoin_follows_self m u coin.Symbol)
    · exact ih (m.followCoin u c.Symbol) coin h

/-! ### registerClient -/

/-- The memory and the registry after `registerClient`, when the identity is registered. -/
theorem registerClient_registered (m : Manager) (c old : ClientPtr)
    (hreg : GoMap.lookup (m.heap c).UserID m.clients = some old) :
    (m.registerClient c).heap
      = Function.update
          (Function.update m.heap old
            { m.heap old with Send := (m.heap old).Send.close, Conn := { closed := true } })
          c
          { (Function.update m.heap old
              { m.heap old with Send := (m.heap old).Send.close, Conn := { closed := true } }) c
            with Prices := [] }
    ∧ (m.registerClient c).clients = GoMap.insert (m.heap c).UserID c m.clients := by
  unfold registerClient
  simp only [hreg]
  exact followAll_heap _ _ _

/-- The portfolio that `registerClient` subscribes to is the one of the client. -/
theorem registerClient_eq_followAll (m : Manager) (c : ClientPtr) :
    ∃ m2 : Manager, m.registerClient c
      = (m.heap c).Profile.Coins.foldl
          (fun acc coin => acc.followCoin (m.heap c).UserID coin.Symbol) m2 := by
  cases hreg : GoMap.lookup (m.heap c).UserID m.clients with
  | none =>
    unfold registerClient
    simp only [hreg, Function.update_same]
    exact ⟨_, rfl⟩
  | some old =>
    unfold registerClient
    simp only [hreg, Function.update_same]
    by_cases h : c = old
    · subst h
      simp only [Function.update_same]
      exact ⟨_, rfl⟩
    · simp only [Function.update_noteq h]
      exact ⟨_, rfl⟩

/-- The method `registerClient` changes the `UserID` of no record. -/
theorem registerClient_UserID (m : Manager) (c p : ClientPtr) :
    ((m.registerClient c).heap p).UserID = (m.heap p).UserID := by
  cases hreg : GoMap.lookup (m.heap c).UserID m.clients with
  | none =>
    have e : (m.registerClient c).heap
        = Function.update m.heap c { m.heap c with Prices := [] } := by
      unfold registerClient
      simp only [hreg]
      exact (followAll_heap _ _ _).1
    rw [e]
    by_cases h : p = c
    · subst h; simp
    · simp [Function.update_noteq h]
  | some old =>
    rw [(registerClient_registered m c old hreg).1]
    by_cases h : p = c
    · subst h
      by_cases h2 : p = old
      · subst h2; simp
      · simp [Function.update_noteq h2]
    · by_cases h2 : p = old
      · subst h2; simp [Function.update_noteq h]
      · simp [Function.update_noteq h, Function.update_noteq h2]

theorem registerClient_clients (m : Manager) (c : ClientPtr) :
    (m.registerClient c).clients = GoMap.insert (m.heap c).UserID c m.clients := by
  cases hreg : GoMap.lookup (m.heap c).UserID m.clients with
  | none =>
    unfold registerClient
    simp only [hreg]
    exact (followAll_heap _ _ _).2
  | some old => exact (registerClient_registered m c old hreg).2

/-- A registry keyed by identity stays so under `registerClient`. -/
theorem Keyed_registerClient (m : Manager) (c : ClientPtr) (h : Keyed m) :
    Keyed (m.registerClient c) := by
  intro e he
  rw [registerClient_clients] at he
  rw [registerClient_UserID]
  rcases GoMap.mem_insert _ _ _ _ he with h1 | h1
  · rw [h1]
  · exact h e h1

/-! ### C8 -/

/-- C8: when the identity of `c2` is registered with the client `c1`, `registerClient(c2)`
closes the `Send` queue and the connection of `c1`, installs `c2` under the identity with an
empty price cache and, the registry being keyed by identity, leaves every other identity
with its client and that client's record as they were. -/
theorem C8_registerClient_supersedes (m : Manager) (c1 c2 : ClientPtr)
    (hreg : GoMap.lookup (m.heap c2).UserID m.clients = some c1)
    (hkey : Keyed m) :
    ((m.registerClient c2).heap c1).Send.closed = true
    ∧ ((m.registerClient c2).heap c1).Conn.closed = true
    ∧ GoMap.lookup (m.heap c2).UserID (m.registerClient c2).clients = some c2
    ∧ ((m.registerClient c2).heap c2).Prices = []
    ∧ ∀ J p, J ≠ (m.heap c2).UserID → GoMap.lookup J m.clients = some p →
        GoMap.lookup J (m.registerClient c2).clients = some p
        ∧ (m.registerClient c2).heap p = m.heap p := by
  obtain ⟨hh, hc⟩ := registerClient_registered m c2 c1 hreg
  rw [hh, hc]
  have h1 : (m.heap c1).UserID = (m.heap c2).UserID :=
    hkey _ (GoMap.mem_of_lookup _ _ _ hreg)
  refine ⟨?_, ?_, GoMap.lookup_insert_self _ _ _, by simp, ?_⟩
  · by_cases h : c1 = c2
    · subst h
      simp [Chan.close]
    · simp [Function.update_noteq h, Chan.close]
  · by_cases h : c1 = c2
    · subst h
      simp
    · simp [Function.update_noteq h]
  · intro J p hJ hp
    have h2 : (m.heap p).UserID = J := hkey _ (GoMap.mem_of_lookup _ _ _ hp)
    have hp1 : p ≠ c1 := fun h => hJ (by rw [← h2, h, h1])
    have hp2 : p ≠ c2 := fun h => hJ (by rw [← h2, h])
    refine ⟨?_, ?_⟩
    · rw [GoMap.lookup_insert_of_ne _ _ hJ]
      exact hp
    · rw [Function.update_noteq hp2, Function.update_noteq hp1]

/-- C8 on the sample manager: the second connection of "alice" (pointer 2) supersedes the
first (pointer 0), and "bob" keeps his client. -/
theorem C8_registerClient_supersedes_witness :
    ((sampleManager.registerClient 2).heap 0).Send.closed = true
    ∧ ((sampleManager.registerClient 2).heap 0).Conn.closed = true
    ∧ GoMap.lookup "alice" (sampleManager.registerClient 2).clients = some 2
    ∧ ((sampleManager.registerClient 2).heap 2).Prices = []
    ∧ GoMap.lookup "bob" (sampleManager.registerClient 2).clients = some 1
    ∧ (sampleManager.registerClient 2).heap 1 = sampleManager.heap 1 :=
  have h := C8_registerClient_supersedes sampleManager 0 2 (by decide) (by decide)
  ⟨h.1, h.2.1, h.2.2.1, h.2.2.2.1, (h.2.2.2.2 "bob" 1 (by decide) (by decide)).1,
    (h.2.2.2.2 "bob" 1 (by decide) (by decide)).2⟩

/-! ### C10 -/

/-- C10: after `registerClient(c)` the identity of `c` is in the follower set of the symbol
of every coin of the portfolio of `c`. -/
theorem C10_registerClient_follows_portfolio (m : Manager) (c : ClientPtr) :
    ∀ coin ∈ (m.heap c).Profile.Coins,
      follows (m.registerClient c) coin.Symbol (m.heap c).UserID = true := by
  obtain ⟨m2, h⟩ := registerClient_eq_followAll m c
  rw [h]
  exact followAll_follows _ _ _

/-- C10 on the sample manager: the new connection of "alice" follows "ETH". -/
theorem C10_registerClient_follows_portfolio_witness :
    follows (sampleManager.registerClient 2) "ETH" "alice" = true :=
  C10_registerClient_follows_portfolio sampleManager 2 { Symbol := "ETH", Quantity := 5 }
    (by decide)

/-! ### unfollowAllCoins -/

theorem unfollowed_idem (u : UUID) (x : Option (GoMap UUID Bool)) :
    unfollowed u (unfollowed u x) = unfollowed u x := by
  cases x with
  | none => rfl
  | some users =>
    by_cases hc : GoMap.contains users u = true
    · by_cases hl : (GoMap.erase u users).length = 0
      · simp [unfollowed, hc, hl]
      · have hne : GoMap.contains (GoMap.erase u users) u = false := by
          cases h : GoMap.contains (GoMap.erase u users) u with
          | false => rfl
          | true => exact absurd rfl ((GoMap.contains_erase users u u).1 h).1
        simp [unfollowed, hc, hl, hne]
    · by_cases hl : users.length = 0
      · simp [unfollowed, hc, hl]
      · simp [unfollowed, hc, hl]

theorem emptied_unfollowed (u : UUID) (x : Option (GoMap UUID Bool)) :
    emptied u (unfollowed u x) = false := by
  unfold emptied
  rw [unfollowed_idem]
  cases unfollowed u x <;> rfl

/-- What one round of the loop of `unfollowAllCoins` does to the maps. -/
theorem unfollowCoin_maps (u : UUID) (m : Manager) (t : String) :
    (unfollowCoin u m t).clients = m.clients
    ∧ (unfollowCoin u m t).heap = m.heap
    ∧ GoMap.lookup t (unfollowCoin u m t).coinSubscribers
        = unfollowed u (GoMap.lookup t m.coinSubscribers)
    ∧ GoMap.lookup t (unfollowCoin u m t).activeRedisSub
        = (if emptied u (GoMap.lookup t m.coinSubscribers) then none
           else GoMap.lookup t m.activeRedisSub)
    ∧ ∀ s, s ≠ t →
        GoMap.lookup s (unfollowCoin u m t).coinSubscribers = GoMap.lookup s m.coinSubscribers
        ∧ GoMap.lookup s (unfollowCoin u m t).activeRedisSub
            = GoMap.lookup s m.activeRedisSub := by
  cases hl : GoMap.lookup t m.coinSubscribers with
  | none =>
    have e : unfollowCoin u m t = m := by simp [unfollowCoin, hl]
    rw [e]
    exact ⟨rfl, rfl, by rw [hl]; rfl, by simp [emptied], fun s _ => ⟨rfl, rfl⟩⟩
  | some users =>
    by_cases hlen :
        (if GoMap.contains users u then GoMap.erase u users else users).length = 0
    · have e : unfollowCoin u m t =
          { m with
              notified := m.notified ++ [{ userID := u, symbol := t, method := .DELETE }],
              coinSubscribers := GoMap.erase t (GoMap.insert t
                (if GoMap.contains users u then GoMap.erase u users else users)
                m.coinSubscribers),
              activeRedisSub := GoMap.erase t m.activeRedisSub,
              subscriber := (m.subscriber.Unsubscribe t).2 } := by
        simp only [unfollowCoin, hl]
        rw [if_pos hlen]
      rw [e]
      refine ⟨rfl, rfl, ?_, ?_, ?_⟩
      · simp only [GoMap.lookup_erase_self, unfollowed]
        rw [if_pos hlen]
      · simp only [GoMap.lookup_erase_self, emptied, unfollowed]
        simp [hlen]
      · intro s hs
        exact ⟨by simp only [GoMap.lookup_erase_of_ne _ hs, GoMap.lookup_insert_of_ne _ _ hs],
          by simp only [GoMap.lookup_erase_of_ne _ hs]⟩
    · have e : unfollowCoin u m t =
          { m with
              coinSubscribers := GoMap.insert t
                (if GoMap.contains users u then GoMap.erase u users else users)
                m.coinSubscribers } := by
        simp only [unfollowCoin, hl]
        rw [if_neg hlen]
      rw [e]
      refine ⟨rfl, rfl, ?_, ?_, ?_⟩
      · simp only [GoMap.lookup_insert_self, unfollowed]
        rw [if_neg hlen]
      · simp only [emptied, unfollowed]
        simp [hlen]
      · intro s hs
        exact ⟨by simp only [GoMap.lookup_insert_of_ne _ _ hs], rfl⟩

/-- The maps after the loop of `unfollowAllCoins` over the symbols `order`. -/
theorem unfollowAllCoins_maps (u : UUID) (order : List String) (m : Manager) :
    (unfollowAllCoins m u order).clients = m.clients
    ∧ (unfollowAllCoins m u order).heap = m.heap
    ∧ ∀ s,
        GoMap.lookup s (unfollowAllCoins m u order).coinSubscribers
          = (if s ∈ order then unfollowed u (GoMap.lookup s m.coinSubscribers)
             else GoMap.lookup s m.coinSubscribers)
        ∧ GoMap.lookup s (unfollowAllCoins m u order).activeRedisSub
          = (if s ∈ order ∧ emptied u (GoMap.lookup s m.coinSubscribers) = true then none
             else GoMap.lookup s m.activeRedisSub) := by
  induction order generalizing m with
  | nil => exact ⟨rfl, rfl, fun s => by simp [unfollowAllCoins]⟩
  | cons t rest ih =>
    obtain ⟨i1, i2, i3⟩ := ih (unfollowCoin u m t)
    obtain ⟨s1, s2, s3, s4, s5⟩ := unfollowCoin_maps u m t
    have e : unfollowAllCoins m u (t :: rest) = unfollowAllCoins (unfollowCoin u m t) u rest :=
      rfl
    rw [e]
    refine ⟨i1.trans s1, i2.trans s2, fun s => ?_⟩
    obtain ⟨j1, j2⟩ := i3 s
    rw [j1, j2]
    by_cases hs : s = t
    · subst hs
      rw [s3, s4, unfollowed_idem, emptied_unfollowed]
      by_cases hm : s ∈ rest
      · simp [hm]
      · simp [hm]
    · obtain ⟨k1, k2⟩ := s5 s hs
      rw [k1, k2]
      simp [hs]

/-- A registry keyed by identity stays so under `unregisterClient`. -/
theorem Keyed_unregisterClient (m : Manager) (c : ClientPtr) (order : List String)
    (h : Keyed m) : Keyed (m.unregisterClient c order) := by
  by_cases hreg : GoMap.contains m.clients (m.heap c).UserID = true
  · have e : m.unregisterClient c order
        = unfollowAllCoins { m with clients := GoMap.erase (m.heap c).UserID m.clients }
            (m.heap c).UserID order := by
      simp [unregisterClient, hreg]
    obtain ⟨h1, h2, _⟩ := unfollowAllCoins_maps (m.heap c).UserID order
      { m with clients := GoMap.erase (m.heap c).UserID m.clients }
    intro x hx
    rw [e, h1] at hx
    rw [e, h2]
    exact h x (GoMap.mem_of_mem_erase _ _ _ hx)
  · have e : m.unregisterClient c order = m := by simp [unregisterClient, hreg]
    rw [e]
    exact h

/-! ### C9 -/

/-- C9: `unregisterClient(c)`, its `range` visiting the keys of `coinSubscribers` in the
order `order`. When the identity of `c` is registered, afterwards it is absent from
`clients` and from every follower set, every symbol of which it was the only follower has
no entry in `coinSubscribers` and in `activeRedisSub`, and every other identity follows
the symbols it followed before. When the identity is not registered, the state is as
before. -/
theorem C9_unregisterClient (m : Manager) (c : ClientPtr) (order : List String)
    (hord : order.Perm (GoMap.keys m.coinSubscribers)) :
    (GoMap.contains m.clients (m.heap c).UserID = true →
      GoMap.lookup (m.heap c).UserID (m.unregisterClient c order).clients = none
      ∧ (∀ s, follows (m.unregisterClient c order) s (m.heap c).UserID = false)
      ∧ (∀ s users, GoMap.lookup s m.coinSubscribers = some users →
          GoMap.contains users (m.heap c).UserID = true →
          (∀ v ∈ GoMap.keys users, v = (m.heap c).UserID) →
          GoMap.lookup s (m.unregisterClient c order).coinSubscribers = none
          ∧ GoMap.lookup s (m.unregisterClient c order).activeRedisSub = none)
      ∧ (∀ s v, v ≠ (m.heap c).UserID →
          follows (m.unregisterClient c order) s v = follows m s v))
    ∧ (GoMap.contains m.clients (m.heap c).UserID = false → m.unregisterClient c order = m) := by
  constructor
  · intro hreg
    have e : m.unregisterClient c order
        = unfollowAllCoins { m with clients := GoMap.erase (m.heap c).UserID m.clients }
            (m.heap c).UserID order := by
      simp [unregisterClient, hreg]
    obtain ⟨h1, _, h3⟩ := unfollowAllCoins_maps (m.heap c).UserID order
      { m with clients := GoMap.erase (m.heap c).UserID m.clients }
    rw [e]
    have hcover : ∀ s users, GoMap.lookup s m.coinSubscribers = some users → s ∈ order := by
      intro s users hs
      rw [hord.mem_iff, ← GoMap.contains_iff_mem_keys]
      simp [GoMap.contains, hs]
    have hlook : ∀ s, GoMap.lookup s (unfollowAllCoins
        { m with clients := GoMap.erase (m.heap c).UserID m.clients }
        (m.heap c).UserID order).coinSubscribers
        = unfollowed (m.heap c).UserID (GoMap.lookup s m.coinSubscribers) := by
      intro s
      rw [(h3 s).1]
      cases hs : GoMap.lookup s m.coinSubscribers with
      | none => simp [unfollowed]
      | some users => simp [hcover s users hs]
    refine ⟨?_, ?_, ?_, ?_⟩
    · rw [h1]
      exact GoMap.lookup_erase_self _ _
    · intro s
      unfold follows
      rw [hlook s]
      cases hs : GoMap.lookup s m.coinSubscribers with
      | none => simp [unfollowed]
      | some users =>
        by_cases hc : GoMap.contains users (m.heap c).UserID = true
        · have hne : GoMap.contains (GoMap.erase (m.heap c).UserID users) (m.heap c).UserID
              = false := by
            cases h : GoMap.contains (GoMap.erase (m.heap c).UserID users) (m.heap c).UserID with
            | false => rfl
            | true => exact absurd rfl ((GoMap.contains_erase users _ _).1 h).1
          by_cases hl : (GoMap.erase (m.heap c).UserID users).length = 0
          · simp [unfollowed, hc, hl]
          · simp [unfollowed, hc, hl, hne]
        · by_cases hl : users.length = 0
          · simp [unfollowed, hc, hl]
          · simp [unfollowed, hc, hl]
    · intro s users hs hc hall
      have hl : (GoMap.erase (m.heap c).UserID users).length = 0 := by
        rw [GoMap.length_eq_zero_iff]
        intro v
        cases h : GoMap.contains (GoMap.erase (m.heap c).UserID users) v with
        | false => rfl
        | true =>
          obtain ⟨k1, k2⟩ := (GoMap.contains_erase users _ v).1 h
          exact absurd (hall v ((GoMap.contains_iff_mem_keys users v).1 k2)) k1
      refine ⟨?_, ?_⟩
      · rw [hlook s, hs]
        simp [unfollowed, hc, hl]
      · rw [(h3 s).2]
        have hem : emptied (m.heap c).UserID (GoMap.lookup s m.coinSubscribers) = true := by
          rw [hs]
          simp [emptied, unfollowed, hc, hl]
        simp [hcover s users hs, hem]
    · intro s v hv
      unfold follows
      rw [hlook s]
      cases hs : GoMap.lookup s m.coinSubscribers with
      | none => simp [unfollowed]
      | some users =>
        have hsame : GoMap.contains
            (if GoMap.contains users (m.heap c).UserID then GoMap.erase (m.heap c).UserID users
             else users) v = GoMap.contains users v := by
          by_cases hc : GoMap.contains users (m.heap c).UserID = true
          · rw [if_pos hc]
            cases h : GoMap.contains users v with
            | false =>
              cases h' : GoMap.contains (GoMap.erase (m.heap c).UserID users) v with
              | false => rfl
              | true =>
                have := ((GoMap.contains_erase users _ v).1 h').2
                rw [h] at this
                exact Bool.noConfusion this
            | true => exact (GoMap.contains_erase users _ v).2 ⟨hv, h⟩
          · rw [if_neg hc]
        by_cases hl : (if GoMap.contains users (m.heap c).UserID
            then GoMap.erase (m.heap c).UserID users else users).length = 0
        · have hnone := (GoMap.length_eq_zero_iff _).1 hl v
          rw [hsame] at hnone
          simp only [unfollowed]
          rw [if_pos hl, hnone]
        · simp only [unfollowed]
          rw [if_neg hl]
          exact hsame
  · intro hreg
    simp [unregisterClient, hreg]

/-- C9 on the sample manager: "alice" disconnects, "ETH" loses its last follower and "bob"
still follows "BTC"; on a manager where "alice" is not registered, nothing changes. -/
theorem C9_unregisterClient_witness :
    (GoMap.lookup "alice" (sampleManager.unregisterClient 0 ["ETH", "BTC"]).clients = none
      ∧ follows (sampleManager.unregisterClient 0 ["ETH", "BTC"]) "BTC" "alice" = false
      ∧ GoMap.lookup "ETH" (sampleManager.unregisterClient 0 ["ETH", "BTC"]).coinSubscribers
          = none
      ∧ GoMap.lookup "ETH" (sampleManager.unregisterClient 0 ["ETH", "BTC"]).activeRedisSub
          = none
      ∧ follows (sampleManager.unregisterClient 0 ["ETH", "BTC"]) "BTC" "bob"
          = follows sampleManager "BTC" "bob")
    ∧ unregisterClient { sampleManager with clients := [("bob", 1)] } 0 ["ETH", "BTC"]
        = { sampleManager with clients := [("bob", 1)] } :=
  have h := (C9_unregisterClient sampleManager 0 ["ETH", "BTC"] (by decide)).1 (by decide)
  ⟨⟨h.1, h.2.1 "BTC",
     (h.2.2.1 "ETH" [("alice", true)] (by decide) (by decide) (by decide)).1,
     (h.2.2.1 "ETH" [("alice", true)] (by decide) (by decide) (by decide)).2,
     h.2.2.2 "BTC" "bob" (by decide)⟩,
   (C9_unregisterClient { sampleManager with clients := [("bob", 1)] } 0 ["ETH", "BTC"]
     (by decide)).2 (by decide)⟩

/-! ### processRedisMessage -/

theorem buildPortfolio_fold (prices : GoMap String Decimal) (coins : List Coin)
    (init : PortfolioView) :
    (coins.foldl
      (fun portfolio coin =>
        let currentPrice := (GoMap.lookup coin.Symbol prices).getD 0
        let total := coin.Quantity * currentPrice
        { portfolio with
            Coins := portfolio.Coins ++
              [{ Symbol := coin.Symbol, Quantity := coin.Quantity,
                 Price := currentPrice, Total := total }],
            TotalValue := portfolio.TotalValue + total })
      init)
    = { init with
          Coins := init.Coins ++ coins.map (coinView prices),
          TotalValue := init.TotalValue + ((coins.map (coinView prices)).map CoinView.Total).sum }
    := by
  induction coins generalizing init with
  | nil => simp
  | cons c cs ih =>
    rw [List.foldl_cons, ih]
    simp [coinView, add_assoc]

/-- The view that `processRedisMessage` builds for a client. -/
theorem buildPortfolio_eq (client : Client) :
    buildPortfolio client
      = { UserID := client.UserID, UserName := client.Profile.Name,
          TotalValue :=
            ((client.Profile.Coins.map (coinView client.Prices)).map CoinView.Total).sum,
          Coins := client.Profile.Coins.map (coinView client.Prices) } := by
  unfold buildPortfolio
  rw [buildPortfolio_fold]
  simp

theorem notifySubscriber_fields (pu : PriceUpdate) (m : Manager) (u : UUID) :
    (notifySubscriber pu m u).clients = m.clients
    ∧ (notifySubscriber pu m u).coinSubscribers = m.coinSubscribers
    ∧ ∀ p, (notifySubscriber pu m u).heap p
        = if GoMap.lookup u m.clients = some p then (pushUpdate pu (m.heap p)).1 else m.heap p
    := by
  cases h : GoMap.lookup u m.clients with
  | none =>
    have e : notifySubscriber pu m u = m := by simp [notifySubscriber, h]
    rw [e]
    exact ⟨rfl, rfl, fun p => by simp⟩
  | some q =>
    have e : notifySubscriber pu m u =
        { m with heap := Function.update m.heap q (pushUpdate pu (m.heap q)).1,
                 warnings := if (pushUpdate pu (m.heap q)).2 then m.warnings + 1
                             else m.warnings } := by
      simp [notifySubscriber, h]
    rw [e]
    refine ⟨rfl, rfl, fun p => ?_⟩
    by_cases hp : q = p
    · subst hp
      simp
    · have hp' : p ≠ q := fun h => hp h.symm
      simp [hp, Function.update_noteq hp']

/-- The record of a client after the loop of `processRedisMessage` over the subscribers
`order`: one `pushUpdate` for each subscriber whose registered client it is. -/
theorem notifyAll_heap (pu : PriceUpdate) (order : List UUID) (m : Manager) (p : ClientPtr) :
    (order.foldl (notifySubscriber pu) m).heap p
      = (fun c => (pushUpdate pu c).1)^[order.countP
            (fun u => decide (GoMap.lookup u m.clients = some p))] (m.heap p)
    ∧ (order.foldl (notifySubscriber pu) m).clients = m.clients
    ∧ (order.foldl (notifySubscriber pu) m).coinSubscribers = m.coinSubscribers := by
  induction order generalizing m with
  | nil => exact ⟨rfl, rfl, rfl⟩
  | cons u rest ih =>
    obtain ⟨s1, s2, s3⟩ := notifySubscriber_fields pu m u
    obtain ⟨i1, i2, i3⟩ := ih (notifySubscriber pu m u)
    rw [List.foldl_cons, i1, i2, i3, s1, s2, s3 p]
    refine ⟨?_, rfl, rfl⟩
    by_cases h : GoMap.lookup u m.clients = some p
    · rw [if_pos h, List.countP_cons_of_pos _ _ (by simpa using h),
        Function.iterate_succ_apply]
    · rw [if_neg h, List.countP_cons_of_neg _ _ (by simpa using h)]

/-- In a registry keyed by identity, a `range` that yields each follower once reaches the
client of a follower exactly once. -/
theorem countP_client_eq_one (m : Manager) (order : List UUID) (u : UUID) (p : ClientPtr)
    (hkey : Keyed m) (hnd : order.Nodup) (hu : u ∈ order)
    (hp : GoMap.lookup u m.clients = some p) :
    order.countP (fun u' => decide (GoMap.lookup u' m.clients = some p)) = 1 := by
  have hcongr : order.countP (fun u' => decide (GoMap.lookup u' m.clients = some p))
      = order.countP (fun u' => u' == u) := by
    apply List.countP_congr
    intro u' _
    have hup : (m.heap p).UserID = u := hkey _ (GoMap.mem_of_lookup _ _ _ hp)
    constructor
    · intro h
      have h' : GoMap.lookup u' m.clients = some p := by simpa using h
      have : (m.heap p).UserID = u' := hkey _ (GoMap.mem_of_lookup _ _ _ h')
      simp [← this, hup]
    · intro h
      have : u' = u := by simpa using h
      subst this
      simpa using hp
  rw [hcongr]
  exact List.count_eq_one_of_mem hnd hu

/-- The record of the client of a follower after `processRedisMessage`. -/
theorem processRedisMessage_heap (unmarshal : String → Option PriceUpdate) (m : Manager)
    (msg : Message) (order : List UUID) (pu : PriceUpdate) (users : GoMap UUID Bool)
    (u : UUID) (p : ClientPtr)
    (hmsg : unmarshal msg.Payload = some pu)
    (hS : GoMap.lookup pu.Symbol m.coinSubscribers = some users)
    (hord : order.Perm (GoMap.keys users)) (hwf : GoMap.WF users) (hkey : Keyed m)
    (hu : GoMap.contains users u = true) (hp : GoMap.lookup u m.clients = some p) :
    (processRedisMessage unmarshal m msg order).heap p = (pushUpdate pu (m.heap p)).1 := by
  have hnd : order.Nodup := hord.nodup_iff.2 hwf
  have hmem : u ∈ order := hord.mem_iff.2 ((GoMap.contains_iff_mem_keys users u).1 hu)
  have e : processRedisMessage unmarshal m msg order
      = order.foldl (notifySubscriber pu) m := by
    simp [processRedisMessage, hmsg, hS]
  rw [e, (notifyAll_heap pu order m p).1, countP_client_eq_one m order u p hkey hnd hmem hp]
  rfl

/-- A registry keyed by identity stays so under `processRedisMessage`. -/
theorem Keyed_processRedisMessage (unmarshal : String → Option PriceUpdate) (m : Manager)
    (msg : Message) (order : List UUID) (h : Keyed m) :
    Keyed (processRedisMessage unmarshal m msg order) := by
  cases hmsg : unmarshal msg.Payload with
  | none =>
    have e : processRedisMessage unmarshal m msg order = m := by
      simp [processRedisMessage, hmsg]
    rw [e]; exact h
  | some pu =>
    cases hS : GoMap.lookup pu.Symbol m.coinSubscribers with
    | none =>
      have e : processRedisMessage unmarshal m msg order = m := by
        simp [processRedisMessage, hmsg, hS]
      rw [e]; exact h
    | some users =>
      have e : processRedisMessage unmarshal m msg order
          = order.foldl (notifySubscriber pu) m := by
        simp [processRedisMessage, hmsg, hS]
      rw [e]
      intro x hx
      rw [(notifyAll_heap pu order m x.2).2.1] at hx
      rw [(notifyAll_heap pu order m x.2).1]
      have hiter : ∀ (n : Nat) (cl : Client),
          (((fun c => (pushUpdate pu c).1)^[n]) cl).UserID = cl.UserID := by
        intro n
        induction n with
        | zero => intro cl; rfl
        | succ k ih =>
          intro cl
          rw [Function.iterate_succ_apply, ih]
          rfl
      rw [hiter]
      exact h x hx

/-! ### C5 -/

/-- C5: for a follower `u` of the symbol of a price update, registered with the client `p`:
the view that `processRedisMessage` builds from the client's portfolio and its price cache
with the update recorded has one entry per coin of the portfolio, in portfolio order, with
the coin's symbol and quantity, the cached price (zero when the symbol has none) and
`total = quantity * price`; its `TotalValue` is the sum of the totals; the price cache of
the client afterwards is the old one with the update recorded; and when the queue of the
client has room, that view is what the call appends to it. -/
theorem C5_view_recomputed_in_full (unmarshal : String → Option PriceUpdate) (m : Manager)
    (msg : Message) (order : List UUID) (pu : PriceUpdate) (users : GoMap UUID Bool)
    (u : UUID) (p : ClientPtr)
    (hmsg : unmarshal msg.Payload = some pu)
    (hS : GoMap.lookup pu.Symbol m.coinSubscribers = some users)
    (hord : order.Perm (GoMap.keys users)) (hwf : GoMap.WF users) (hkey : Keyed m)
    (hu : GoMap.contains users u = true) (hp : GoMap.lookup u m.clients = some p) :
    (buildPortfolio
        { m.heap p with Prices := GoMap.insert pu.Symbol pu.Price (m.heap p).Prices }).Coins
      = (m.heap p).Profile.Coins.map (fun coin =>
          { Symbol := coin.Symbol, Quantity := coin.Quantity,
            Price := (GoMap.lookup coin.Symbol
              (GoMap.insert pu.Symbol pu.Price (m.heap p).Prices)).getD 0,
            Total := coin.Quantity * (GoMap.lookup coin.Symbol
              (GoMap.insert pu.Symbol pu.Price (m.heap p).Prices)).getD 0 })
    ∧ (buildPortfolio
        { m.heap p with Prices := GoMap.insert pu.Symbol pu.Price (m.heap p).Prices }).Coins.length
      = (m.heap p).Profile.Coins.length
    ∧ (buildPortfolio
        { m.heap p with Prices := GoMap.insert pu.Symbol pu.Price (m.heap p).Prices }).TotalValue
      = (((m.heap p).Profile.Coins.map (fun coin =>
          coin.Quantity * (GoMap.lookup coin.Symbol
            (GoMap.insert pu.Symbol pu.Price (m.heap p).Prices)).getD 0))).sum
    ∧ ((processRedisMessage unmarshal m msg order).heap p).Prices
      = GoMap.insert pu.Symbol pu.Price (m.heap p).Prices
    ∧ ((m.heap p).Send.buf.length < (m.heap p).Send.cap →
        ((processRedisMessage unmarshal m msg order).heap p).Send.buf
          = (m.heap p).Send.buf ++ [buildPortfolio
              { m.heap p with
                  Prices := GoMap.insert pu.Symbol pu.Price (m.heap p).Prices }]) := by
  rw [processRedisMessage_heap unmarshal m msg order pu users u p hmsg hS hord hwf hkey hu hp,
    buildPortfolio_eq]
  refine ⟨rfl, by simp, ?_, rfl, ?_⟩
  · simp only [List.map_map]
    rfl
  · intro hroom
    simp only [pushUpdate, Chan.trySend]
    rw [if_pos hroom, buildPortfolio_eq]

/-- C5 on the sample manager: "alice" holds 2 BTC and 5 ETH and an update of 100 for "BTC"
arrives; her view has the totals 200 and 0 and the total value 200. -/
theorem C5_view_recomputed_in_full_witness :
    ((processRedisMessage sampleUnmarshal sampleManager
        { Channel := "BTC", Payload := "\x7b\"s\":\"BTC\",\"p\":100\x7d" }
        ["bob", "alice"]).heap 0).Send.buf
      = [{ UserID := "alice", UserName := "Alice", TotalValue := 200,
           Coins := [{ Symbol := "BTC", Quantity := 2, Price := 100, Total := 200 },
                     { Symbol := "ETH", Quantity := 5, Price := 0, Total := 0 }] }] :=
  ((C5_view_recomputed_in_full sampleUnmarshal sampleManager
      { Channel := "BTC", Payload := "\x7b\"s\":\"BTC\",\"p\":100\x7d" }
      ["bob", "alice"] { Symbol := "BTC", Price := 100 } [("alice", true), ("bob", true)]
      "alice" 0 (by decide) (by decide) (by decide) (by decide) (by decide) (by decide)
      (by decide)).2.2.2.2 (by decide)).trans
    (by
      have h : ¬ "BTC" = "ETH" := by decide
      norm_num [buildPortfolio, sampleManager, sampleHeap, GoMap.lookup, GoMap.insert, h])

/-! ### C7 -/

/-- C7: for a follower `u` of the symbol of a price update, registered with the client `p`:
when the `Send` queue of the client is full, `processRedisMessage` leaves the queue as it
is; when it has room, the queue gets exactly one item more, the view of that client. This
holds for each follower whatever the queues of the others. -/
theorem C7_full_queue_drops_for_that_client_only (unmarshal : String → Option PriceUpdate)
    (m : Manager) (msg : Message) (order : List UUID) (pu : PriceUpdate)
    (users : GoMap UUID Bool) (u : UUID) (p : ClientPtr)
    (hmsg : unmarshal msg.Payload = some pu)
    (hS : GoMap.lookup pu.Symbol m.coinSubscribers = some users)
    (hord : order.Perm (GoMap.keys users)) (hwf : GoMap.WF users) (hkey : Keyed m)
    (hu : GoMap.contains users u = true) (hp : GoMap.lookup u m.clients = some p) :
    ((m.heap p).Send.cap ≤ (m.heap p).Send.buf.length →
        ((processRedisMessage unmarshal m msg order).heap p).Send = (m.heap p).Send)
    ∧ ((m.heap p).Send.buf.length < (m.heap p).Send.cap →
        ((processRedisMessage unmarshal m msg order).heap p).Send
          = { (m.heap p).Send with
                buf := (m.heap p).Send.buf ++ [buildPortfolio
                  { m.heap p with
                      Prices := GoMap.insert pu.Symbol pu.Price (m.heap p).Prices }] }) := by
  rw [processRedisMessage_heap unmarshal m msg order pu users u p hmsg hS hord hwf hkey hu hp]
  constructor
  · intro hfull
    simp only [pushUpdate, Chan.trySend]
    rw [if_neg (by omega)]
  · intro hroom
    simp only [pushUpdate, Chan.trySend]
    rw [if_pos hroom]

/-- C7 on the sample manager: the queue of "bob" is full and stays as it is, while "alice"
gets one view. -/
theorem C7_full_queue_drops_for_that_client_only_witness :
    ((processRedisMessage sampleUnmarshal sampleManager
        { Channel := "BTC", Payload := "\x7b\"s\":\"BTC\",\"p\":100\x7d" }
        ["bob", "alice"]).heap 1).Send = (sampleManager.heap 1).Send
    ∧ ((processRedisMessage sampleUnmarshal sampleManager
        { Channel := "BTC", Payload := "\x7b\"s\":\"BTC\",\"p\":100\x7d" }
        ["bob", "alice"]).heap 0).Send
      = { (sampleManager.heap 0).Send with
            buf := (sampleManager.heap 0).Send.buf ++ [buildPortfolio
              { sampleManager.heap 0 with
                  Prices := GoMap.insert "BTC" 100 (sampleManager.heap 0).Prices }] } :=
  ⟨(C7_full_queue_drops_for_that_client_only sampleUnmarshal sampleManager
      { Channel := "BTC", Payload := "\x7b\"s\":\"BTC\",\"p\":100\x7d" }
      ["bob", "alice"] { Symbol := "BTC", Price := 100 } [("alice", true), ("bob", true)]
      "bob" 1 (by decide) (by decide) (by decide) (by decide) (by decide) (by decide)
      (by decide)).1 (by decide),
   (C7_full_queue_drops_for_that_client_only sampleUnmarshal sampleManager
      { Channel := "BTC", Payload := "\x7b\"s\":\"BTC\",\"p\":100\x7d" }
      ["bob", "alice"] { Symbol := "BTC", Price := 100 } [("alice", true), ("bob", true)]
      "alice" 0 (by decide) (by decide) (by decide) (by decide) (by decide) (by decide)
      (by decide)).2 (by decide)⟩

/-! ### C20 -/

/-- C20 (fails on the code): the connection 0 of "alice" registers, her connection 2
registers and supersedes it (the connection of 0 is closed, `clients` holds 2, and "alice"
follows "BTC"); the `unregisterClient` of the superseded connection 0 then deletes the
record of "alice", which is the one of connection 2, and removes her from the follower
sets. -/
theorem C20_superseded_unregister_removes_successor :
    GoMap.lookup "alice" (calls (NewManager { subscriptions := [], receiveErrs := [] } sampleHeap)
        [.register 0, .register 2]).clients = some 2
    ∧ ((calls (NewManager { subscriptions := [], receiveErrs := [] } sampleHeap)
        [.register 0, .register 2]).heap 0).Conn.closed = true
    ∧ follows (calls (NewManager { subscriptions := [], receiveErrs := [] } sampleHeap)
        [.register 0, .register 2]) "BTC" "alice" = true
    ∧ GoMap.lookup "alice" (calls (NewManager { subscriptions := [], receiveErrs := [] } sampleHeap)
        [.register 0, .register 2, .unregister 0 ["BTC", "ETH"]]).clients = none
    ∧ follows (calls (NewManager { subscriptions := [], receiveErrs := [] } sampleHeap)
        [.register 0, .register 2, .unregister 0 ["BTC", "ETH"]]) "BTC" "alice" = false
    ∧ follows (calls (NewManager { subscriptions := [], receiveErrs := [] } sampleHeap)
        [.register 0, .register 2, .unregister 0 ["BTC", "ETH"]]) "ETH" "alice" = false := by
  decide

/-! ### C11 -/

/-- C11 (fails on the code): "alice" and then "bob" register with "btcusdt" in their
portfolios, "alice" and then "bob" unregister. The follower set of "btcusdt" in the Manager
is empty at the end; the notifications were a GET with the id of "alice" (the first
follower) and a DELETE with the id of "bob" (the last one); delivered in order to a new
StreamManager they leave "alice" in its follower set, invoke no cancel function and leave
the stream of "btcusdt" live. -/
theorem C11_stream_not_cancelled_after_last_unfollow :
    hasFollowers (calls (NewManager { subscriptions := [], receiveErrs := [] } lowerHeap)
        [.register 0, .register 1, .unregister 0 ["btcusdt"], .unregister 1 ["btcusdt"]])
        "btcusdt" = false
    ∧ (calls (NewManager { subscriptions := [], receiveErrs := [] } lowerHeap)
        [.register 0, .register 1, .unregister 0 ["btcusdt"], .unregister 1 ["btcusdt"]]).notified
      = [{ userID := "alice", symbol := "btcusdt", method := .GET },
         { userID := "bob", symbol := "btcusdt", method := .DELETE }]
    ∧ StreamManager.followed (deliverAll NewStreamManager
        (calls (NewManager { subscriptions := [], receiveErrs := [] } lowerHeap)
          [.register 0, .register 1, .unregister 0 ["btcusdt"],
           .unregister 1 ["btcusdt"]]).notified) "btcusdt" = true
    ∧ (deliverAll NewStreamManager
        (calls (NewManager { subscriptions := [], receiveErrs := [] } lowerHeap)
          [.register 0, .register 1, .unregister 0 ["btcusdt"],
           .unregister 1 ["btcusdt"]]).notified).cancelled = []
    ∧ StreamManager.live (deliverAll NewStreamManager
        (calls (NewManager { subscriptions := [], receiveErrs := [] } lowerHeap)
          [.register 0, .register 1, .unregister 0 ["btcusdt"],
           .unregister 1 ["btcusdt"]]).notified) "btcusdt" = true := by
  decide

/-! ### C12 -/

/-- C12 (as stated, fails): the first `Subscribe` call returns an error; after
`registerClient` for "alice", who holds "BTC" and "ETH", the follower set of "BTC" is
non-empty and "BTC" is not in `activeRedisSub`. -/
theorem C12_followed_without_subscription :
    hasFollowers (calls (NewManager { subscriptions := [], receiveErrs := [true] } sampleHeap)
        [.register 0]) "BTC" = true
    ∧ active (calls (NewManager { subscriptions := [], receiveErrs := [true] } sampleHeap)
        [.register 0]) "BTC" = false := by
  decide

theorem Subscribe_noError (sub : Subscriber) (symbol : String)
    (h : ∀ b ∈ sub.receiveErrs, b = false) :
    (sub.Subscribe symbol).1 = false
    ∧ ∀ b ∈ (sub.Subscribe symbol).2.receiveErrs, b = false := by
  obtain ⟨subs, errs⟩ := sub
  unfold Subscriber.Subscribe
  simp only [] at h ⊢
  split_ifs
  · exact ⟨rfl, h⟩
  · cases errs with
    | nil => exact ⟨rfl, fun b hb => (by cases hb)⟩
    | cons b rest =>
      have hb : b = false := h b (List.mem_cons_self _ _)
      subst hb
      exact ⟨rfl, fun b hb => h b (List.mem_cons_of_mem _ hb)⟩

/-- The subscriptions after `followCoin`. -/
theorem followCoin_activeRedisSub (m : Manager) (u : UUID) (s : String) :
    (m.followCoin u s).activeRedisSub
      = (if GoMap.contains m.activeRedisSub s then m.activeRedisSub
         else if (m.subscriber.Subscribe s).1 then m.activeRedisSub
         else GoMap.insert s () m.activeRedisSub)
    ∧ (m.followCoin u s).subscriber
      = (if GoMap.contains m.activeRedisSub s then m.subscriber
         else (m.subscriber.Subscribe s).2) := by
  unfold followCoin
  simp only []
  split_ifs <;> exact ⟨rfl, rfl⟩

theorem followCoin_hasFollowers (m : Manager) (u : UUID) (s s' : String) :
    hasFollowers (m.followCoin u s) s' = (if s' = s then true else hasFollowers m s') := by
  unfold hasFollowers
  rw [followCoin_coinSubscribers]
  by_cases hs : s' = s
  · subst hs
    rw [GoMap.lookup_insert_self, if_pos rfl]
    have hne : (GoMap.insert u true ((GoMap.lookup s' m.coinSubscribers).getD [])).length ≠ 0 := by
      intro h0
      have := (GoMap.length_eq_zero_iff _).1 h0 u
      rw [(GoMap.contains_insert _ u u true).2 (Or.inl rfl)] at this
      exact Bool.noConfusion this
    simp [hne]
  · rw [GoMap.lookup_insert_of_ne _ _ hs, if_neg hs]
    by_cases hc : GoMap.contains m.coinSubscribers s = true
    · simp [hc]
    · simp only [hc]
      rw [if_neg (by simp), GoMap.lookup_insert_of_ne _ _ hs]

/-- The two halves of the subscription invariant are kept by `followCoin`: a subscribed
symbol is followed, and, no `Subscribe` failing, a followed symbol is subscribed. -/
theorem followCoin_invariant (m : Manager) (u : UUID) (s : String) :
    ((∀ x, active m x = true → hasFollowers m x = true) →
      ∀ x, active (m.followCoin u s) x = true → hasFollowers (m.followCoin u s) x = true)
    ∧ (NoSubscribeError m → (∀ x, hasFollowers m x = true → active m x = true) →
        NoSubscribeError (m.followCoin u s)
        ∧ ∀ x, hasFollowers (m.followCoin u s) x = true → active (m.followCoin u s) x = true) := by
  obtain ⟨ha, hsub⟩ := followCoin_activeRedisSub m u s
  constructor
  · intro h1 x hx
    rw [followCoin_hasFollowers]
    by_cases hxs : x = s
    · simp [hxs]
    · rw [if_neg hxs]
      apply h1
      unfold active at hx ⊢
      rw [ha] at hx
      split_ifs at hx
      · exact hx
      · exact hx
      · rcases (GoMap.contains_insert _ s x ()).1 hx with h | h
        · exact absurd h hxs
        · exact h
  · intro hno h2
    by_cases hc : GoMap.contains m.activeRedisSub s = true
    · refine ⟨?_, ?_⟩
      · unfold NoSubscribeError
        rw [hsub, if_pos hc]
        exact hno
      · intro x hx
        unfold active
        rw [ha, if_pos hc]
        rw [followCoin_hasFollowers] at hx
        by_cases hxs : x = s
        · rw [hxs]; exact hc
        · rw [if_neg hxs] at hx
          exact h2 x hx
    · obtain ⟨e1, e2⟩ := Subscribe_noError m.subscriber s hno
      refine ⟨?_, ?_⟩
      · unfold NoSubscribeError
        rw [hsub, if_neg hc]
        exact e2
      · intro x hx
        unfold active
        rw [ha, if_neg hc, e1]
        simp only [Bool.false_eq_true, if_false]
        rw [GoMap.contains_insert]
        rw [followCoin_hasFollowers] at hx
        by_cases hxs : x = s
        · exact Or.inl hxs
        · rw [if_neg hxs] at hx
          exact Or.inr (h2 x hx)

theorem followAll_invariant (u : UUID) (coins : List Coin) (m : Manager) :
    ((∀ x, active m x = true → hasFollowers m x = true) →
      ∀ x, active (coins.foldl (fun acc coin => acc.followCoin u coin.Symbol) m) x = true →
        hasFollowers (coins.foldl (fun acc coin => acc.followCoin u coin.Symbol) m) x = true)
    ∧ (NoSubscribeError m → (∀ x, hasFollowers m x = true → active m x = true) →
        NoSubscribeError (coins.foldl (fun acc coin => acc.followCoin u coin.Symbol) m)
        ∧ ∀ x, hasFollowers (coins.foldl (fun acc coin => acc.followCoin u coin.Symbol) m) x
            = true →
          active (coins.foldl (fun acc coin => acc.followCoin u coin.Symbol) m) x = true) := by
  induction coins generalizing m with
  | nil => exact ⟨fun h => h, fun hno h => ⟨hno, h⟩⟩
  | cons c cs ih =>
    obtain ⟨f1, f2⟩ := followCoin_invariant m u c.Symbol
    obtain ⟨i1, i2⟩ := ih (m.followCoin u c.Symbol)
    refine ⟨fun h => i1 (f1 h), fun hno h => ?_⟩
    obtain ⟨g1, g2⟩ := f2 hno h
    exact i2 g1 g2

theorem unfollowed_some (u : UUID) (e : Option (GoMap UUID Bool)) (users1 : GoMap UUID Bool)
    (h : unfollowed u e = some users1) :
    users1.length ≠ 0 ∧ emptied u e = false ∧ ∃ users, e = some users ∧ users.length ≠ 0 := by
  cases e with
  | none => simp [unfollowed] at h
  | some users =>
    have hem : emptied u (some users) = false := by simp [emptied, h]
    by_cases hc : GoMap.contains users u = true
    · by_cases hlen : (GoMap.erase u users).length = 0
      · simp [unfollowed, hc, hlen] at h
      · simp [unfollowed, hc, hlen] at h
        subst h
        refine ⟨hlen, hem, users, rfl, ?_⟩
        intro h0
        apply hlen
        have hnil : users = [] := List.length_eq_zero.1 h0
        rw [hnil]
        rfl
    · by_cases hlen : users.length = 0
      · simp [unfollowed, hc, hlen] at h
      · simp [unfollowed, hc, hlen] at h
        subst h
        exact ⟨hlen, hem, users, rfl, hlen⟩

theorem unfollowed_of_not_emptied (u : UUID) (users : GoMap UUID Bool)
    (h : emptied u (some users) = false) :
    ∃ users1, unfollowed u (some users) = some users1 ∧ users1.length ≠ 0 := by
  cases hu : unfollowed u (some users) with
  | none => simp [emptied, hu] at h
  | some users1 => exact ⟨users1, rfl, (unfollowed_some u _ users1 hu).1⟩

theorem Unsubscribe_receiveErrs (sub : Subscriber) (t : String) :
    (sub.Unsubscribe t).2.receiveErrs = sub.receiveErrs := by
  unfold Subscriber.Unsubscribe
  split_ifs <;> rfl

theorem unfollowCoin_receiveErrs (u : UUID) (m : Manager) (t : String) :
    (unfollowCoin u m t).subscriber.receiveErrs = m.subscriber.receiveErrs := by
  unfold unfollowCoin
  cases GoMap.lookup t m.coinSubscribers with
  | none => rfl
  | some users =>
    simp only []
    split_ifs <;> first | rfl | exact Unsubscribe_receiveErrs _ _

theorem unfollowAllCoins_receiveErrs (u : UUID) (order : List String) (m : Manager) :
    (unfollowAllCoins m u order).subscriber.receiveErrs = m.subscriber.receiveErrs := by
  induction order generalizing m with
  | nil => rfl
  | cons t rest ih =>
    have e : unfollowAllCoins m u (t :: rest) = unfollowAllCoins (unfollowCoin u m t) u rest :=
      rfl
    rw [e, ih, unfollowCoin_receiveErrs]

/-- The two halves of the subscription invariant are kept by `unfollowAllCoins`. -/
theorem unfollowAllCoins_invariant (u : UUID) (order : List String) (m : Manager) :
    ((∀ x, active m x = true → hasFollowers m x = true) →
      ∀ x, active (unfollowAllCoins m u order) x = true →
        hasFollowers (unfollowAllCoins m u order) x = true)
    ∧ ((∀ x, hasFollowers m x = true → active m x = true) →
      ∀ x, hasFollowers (unfollowAllCoins m u order) x = true →
        active (unfollowAllCoins m u order) x = true) := by
  obtain ⟨_, _, hmaps⟩ := unfollowAllCoins_maps u order m
  constructor
  · intro h1 x hx
    obtain ⟨hcs, hact⟩ := hmaps x
    unfold active GoMap.contains at hx
    unfold hasFollowers
    rw [hact] at hx
    rw [hcs]
    by_cases hcond : x ∈ order ∧ emptied u (GoMap.lookup x m.coinSubscribers) = true
    · rw [if_pos hcond] at hx
      exact Bool.noConfusion hx
    · rw [if_neg hcond] at hx
      have hfol := h1 x hx
      unfold hasFollowers at hfol
      by_cases hmem : x ∈ order
      · rw [if_pos hmem]
        cases hl : GoMap.lookup x m.coinSubscribers with
        | none => rw [hl] at hfol; exact Bool.noConfusion hfol
        | some users =>
          have hem : emptied u (some users) = false := by
            cases he : emptied u (some users) with
            | false => rfl
            | true => exact absurd ⟨hmem, by rw [hl]; exact he⟩ hcond
          obtain ⟨users1, e1, e2⟩ := unfollowed_of_not_emptied u users hem
          rw [e1]
          simp [e2]
      · rw [if_neg hmem]
        exact hfol
  · intro h2 x hx
    obtain ⟨hcs, hact⟩ := hmaps x
    unfold hasFollowers at hx
    unfold active GoMap.contains
    rw [hcs] at hx
    rw [hact]
    by_cases hmem : x ∈ order
    · rw [if_pos hmem] at hx
      cases hu : unfollowed u (GoMap.lookup x m.coinSubscribers) with
      | none => rw [hu] at hx; exact Bool.noConfusion hx
      | some users1 =>
        obtain ⟨_, hem, users, e1, e2⟩ := unfollowed_some u _ users1 hu
        have hfol : hasFollowers m x = true := by
          unfold hasFollowers
          rw [e1]
          simp [e2]
        have hact0 := h2 x hfol
        rw [if_neg (by rw [hem]; simp)]
        exact hact0
    · rw [if_neg hmem] at hx
      rw [if_neg (fun h => hmem h.1)]
      exact h2 x hx

/-- The method `registerClient` is a sequence of `followCoin` calls from a state with the
maps and the subscriber of the state before. -/
theorem registerClient_fold (m : Manager) (c : ClientPtr) :
    ∃ (coins : List Coin) (m2 : Manager),
      m.registerClient c
        = coins.foldl (fun acc coin => acc.followCoin (m.heap c).UserID coin.Symbol) m2
      ∧ m2.coinSubscribers = m.coinSubscribers
      ∧ m2.activeRedisSub = m.activeRedisSub
      ∧ m2.subscriber = m.subscriber := by
  cases hreg : GoMap.lookup (m.heap c).UserID m.clients with
  | none =>
    unfold registerClient
    simp only [hreg]
    exact ⟨_, _, rfl, rfl, rfl, rfl⟩
  | some old =>
    unfold registerClient
    simp only [hreg]
    exact ⟨_, _, rfl, rfl, rfl, rfl⟩

/-- The two halves of the subscription invariant are kept by every call. -/
theorem call_invariant (m : Manager) (cl : Call) :
    ((∀ x, active m x = true → hasFollowers m x = true) →
      ∀ x, active (call m cl) x = true → hasFollowers (call m cl) x = true)
    ∧ (NoSubscribeError m → (∀ x, hasFollowers m x = true → active m x = true) →
        NoSubscribeError (call m cl)
        ∧ ∀ x, hasFollowers (call m cl) x = true → active (call m cl) x = true) := by
  cases cl with
  | register c =>
    obtain ⟨coins, m2, e, e1, e2, e3⟩ := registerClient_fold m c
    obtain ⟨f1, f2⟩ := followAll_invariant (m.heap c).UserID coins m2
    have ha : ∀ x, active m2 x = active m x := fun x => by unfold active; rw [e2]
    have hf : ∀ x, hasFollowers m2 x = hasFollowers m x := fun x => by
      unfold hasFollowers; rw [e1]
    rw [show call m (Call.register c) = m.registerClient c from rfl, e]
    refine ⟨fun h => f1 (fun x hx => ?_), fun hno h => f2 ?_ (fun x hx => ?_)⟩
    · rw [hf]; exact h x (by rw [← ha]; exact hx)
    · unfold NoSubscribeError; rw [e3]; exact hno
    · rw [ha]; exact h x (by rw [← hf]; exact hx)
  | unregister c order =>
    rw [show call m (Call.unregister c order) = m.unregisterClient c order from rfl]
    by_cases hreg : GoMap.contains m.clients (m.heap c).UserID = true
    · have e : m.unregisterClient c order
          = unfollowAllCoins { m with clients := GoMap.erase (m.heap c).UserID m.clients }
              (m.heap c).UserID order := by
        simp [unregisterClient, hreg]
      rw [e]
      obtain ⟨u1, u2⟩ := unfollowAllCoins_invariant (m.heap c).UserID order
        { m with clients := GoMap.erase (m.heap c).UserID m.clients }
      refine ⟨fun h => u1 h, fun hno h => ⟨?_, u2 h⟩⟩
      unfold NoSubscribeError
      rw [unfollowAllCoins_receiveErrs]
      exact hno
    · have e : m.unregisterClient c order = m := by simp [unregisterClient, hreg]
      rw [e]
      exact ⟨fun h => h, fun hno h => ⟨hno, h⟩⟩

theorem calls_invariant (cs : List Call) (m : Manager) :
    ((∀ x, active m x = true → hasFollowers m x = true) →
      ∀ x, active (calls m cs) x = true → hasFollowers (calls m cs) x = true)
    ∧ (NoSubscribeError m → (∀ x, hasFollowers m x = true → active m x = true) →
        NoSubscribeError (calls m cs)
        ∧ ∀ x, hasFollowers (calls m cs) x = true → active (calls m cs) x = true) := by
  induction cs generalizing m with
  | nil => exact ⟨fun h => h, fun hno h => ⟨hno, h⟩⟩
  | cons cl rest ih =>
    obtain ⟨c1, c2⟩ := call_invariant m cl
    obtain ⟨i1, i2⟩ := ih (call m cl)
    have e : calls m (cl :: rest) = calls (call m cl) rest := rfl
    rw [e]
    refine ⟨fun h => i1 (c1 h), fun hno h => ?_⟩
    obtain ⟨g1, g2⟩ := c2 hno h
    exact i2 g1 g2

/-- C12 (amended): after every sequence of `registerClient` and `unregisterClient` calls on
a new Manager, a symbol that is in `activeRedisSub` has a non-empty follower set; and when
no `Subscribe` call returns an error, a symbol with a non-empty follower set is in
`activeRedisSub`. -/
theorem C12_active_iff_followed_unless_subscribe_fails (subscriber : Subscriber)
    (heap : ClientPtr → Client) (cs : List Call) (symbol : String) :
    (active (calls (NewManager subscriber heap) cs) symbol = true →
      hasFollowers (calls (NewManager subscriber heap) cs) symbol = true)
    ∧ ((∀ b ∈ subscriber.receiveErrs, b = false) →
        hasFollowers (calls (NewManager subscriber heap) cs) symbol = true →
        active (calls (NewManager subscriber heap) cs) symbol = true) := by
  obtain ⟨h1, h2⟩ := calls_invariant cs (NewManager subscriber heap)
  have b1 : ∀ x, active (NewManager subscriber heap) x = true →
      hasFollowers (NewManager subscriber heap) x = true := by
    intro x hx
    simp [active, NewManager, GoMap.contains, GoMap.lookup] at hx
  have b2 : ∀ x, hasFollowers (NewManager subscriber heap) x = true →
      active (NewManager subscriber heap) x = true := by
    intro x hx
    simp [hasFollowers, NewManager, GoMap.lookup] at hx
  exact ⟨h1 b1 symbol, fun hno => (h2 hno b2).2 symbol⟩

/-- C12 (amended) on the sample records: "alice" and "bob" register and "alice" leaves;
"BTC" is followed and subscribed, with no failing `Subscribe`. -/
theorem C12_active_iff_followed_unless_subscribe_fails_witness :
    active (calls (NewManager { subscriptions := [], receiveErrs := [false] } sampleHeap)
        [.register 0, .register 1, .unregister 0 ["ETH", "BTC"]]) "BTC" = true
    ∧ hasFollowers (calls (NewManager { subscriptions := [], receiveErrs := [false] } sampleHeap)
        [.register 0, .register 1, .unregister 0 ["ETH", "BTC"]]) "BTC" = true :=
  have h := C12_active_iff_followed_unless_subscribe_fails
    { subscriptions := [], receiveErrs := [false] } sampleHeap
    [.register 0, .register 1, .unregister 0 ["ETH", "BTC"]] "BTC"
  ⟨h.2 (by decide) (by decide), h.1 (h.2 (by decide) (by decide))⟩

/-! ### C21 -/

/-- C21 (fails on the code): "alice" registers with "BTCUSDT" in her portfolio. The keys of
`coinSubscribers` and of `activeRedisSub` are "BTCUSDT", which is not lower-case; she does
not follow "btcusdt"; and the price update for "btcusdt" leaves her `Send` queue empty. -/
theorem C21_upper_case_symbol_gets_no_view :
    GoMap.keys (calls (NewManager { subscriptions := [], receiveErrs := [] } upperHeap)
        [.register 0]).coinSubscribers = ["BTCUSDT"]
    ∧ GoMap.keys (calls (NewManager { subscriptions := [], receiveErrs := [] } upperHeap)
        [.register 0]).activeRedisSub = ["BTCUSDT"]
    ∧ ¬ StreamManager.LowerKeys
        (calls (NewManager { subscriptions := [], receiveErrs := [] } upperHeap)
          [.register 0]).coinSubscribers
    ∧ follows (calls (NewManager { subscriptions := [], receiveErrs := [] } upperHeap)
        [.register 0]) "btcusdt" "alice" = false
    ∧ ((processRedisMessage sampleUnmarshalMore
        (calls (NewManager { subscriptions := [], receiveErrs := [] } upperHeap) [.register 0])
        { Channel := "btcusdt", Payload := "\x7b\"s\":\"btcusdt\",\"p\":100\x7d" }
        ["alice"]).heap 0).Send.buf = [] := by
  decide

/-! ### C27 -/

/-- The method `processRedisMessage` leaves the registry and the follower sets as they
are. -/
theorem processRedisMessage_maps (unmarshal : String → Option PriceUpdate) (m : Manager)
    (msg : Message) (order : List UUID) :
    (processRedisMessage unmarshal m msg order).clients = m.clients
    ∧ (processRedisMessage unmarshal m msg order).coinSubscribers = m.coinSubscribers := by
  unfold processRedisMessage
  cases unmarshal msg.Payload with
  | none => exact ⟨rfl, rfl⟩
  | some pu =>
    simp only []
    cases GoMap.lookup pu.Symbol m.coinSubscribers with
    | none => exact ⟨rfl, rfl⟩
    | some users => exact (notifyAll_heap pu order m 0).2

/-- A round of the `Writer` keeps a registry keyed by identity. -/
theorem Keyed_writerReceives (m : Manager) (p : ClientPtr) (h : Keyed m) :
    Keyed (writerReceives m p) := by
  intro e he
  have hid : ((writerReceives m p).heap e.2).UserID = (m.heap e.2).UserID := by
    unfold writerReceives
    by_cases hq : e.2 = p
    · rw [hq]; simp
    · simp [Function.update_noteq hq]
  rw [hid]
  exact h e he

/-- A dropped view leaves the queue as it is and the price in the cache. -/
theorem pushUpdate_full (pu : PriceUpdate) (c : Client)
    (hfull : c.Send.buf.length = c.Send.cap) :
    (pushUpdate pu c).1 = { c with Prices := GoMap.insert pu.Symbol pu.Price c.Prices } := by
  simp [pushUpdate, Chan.trySend, hfull]

/-- C27: a follower `u` of the symbols of two price updates is registered with the client
`p`, whose `Send` queue is full. `processRedisMessage` on the first update leaves the queue
as it is (the view is dropped) and records the price in the cache of the client. After one
round of the `Writer`, `processRedisMessage` on the second update appends a view that
carries, for every coin of the portfolio, the price that the cache holds with both updates
recorded: for the symbol of the dropped update its price, unless the second update is for
the same symbol. -/
theorem C27_dropped_update_stays_in_cache (unmarshal : String → Option PriceUpdate)
    (m : Manager) (msg1 msg2 : Message) (order1 order2 : List UUID) (pu1 pu2 : PriceUpdate)
    (users1 users2 : GoMap UUID Bool) (u : UUID) (p : ClientPtr)
    (hmsg1 : unmarshal msg1.Payload = some pu1) (hmsg2 : unmarshal msg2.Payload = some pu2)
    (hS1 : GoMap.lookup pu1.Symbol m.coinSubscribers = some users1)
    (hS2 : GoMap.lookup pu2.Symbol m.coinSubscribers = some users2)
    (hord1 : order1.Perm (GoMap.keys users1)) (hwf1 : GoMap.WF users1)
    (hord2 : order2.Perm (GoMap.keys users2)) (hwf2 : GoMap.WF users2)
    (hkey : Keyed m)
    (hu1 : GoMap.contains users1 u = true) (hu2 : GoMap.contains users2 u = true)
    (hp : GoMap.lookup u m.clients = some p)
    (hfull : (m.heap p).Send.buf.length = (m.heap p).Send.cap)
    (hcap : 0 < (m.heap p).Send.cap) :
    ((processRedisMessage unmarshal m msg1 order1).heap p).Send = (m.heap p).Send
    ∧ ((processRedisMessage unmarshal m msg1 order1).heap p).Prices
      = GoMap.insert pu1.Symbol pu1.Price (m.heap p).Prices
    ∧ ((updateWriteUpdate unmarshal m msg1 order1 p msg2 order2).heap p).Send.buf
      = (m.heap p).Send.buf.tail ++
          [{ UserID := (m.heap p).UserID, UserName := (m.heap p).Profile.Name,
             TotalValue := (((m.heap p).Profile.Coins.map (coinView
               (GoMap.insert pu2.Symbol pu2.Price
                 (GoMap.insert pu1.Symbol pu1.Price (m.heap p).Prices)))).map
               CoinView.Total).sum,
             Coins := (m.heap p).Profile.Coins.map (coinView
               (GoMap.insert pu2.Symbol pu2.Price
                 (GoMap.insert pu1.Symbol pu1.Price (m.heap p).Prices))) }]
    ∧ (pu1.Symbol ≠ pu2.Symbol →
        GoMap.lookup pu1.Symbol (GoMap.insert pu2.Symbol pu2.Price
          (GoMap.insert pu1.Symbol pu1.Price (m.heap p).Prices)) = some pu1.Price)
    ∧ GoMap.lookup pu2.Symbol (GoMap.insert pu2.Symbol pu2.Price
        (GoMap.insert pu1.Symbol pu1.Price (m.heap p).Prices)) = some pu2.Price := by
  have h1 := processRedisMessage_heap unmarshal m msg1 order1 pu1 users1 u p hmsg1 hS1 hord1
    hwf1 hkey hu1 hp
  rw [pushUpdate_full pu1 (m.heap p) hfull] at h1
  obtain ⟨c1, s1⟩ := processRedisMessage_maps unmarshal m msg1 order1
  have hkey2 : Keyed (writerReceives (processRedisMessage unmarshal m msg1 order1) p) :=
    Keyed_writerReceives _ p (Keyed_processRedisMessage unmarshal m msg1 order1 hkey)
  have hheap2 : (writerReceives (processRedisMessage unmarshal m msg1 order1) p).heap p
      = { m.heap p with
            Prices := GoMap.insert pu1.Symbol pu1.Price (m.heap p).Prices,
            Send := { (m.heap p).Send with buf := (m.heap p).Send.buf.tail } } := by
    unfold writerReceives
    simp only [Function.update_same, h1]
  have h3 := processRedisMessage_heap unmarshal
    (writerReceives (processRedisMessage unmarshal m msg1 order1) p) msg2 order2 pu2 users2
    u p hmsg2 (by show GoMap.lookup pu2.Symbol _ = _; unfold writerReceives; simp only []
                  rw [s1]; exact hS2)
    hord2 hwf2 hkey2 hu2
    (by show GoMap.lookup u _ = _; unfold writerReceives; simp only []; rw [c1]; exact hp)
  refine ⟨by rw [h1], by rw [h1], ?_, ?_, GoMap.lookup_insert_self _ _ _⟩
  · unfold updateWriteUpdate
    rw [h3, hheap2]
    have hroom : (m.heap p).Send.buf.tail.length < (m.heap p).Send.cap := by
      rw [List.length_tail]
      omega
    simp only [pushUpdate, Chan.trySend]
    rw [if_pos hroom, buildPortfolio_eq]
  · intro hne
    rw [GoMap.lookup_insert_of_ne _ _ hne]
    exact GoMap.lookup_insert_self _ _ _

/-- C27 on the manager with a full queue: the update of 100 for "BTC" is dropped for
"alice" and recorded; after the `Writer` has taken a view, the update of 5 for "ETH" gives
her a view whose cache holds 100 for "BTC". -/
theorem C27_dropped_update_stays_in_cache_witness :
    ((processRedisMessage sampleUnmarshalMore fullManager
        { Channel := "BTC", Payload := "\x7b\"s\":\"BTC\",\"p\":100\x7d" } ["alice"]).heap 0).Send
      = (fullManager.heap 0).Send
    ∧ ((processRedisMessage sampleUnmarshalMore fullManager
        { Channel := "BTC", Payload := "\x7b\"s\":\"BTC\",\"p\":100\x7d" } ["alice"]).heap 0).Prices
      = GoMap.insert "BTC" 100 (fullManager.heap 0).Prices
    ∧ GoMap.lookup "BTC" (GoMap.insert "ETH" 5
          (GoMap.insert "BTC" 100 (fullManager.heap 0).Prices)) = some 100 :=
  have h := C27_dropped_update_stays_in_cache sampleUnmarshalMore fullManager
    { Channel := "BTC", Payload := "\x7b\"s\":\"BTC\",\"p\":100\x7d" }
    { Channel := "ETH", Payload := "\x7b\"s\":\"ETH\",\"p\":5\x7d" }
    ["alice"] ["alice"] { Symbol := "BTC", Price := 100 } { Symbol := "ETH", Price := 5 }
    [("alice", true)] [("alice", true)] "alice" 0
    (by decide) (by decide) (by decide) (by decide) (by decide) (by decide) (by decide)
    (by decide) (by decide) (by decide) (by decide) (by decide) (by decide) (by decide)
  ⟨h.1, h.2.1, h.2.2.2.1 (by decide)⟩

end Manager

namespace Authorization

namespace tokenService

open tokenRepository

theorem find_session (s : Session) (l : List Session)
    (hwf : (l.map (fun row => row.RefreshToken)).Nodup) (hs : s ∈ l) :
    l.find? (fun row => decide (row.RefreshToken = s.RefreshToken)) = some s := by
  induction l with
  | nil => cases hs
  | cons a rest ih =>
    rw [List.map_cons, List.nodup_cons] at hwf
    by_cases ha : a.RefreshToken = s.RefreshToken
    · have : s = a := by
        rcases List.mem_cons.1 hs with h | h
        · exact h
        · exact absurd (ha ▸ List.mem_map_of_mem (fun row => row.RefreshToken) h) hwf.1
      subst this
      simp
    · have hne : s ≠ a := fun h => ha (h ▸ rfl)
      have hmem : s ∈ rest := by
        rcases List.mem_cons.1 hs with h | h
        · exact absurd h hne
        · exact h
      rw [List.find?_cons_of_neg _ (by simpa using ha)]
      exact ih hwf.2 hmem

theorem filter_session (s : Session) (l : List Session)
    (hwf : (l.map (fun row => row.RefreshToken)).Nodup) (hs : s ∈ l) :
    l.filter (fun row => decide (¬ row.RefreshToken = s.RefreshToken))
      = l.filter (fun row => decide (row ≠ s)) := by
  apply List.filter_congr
  intro x hx
  by_cases hxs : x = s
  · subst hxs; simp
  · have : ¬ x.RefreshToken = s.RefreshToken := fun h =>
      hxs (List.inj_on_of_nodup_map hwf hx hs h)
    simp [this, hxs]

/-- A failed `RefreshToken` leaves the table as it was. -/
theorem RefreshToken_error (env : Env) (st : Store) (token : String) (err : Err)
    (h : (RefreshToken env st token).1 = .error err) : (RefreshToken env st token).2 = st := by
  unfold RefreshToken at h ⊢
  simp only [] at h ⊢
  cases h1 : GetByRefreshTokenHash st env.getFault (env.HashToken token) with
  | error e => rfl
  | ok session =>
    simp only [h1] at h ⊢
    by_cases hexp : env.now > session.ExpiresAt
    · rw [if_pos hexp]
    · rw [if_neg hexp] at h ⊢
      cases h2 : env.GetUserByID session.UserID with
      | error e => rfl
      | ok user =>
        simp only [h2] at h ⊢
        cases h3 : DeleteByRefreshTokenHash st env.deleteFault (env.HashToken token) with
        | mk r3 st1 =>
          cases r3 with
          | some e => rfl
          | none =>
            simp only [h3] at h ⊢
            cases h4 : generateTokenInTx env st1 user.ID user.Name with
            | mk r4 st2 =>
              cases r4 with
              | error e => rfl
              | ok tokens =>
                simp only [h4] at h
                cases h

/-- A successful `RefreshToken` with the refresh token of the session `s`. -/
theorem RefreshToken_ok (env : Env) (st : Store) (token : String) (s : Session)
    (tokens : String × String) (hwf : UniqueTokens st) (hs : s ∈ st.sessions)
    (htok : s.RefreshToken = env.HashToken token)
    (h : (RefreshToken env st token).1 = .ok tokens) :
    ¬ env.now > s.ExpiresAt
    ∧ ∃ user, env.GetUserByID s.UserID = .ok user
      ∧ (RefreshToken env st token).2
        = { sessions := st.sessions.filter (fun row => decide (row ≠ s))
              ++ [{ ID := st.nextID, UserID := user.ID,
                    RefreshToken := env.HashToken tokens.2, ExpiresAt := env.expiresAt }],
            nextID := st.nextID + 1 } := by
  have hfind := find_session s st.sessions hwf hs
  have hfilter := filter_session s st.sessions hwf hs
  rw [htok] at hfind hfilter
  unfold RefreshToken at h ⊢
  simp only [] at h ⊢
  cases hget : env.getFault with
  | some msg =>
    simp only [GetByRefreshTokenHash, hget] at h
    cases h
  | none =>
    have h1 : GetByRefreshTokenHash st none (env.HashToken token) = .ok s := by
      simp only [GetByRefreshTokenHash, hfind]
    simp only [hget, h1] at h ⊢
    by_cases hexp : env.now > s.ExpiresAt
    · rw [if_pos hexp] at h
      cases h
    · rw [if_neg hexp] at h ⊢
      refine ⟨hexp, ?_⟩
      cases h2 : env.GetUserByID s.UserID with
      | error e =>
        simp only [h2] at h
        cases h
      | ok user =>
        refine ⟨user, rfl, ?_⟩
        simp only [h2] at h ⊢
        cases hdel : env.deleteFault with
        | some msg =>
          simp only [DeleteByRefreshTokenHash, hdel] at h
          cases h
        | none =>
          simp only [DeleteByRefreshTokenHash, hdel, hfilter] at h ⊢
          split_ifs at h ⊢ with hrows
          · simp only [generateTokenInTx] at h ⊢
            cases hsign : env.SignedString user.ID user.Name with
            | error msg =>
              simp only [hsign] at h
              cases h
            | ok signed =>
              simp only [hsign] at h ⊢
              cases hrand : env.GenerateRandomString with
              | error msg =>
                simp only [hrand] at h
                cases h
              | ok refreshToken =>
                simp only [hrand] at h ⊢
                cases hcreate : env.createFault with
                | some msg =>
                  simp only [StoreRefreshToken, hcreate] at h
                  cases h
                | none =>
                  simp only [StoreRefreshToken, hcreate] at h ⊢
                  split_ifs at h ⊢ with hdup
                  simp only [Except.ok.injEq] at h
                  subst h
                  rfl

/-- After a successful `RefreshToken` whose new refresh token has another hash than the
presented one, the presented token is refused. -/
theorem RefreshToken_again (env2 : Env) (st : Store) (token : String) (s new : Session)
    (hwf : UniqueTokens st) (hs : s ∈ st.sessions)
    (htok : s.RefreshToken = env2.HashToken token)
    (hnew : new.RefreshToken ≠ env2.HashToken token) (next : Nat) :
    RefreshToken env2
        { sessions := st.sessions.filter (fun row => decide (row ≠ s)) ++ [new],
          nextID := next } token
      = (.error .ErrInvalidToken,
        { sessions := st.sessions.filter (fun row => decide (row ≠ s)) ++ [new],
          nextID := next }) := by
  have hnone : (st.sessions.filter (fun row => decide (row ≠ s)) ++ [new]).find?
      (fun row => decide (row.RefreshToken = env2.HashToken token)) = none := by
    rw [List.find?_eq_none]
    intro x hx
    rcases List.mem_append.1 hx with h | h
    · rw [List.mem_filter] at h
      have hxs : x ≠ s := by simpa using h.2
      have : ¬ x.RefreshToken = s.RefreshToken := fun e =>
        hxs (List.inj_on_of_nodup_map hwf h.1 hs e)
      simpa [htok] using this
    · have : x = new := by simpa using h
      rw [this]
      simpa using hnew
  unfold RefreshToken
  simp only []
  cases hget : env2.getFault with
  | some msg => rfl
  | none => simp only [GetByRefreshTokenHash, hget, hnone]

/-- C30: `RefreshToken` is called with the refresh token of a stored session `s`, the
column `refresh_token` holding no value twice and `GetUserByID` answering with the user of
the ID it is asked for. When the call succeeds, `s` had not expired, the table is the old
one without `s` followed by one new session, which is of the user of `s` and holds the hash
of the returned refresh token, and, the returned token having another hash than the
presented one, every later call with the presented token returns `ErrInvalidToken` and
leaves the table as it is. When the call fails, the table is as it was. -/
theorem C30_RefreshToken_rotates_session (env : Env) (st : Store) (token : String)
    (s : Session) (hwf : UniqueTokens st) (hs : s ∈ st.sessions)
    (htok : s.RefreshToken = env.HashToken token)
    (huser : ∀ id user, env.GetUserByID id = .ok user → user.ID = id) :
    (∀ tokens, (RefreshToken env st token).1 = .ok tokens →
      ¬ env.now > s.ExpiresAt
      ∧ (∃ new : Session, new.UserID = s.UserID
          ∧ new.RefreshToken = env.HashToken tokens.2
          ∧ (RefreshToken env st token).2.sessions
            = st.sessions.filter (fun row => decide (row ≠ s)) ++ [new])
      ∧ (env.HashToken tokens.2 ≠ env.HashToken token →
          ∀ env2 : Env, env2.HashToken = env.HashToken →
            RefreshToken env2 (RefreshToken env st token).2 token
              = (.error .ErrInvalidToken, (RefreshToken env st token).2)))
    ∧ (∀ err, (RefreshToken env st token).1 = .error err →
        (RefreshToken env st token).2 = st) := by
  refine ⟨fun tokens h => ?_, RefreshToken_error env st token⟩
  obtain ⟨hexp, user, hu, hst⟩ := RefreshToken_ok env st token s tokens hwf hs htok h
  refine ⟨hexp, ⟨_, huser _ _ hu, rfl, by rw [hst]⟩, fun hfresh env2 henv => ?_⟩
  rw [hst]
  exact RefreshToken_again env2 st token s _ hwf hs (by rw [henv]; exact htok)
    (by rw [henv]; exact hfresh) _

/-- C30 on a table with two sessions: the token `t1` of the first session is exchanged for
`t2`, and presenting `t1` again is refused. -/
theorem C30_RefreshToken_rotates_session_witness :
    (RefreshToken sampleEnv sampleStore "t1").1 = .ok ("jwt:u1:alice", "t2")
    ∧ ¬ sampleEnv.now > 500
    ∧ RefreshToken sampleEnv (RefreshToken sampleEnv sampleStore "t1").2 "t1"
      = (.error .ErrInvalidToken, (RefreshToken sampleEnv sampleStore "t1").2) :=
  have h := (C30_RefreshToken_rotates_session sampleEnv sampleStore "t1"
    { ID := 1, UserID := "u1", RefreshToken := "sha256:t1", ExpiresAt := 500 }
    (by decide) (by decide) (by decide)
    (fun id user hu => (by cases hu; rfl))).1 ("jwt:u1:alice", "t2") rfl
  ⟨rfl, h.1, h.2.2 (by decide) sampleEnv rfl⟩

end tokenService

end Authorization

end CryptoTracker
